import Mathlib

/-!
# cvxPoseEstimation.cpp : a shallow embedding

Embedding of `src/cvxPoseEstimation.cpp` (camera pose estimation by preemptive RANSAC and the
pose-representation helpers).

Modelling conventions.

* `double` pixel and world coordinates, and the reprojection threshold, are rationals (`ℚ`);
  NaN and infinities are outside the model of the RANSAC part.
* The pose-representation helpers are generic in their arithmetic.  Over `ℝ` they are the
  functions in exact real arithmetic.  Over `Fl` they are the functions in machine arithmetic:
  a `float` is an IEEE 754 binary32 value (`Fl Format.binary32`: NaN, the infinities, round
  to nearest with ties to even after every operation, no excess precision, gradual underflow,
  overflow to an infinity), and a `double` is a value of `Fl Format.exact`, whose arithmetic
  on finite numbers is taken as exact.
* `HypotheseLoss::loss_` is a `double` that starts at `0.0` and is only ever incremented by
  `1.0`; it holds a count and is embedded as a natural number.
* `cv::Mat` values that the function only passes around (`rvec`, `tvec`, `camera_matrix`,
  `dist_coeff`) are values of an arbitrary type `M`; `default : M` is the empty `Mat()`.
* OpenCV's `solvePnP`, `projectPoints` and `norm`, and the C++ library's `std::sort`, are not part
  of the repository: they are the fields of `Extern`.
* A `cv::Mat` is a header on shared data: copying a `Mat` copies the header, and `solvePnP`
  takes `rvec` and `tvec` as in/out arrays.  The solver is therefore a function to its return
  value and the contents of the two arrays after the call, and in the refinement step, where
  the two arrays are header copies of a hypothesis's pose, these contents are that pose's
  contents whether or not the call succeeded.
* `rand()` is a stream of naturals (`Rand`); a draw takes the head and keeps the tail.
* `assert` is taken as enabled; a failing assertion ends the run with `Outcome.assertFailed`.
* Loops that the source does not bound (`do ... while`, `while`) take a fuel argument.
-/

namespace CvxPoseEstimation

/-! ## Data model -/

/-- The type `cv::Point2d`. -/
structure Point2d where
  x : ℚ
  y : ℚ
  deriving DecidableEq

/-- The type `cv::Point3d`. -/
structure Point3d where
  x : ℚ
  y : ℚ
  z : ℚ
  deriving DecidableEq

instance : Inhabited Point2d := ⟨⟨0, 0⟩⟩

instance : Inhabited Point3d := ⟨⟨0, 0, 0⟩⟩

/-- The `operator-` of `cv::Point2d`. -/
instance : Sub Point2d := ⟨fun a b => ⟨a.x - b.x, a.y - b.y⟩⟩

/-- The `struct HypotheseLoss` (lines 76-126). -/
structure HypotheseLoss (M : Type) where
  loss_ : Nat
  rvec_ : M
  tvec_ : M
  inlier_indices_ : List Nat

/-- The comparison `HypotheseLoss::operator<` (lines 104-107). -/
def HypotheseLoss.lt {M : Type} (a other : HypotheseLoss M) : Bool :=
  decide (a.loss_ < other.loss_)

/-- The constructor `HypotheseLoss(const double loss)` followed by the two assignments of
lines 189-191: the inlier list starts empty. -/
def HypotheseLoss.ofCandidate {M : Type} (rt : M × M) : HypotheseLoss M :=
  { loss_ := 0, rvec_ := rt.1, tvec_ := rt.2, inlier_indices_ := [] }

/-- The external collaborators of `preemptiveRANSAC`. -/
structure Extern (M : Type) where
  /-- The call `cv::solvePnP(object, image, camera_matrix, dist_coeff, rvec, tvec,
  useExtrinsicGuess, CV_EPNP)`, `rvec` and `tvec` being in/out arrays: the result is the return
  value `is_solved` and the contents of `rvec` and of `tvec` after the call. -/
  solvePnP : List Point3d → List Point2d → M → M → M → M → Bool → Bool × M × M
  /-- The call `cv::projectPoints(object, rvec, tvec, camera_matrix, dist_coeff, projected)`. -/
  projectPoints : List Point3d → M → M → M → M → List Point2d
  /-- The `cv::norm` of a `cv::Point2d`. -/
  norm : Point2d → ℚ
  /-- The call `std::sort(first, last)` on a `vector<HypotheseLoss>`. -/
  sort : List (HypotheseLoss M) → List (HypotheseLoss M)

/-- The contract of `std::sort` with `operator<`: the result is a rearrangement of the input in
which no later element is less than an earlier one.  The order of equal elements is left open. -/
def StdSortContract {M : Type} (sort : List (HypotheseLoss M) → List (HypotheseLoss M)) : Prop :=
  ∀ l, (sort l).Perm l ∧ (sort l).Pairwise (fun a b => b.lt a = false)

/-- The contract of `cv::projectPoints`: one image point per object point. -/
def ProjectorContract {M : Type} (env : Extern M) : Prop :=
  ∀ pts rvec tvec cm dc, (env.projectPoints pts rvec tvec cm dc).length = pts.length

/-- The stream of values returned by successive calls of `rand()`. -/
abbrev Rand := Nat → Nat

/-- One call of `rand()`: the value returned and the rest of the stream. -/
def rand (g : Rand) : Nat × Rand := (g 0, fun n => g (n + 1))

/-- The constant `const int num_iteration = 2048;` (line 139). -/
def num_iteration : Nat := 2048

/-- The initial value of `int K = 1024;` (line 140). -/
def K : Nat := 1024

/-- The constant `const int B = 500;` (line 142). -/
def B : Nat := 500

/-- The `struct PreemptiveRANSACParameter`, declared in the header; the function reads one field. -/
structure PreemptiveRANSACParameter where
  reproj_threshold : ℚ

/-- How a run of `preemptiveRANSAC` ends. -/
inductive Outcome (M : Type) where
  /-- The function returned `ret`; `rvec`, `tvec` are the pose of `losses.front()` from which
  lines 257-272 assemble `camera_pose`. -/
  | returned (ret : Bool) (rvec tvec : M)
  /-- The `assert` at source line `line` failed. -/
  | assertFailed (line : Nat)
  /-- A loop did not exit within the fuel given. -/
  | outOfFuel
  deriving DecidableEq

/-! ## Seeding (lines 144-193) -/

/-- The `do ... while` of lines 152-158: draw four indices until they are pairwise distinct. -/
def drawSample (N : Nat) : Nat → Rand → Option ((Nat × Nat × Nat × Nat) × Rand)
  | 0, _ => none
  | fuel + 1, g =>
    let k1 := (rand g).1 % N
    let g := (rand g).2
    let k2 := (rand g).1 % N
    let g := (rand g).2
    let k3 := (rand g).1 % N
    let g := (rand g).2
    let k4 := (rand g).1 % N
    let g := (rand g).2
    if k1 = k2 ∨ k1 = k3 ∨ k1 = k4 ∨ k2 = k3 ∨ k2 = k4 ∨ k3 = k4 then
      drawSample N fuel g
    else
      some ((k1, k2, k3, k4), g)

/-- The `for` loop of lines 145-181, with `remaining` iterations still to run. -/
def initLoop {M : Type} [Inhabited M] (env : Extern M)
    (img_pts : List Point2d) (wld_pts : List Point3d) (camera_matrix dist_coeff : M)
    (N fuel : Nat) : Nat → Rand → List (M × M) → Option (List (M × M) × Rand)
  | 0, g, rt_candidate => some (rt_candidate, g)
  | remaining + 1, g, rt_candidate =>
    match drawSample N fuel g with
    | none => none
    | some ((k1, k2, k3, _), g) =>
      let sampled_img_pts := [img_pts.getD k1 default, img_pts.getD k2 default,
        img_pts.getD k3 default]
      let sampled_wld_pts := [wld_pts.getD k1 default, wld_pts.getD k2 default,
        wld_pts.getD k3 default]
      let solved := env.solvePnP sampled_wld_pts sampled_img_pts camera_matrix dist_coeff
        default default false
      let rt_candidate :=
        if solved.1 then rt_candidate ++ [(solved.2.1, solved.2.2)] else rt_candidate
      if rt_candidate.length > K then
        some (rt_candidate, g)
      else
        initLoop env img_pts wld_pts camera_matrix dist_coeff N fuel remaining g rt_candidate

/-! ## Tournament (lines 195-253) -/

/-- The block draw of lines 200-204, with `n` draws still to make. -/
def sampleBlock (img_pts : List Point2d) (wld_pts : List Point3d) (N : Nat) :
    Nat → Rand → List Point2d → List Point3d → List Point2d × List Point3d × Rand
  | 0, g, sampled_img_pts, sampled_wld_pts => (sampled_img_pts, sampled_wld_pts, g)
  | n + 1, g, sampled_img_pts, sampled_wld_pts =>
    let index := (rand g).1 % N
    sampleBlock img_pts wld_pts N n (rand g).2
      (sampled_img_pts ++ [img_pts.getD index default])
      (sampled_wld_pts ++ [wld_pts.getD index default])

/-- The body of the inner loop, lines 212-219, for the `j`-th projected point. -/
def scorePoint {M : Type} (env : Extern M) (reproj_threshold : ℚ)
    (sampled_img_pts : List Point2d) (p : Point2d) (j : Nat) (h : HypotheseLoss M) :
    HypotheseLoss M :=
  let dif := p - sampled_img_pts.getD j default
  let dis := env.norm dif
  if dis > reproj_threshold then
    { h with loss_ := h.loss_ + 1 }
  else
    { h with inlier_indices_ := h.inlier_indices_ ++ [j] }

/-- The inner loop of lines 211-220 over the projected points not yet visited, the next one
having index `j`. -/
def scoreLoop {M : Type} (env : Extern M) (reproj_threshold : ℚ)
    (sampled_img_pts : List Point2d) : List Point2d → Nat → HypotheseLoss M → HypotheseLoss M
  | [], _, h => h
  | p :: rest, j, h =>
    scoreLoop env reproj_threshold sampled_img_pts rest (j + 1)
      (scorePoint env reproj_threshold sampled_img_pts p j h)

/-- The body of the outer loop, lines 209-220, for one hypothesis. -/
def scoreHyp {M : Type} (env : Extern M) (camera_matrix dist_coeff : M) (reproj_threshold : ℚ)
    (sampled_img_pts : List Point2d) (sampled_wld_pts : List Point3d) (h : HypotheseLoss M) :
    HypotheseLoss M :=
  let projected_pts := env.projectPoints sampled_wld_pts h.rvec_ h.tvec_ camera_matrix dist_coeff
  scoreLoop env reproj_threshold sampled_img_pts projected_pts 0 h

/-- Lines 223-224: `std::sort` and `resize(size()/2)`. -/
def eliminate {M : Type} (env : Extern M) (losses : List (HypotheseLoss M)) :
    List (HypotheseLoss M) :=
  let losses := env.sort losses
  losses.take (losses.length / 2)

/-- The body of the refinement loop, lines 235-251, for one hypothesis.  Lines 244-245 make
`rvec` and `tvec` header copies of `losses[i].rvec_` and `losses[i].tvec_`, so what the solver
writes into the two arrays at line 246 is written into the hypothesis's pose; lines 247-250
then assign the same headers back when the call succeeded. -/
def refineHyp {M : Type} (env : Extern M) (camera_matrix dist_coeff : M)
    (sampled_img_pts : List Point2d) (sampled_wld_pts : List Point3d) (h : HypotheseLoss M) :
    HypotheseLoss M :=
  if h.inlier_indices_.length > 4 then
    let inlier_img_pts := h.inlier_indices_.map (fun index => sampled_img_pts.getD index default)
    let inlier_wld_pts := h.inlier_indices_.map (fun index => sampled_wld_pts.getD index default)
    let solved := env.solvePnP inlier_wld_pts inlier_img_pts camera_matrix dist_coeff
      h.rvec_ h.tvec_ true
    let h := { h with rvec_ := solved.2.1, tvec_ := solved.2.2 }
    if solved.1 then
      { h with rvec_ := solved.2.1, tvec_ := solved.2.2 }
    else
      h
  else
    h

/-- One pass through the body of the `while` loop, lines 197-252. -/
def round {M : Type} (env : Extern M) (img_pts : List Point2d) (wld_pts : List Point3d)
    (camera_matrix dist_coeff : M) (reproj_threshold : ℚ) (N : Nat)
    (losses : List (HypotheseLoss M)) (g : Rand) : List (HypotheseLoss M) × Rand :=
  let block := sampleBlock img_pts wld_pts N B g [] []
  let sampled_img_pts := block.1
  let sampled_wld_pts := block.2.1
  let losses := losses.map
    (scoreHyp env camera_matrix dist_coeff reproj_threshold sampled_img_pts sampled_wld_pts)
  let losses := eliminate env losses
  let losses := losses.map (refineHyp env camera_matrix dist_coeff sampled_img_pts sampled_wld_pts)
  (losses, block.2.2)

/-- The `while (losses.size() > 1)` loop of lines 196-253.  The result is the final pool, the
number of rounds run and the rest of the random stream; `none` when the fuel ran out. -/
def tournament {M : Type} (env : Extern M) (img_pts : List Point2d) (wld_pts : List Point3d)
    (camera_matrix dist_coeff : M) (reproj_threshold : ℚ) (N : Nat) :
    Nat → List (HypotheseLoss M) → Rand → Option (List (HypotheseLoss M) × Nat × Rand)
  | 0, losses, g => if losses.length > 1 then none else some (losses, 0, g)
  | fuel + 1, losses, g =>
    if losses.length > 1 then
      let r := round env img_pts wld_pts camera_matrix dist_coeff reproj_threshold N losses g
      match tournament env img_pts wld_pts camera_matrix dist_coeff reproj_threshold N
          fuel r.1 r.2 with
      | some (final, rounds, g) => some (final, rounds + 1, g)
      | none => none
    else
      some (losses, 0, g)

/-- The function `CvxPoseEstimation::preemptiveRANSAC` (lines 129-275).  `fuel` bounds each run of the
`do ... while` and the number of rounds of the `while`. -/
def preemptiveRANSAC {M : Type} [Inhabited M] (env : Extern M) (fuel : Nat)
    (img_pts : List Point2d) (wld_pts : List Point3d) (camera_matrix dist_coeff : M)
    (param : PreemptiveRANSACParameter) (g : Rand) : Outcome M :=
  if img_pts.length ≠ wld_pts.length then Outcome.assertFailed 136
  else if ¬ img_pts.length > 500 then Outcome.assertFailed 137
  else
    let N := img_pts.length
    match initLoop env img_pts wld_pts camera_matrix dist_coeff N fuel num_iteration g [] with
    | none => Outcome.outOfFuel
    | some (rt_candidate, g) =>
      let losses := rt_candidate.map HypotheseLoss.ofCandidate
      let reproj_threshold := param.reproj_threshold
      match tournament env img_pts wld_pts camera_matrix dist_coeff reproj_threshold N
          fuel losses g with
      | none => Outcome.outOfFuel
      | some (losses, _, _) =>
        if losses.length ≠ 1 then Outcome.assertFailed 255
        else
          match losses with
          | h :: _ => Outcome.returned true h.rvec_ h.tvec_
          | [] => Outcome.assertFailed 255

/-- The test of line 214 for the projected point `jp.2` at block position `jp.1`: its
reprojection distance exceeds the threshold. -/
def outlierAt {M : Type} (env : Extern M) (reproj_threshold : ℚ)
    (sampled_img_pts : List Point2d) (jp : Nat × Point2d) : Bool :=
  decide (env.norm (jp.2 - sampled_img_pts.getD jp.1 default) > reproj_threshold)

/-- The number of points of the block that the scoring loop counts against hypothesis `h`:
the projected points whose reprojection distance exceeds the threshold. -/
def outlierCount {M : Type} (env : Extern M) (camera_matrix dist_coeff : M)
    (reproj_threshold : ℚ) (sampled_img_pts : List Point2d) (sampled_wld_pts : List Point3d)
    (h : HypotheseLoss M) : Nat :=
  ((env.projectPoints sampled_wld_pts h.rvec_ h.tvec_ camera_matrix dist_coeff).enum.filter
    (outlierAt env reproj_threshold sampled_img_pts)).length

/-- The block positions that the scoring loop records as inliers of hypothesis `h`: those of
the projected points whose reprojection distance is within the threshold. -/
def inliersOfRound {M : Type} (env : Extern M) (camera_matrix dist_coeff : M)
    (reproj_threshold : ℚ) (sampled_img_pts : List Point2d) (sampled_wld_pts : List Point3d)
    (h : HypotheseLoss M) : List Nat :=
  ((env.projectPoints sampled_wld_pts h.rvec_ h.tvec_ camera_matrix dist_coeff).enum.filter
    (fun jp => !outlierAt env reproj_threshold sampled_img_pts jp)).map Prod.fst

/-! ## Traces of the seeding and of the tournament -/

/-- The values taken by `index` at line 201 in `n` passes of the block loop. -/
def blockIndices (N n : Nat) (g : Rand) : List Nat :=
  (List.range n).map (fun i => g i % N)

/-- The samples `(k1, k2, k3)` whose points the seeding loop hands to `cv::solvePnP` at line
173, in order; the recursion is that of `initLoop`. -/
def initSamples {M : Type} [Inhabited M] (env : Extern M)
    (img_pts : List Point2d) (wld_pts : List Point3d) (camera_matrix dist_coeff : M)
    (N fuel : Nat) : Nat → Rand → List (M × M) → Option (List (Nat × Nat × Nat))
  | 0, _, _ => some []
  | remaining + 1, g, rt_candidate =>
    match drawSample N fuel g with
    | none => none
    | some ((k1, k2, k3, _), g) =>
      let sampled_img_pts := [img_pts.getD k1 default, img_pts.getD k2 default,
        img_pts.getD k3 default]
      let sampled_wld_pts := [wld_pts.getD k1 default, wld_pts.getD k2 default,
        wld_pts.getD k3 default]
      let solved := env.solvePnP sampled_wld_pts sampled_img_pts camera_matrix dist_coeff
        default default false
      let rt_candidate :=
        if solved.1 then rt_candidate ++ [(solved.2.1, solved.2.2)] else rt_candidate
      if rt_candidate.length > K then
        some [(k1, k2, k3)]
      else
        (initSamples env img_pts wld_pts camera_matrix dist_coeff N fuel remaining g
          rt_candidate).map (fun rest => (k1, k2, k3) :: rest)

/-- The pool and the random stream after `r` passes through the body of the `while` loop. -/
def iterRounds {M : Type} (env : Extern M) (img_pts : List Point2d) (wld_pts : List Point3d)
    (camera_matrix dist_coeff : M) (reproj_threshold : ℚ) (N : Nat) :
    Nat → List (HypotheseLoss M) → Rand → List (HypotheseLoss M) × Rand
  | 0, losses, g => (losses, g)
  | r + 1, losses, g =>
    iterRounds env img_pts wld_pts camera_matrix dist_coeff reproj_threshold N r
      (round env img_pts wld_pts camera_matrix dist_coeff reproj_threshold N losses g).1
      (round env img_pts wld_pts camera_matrix dist_coeff reproj_threshold N losses g).2

/-! ## Floating-point numbers -/

/-- Rounding to the nearest integer, a tie going to the even neighbour. -/
def roundHalfEven {α : Type} [LinearOrderedField α] [FloorRing α] (y : α) : ℤ :=
  let n := ⌊y⌋
  if y - n < 1 / 2 then n
  else if 1 / 2 < y - n then n + 1
  else if n % 2 = 0 then n else n + 1

/-- Rounding of an exact value to the nearest binary floating-point number with `p` significant
bits and least exponent `emin` (round to nearest, ties to even; gradual underflow); the
exponent is not bounded above. -/
def roundTo {α : Type} [LinearOrderedField α] [FloorRing α] (p : ℕ) (emin : ℤ) (x : α) : α :=
  let e := max (Int.log 2 |x|) emin
  let ulp := (2 : α) ^ (e - ((p : ℤ) - 1))
  roundHalfEven (x / ulp) * ulp

/-- A floating-point format: how an exact result is rounded, and which rounded results are
too large to be finite. -/
structure Format (α : Type) where
  round : α → α
  overflows : α → Bool

/-- The largest finite `float`, `(2 - 2⁻²³) * 2¹²⁷`. -/
def FLT_MAX {α : Type} [LinearOrderedField α] : α := 340282346638528859811704183484516925440

/-- The type `float`: IEEE 754 binary32, 24 significant bits, exponents from -126 to 127. -/
def Format.binary32 {α : Type} [LinearOrderedField α] [FloorRing α] : Format α where
  round := roundTo 24 (-126)
  overflows := fun y => decide (FLT_MAX < |y|)

/-- The type `double`, its arithmetic taken as exact: no rounding and no overflow. -/
def Format.exact {α : Type} : Format α where
  round := fun x => x
  overflows := fun _ => false

/-- A floating-point value of format `f`: NaN, an infinity or a finite number.  The two zeros
are not told apart: the only divisor of the code that can be zero is a square root of a sum of
squares, which is never `-0`. -/
inductive Fl {α : Type} (f : Format α) where
  | nan : Fl f
  | ninf : Fl f
  | fin (x : α) : Fl f
  | pinf : Fl f

/-- The floating-point value of an exact result: rounded, and an infinity on overflow. -/
def Fl.ofExact {α : Type} [LinearOrderedField α] (f : Format α) (x : α) : Fl f :=
  if f.overflows (f.round x) then (if 0 < f.round x then Fl.pinf else Fl.ninf)
  else Fl.fin (f.round x)

/-- Unary minus. -/
def Fl.neg {α : Type} [LinearOrderedField α] {f : Format α} : Fl f → Fl f
  | Fl.nan => Fl.nan
  | Fl.ninf => Fl.pinf
  | Fl.fin x => Fl.fin (-x)
  | Fl.pinf => Fl.ninf

/-- Addition; `∞ - ∞` is NaN. -/
def Fl.add {α : Type} [LinearOrderedField α] {f : Format α} : Fl f → Fl f → Fl f
  | Fl.fin x, Fl.fin y => Fl.ofExact f (x + y)
  | Fl.fin _, Fl.pinf => Fl.pinf
  | Fl.fin _, Fl.ninf => Fl.ninf
  | Fl.pinf, Fl.fin _ => Fl.pinf
  | Fl.pinf, Fl.pinf => Fl.pinf
  | Fl.ninf, Fl.fin _ => Fl.ninf
  | Fl.ninf, Fl.ninf => Fl.ninf
  | _, _ => Fl.nan

/-- Multiplication; `0 * ∞` is NaN. -/
def Fl.mul {α : Type} [LinearOrderedField α] {f : Format α} : Fl f → Fl f → Fl f
  | Fl.fin x, Fl.fin y => Fl.ofExact f (x * y)
  | Fl.fin x, Fl.pinf => if x = 0 then Fl.nan else if 0 < x then Fl.pinf else Fl.ninf
  | Fl.fin x, Fl.ninf => if x = 0 then Fl.nan else if 0 < x then Fl.ninf else Fl.pinf
  | Fl.pinf, Fl.fin y => if y = 0 then Fl.nan else if 0 < y then Fl.pinf else Fl.ninf
  | Fl.ninf, Fl.fin y => if y = 0 then Fl.nan else if 0 < y then Fl.ninf else Fl.pinf
  | Fl.pinf, Fl.pinf => Fl.pinf
  | Fl.ninf, Fl.ninf => Fl.pinf
  | Fl.pinf, Fl.ninf => Fl.ninf
  | Fl.ninf, Fl.pinf => Fl.ninf
  | _, _ => Fl.nan

/-- Division; `0 / 0` and `∞ / ∞` are NaN, a non-zero number over zero is an infinity. -/
def Fl.div {α : Type} [LinearOrderedField α] {f : Format α} : Fl f → Fl f → Fl f
  | Fl.fin x, Fl.fin y =>
    if y = 0 then (if x = 0 then Fl.nan else if 0 < x then Fl.pinf else Fl.ninf)
    else Fl.ofExact f (x / y)
  | Fl.fin _, Fl.pinf => Fl.fin 0
  | Fl.fin _, Fl.ninf => Fl.fin 0
  | Fl.pinf, Fl.fin y => if 0 ≤ y then Fl.pinf else Fl.ninf
  | Fl.ninf, Fl.fin y => if 0 ≤ y then Fl.ninf else Fl.pinf
  | _, _ => Fl.nan

/-- The comparison `<`; false as soon as one side is NaN. -/
def Fl.lt {α : Type} [LinearOrderedField α] {f : Format α} : Fl f → Fl f → Bool
  | Fl.fin x, Fl.fin y => decide (x < y)
  | Fl.fin _, Fl.pinf => true
  | Fl.ninf, Fl.fin _ => true
  | Fl.ninf, Fl.pinf => true
  | _, _ => false

/-- The comparison `<=`; false as soon as one side is NaN. -/
def Fl.le {α : Type} [LinearOrderedField α] {f : Format α} : Fl f → Fl f → Bool
  | Fl.fin x, Fl.fin y => decide (x ≤ y)
  | Fl.fin _, Fl.pinf => true
  | Fl.ninf, Fl.fin _ => true
  | Fl.ninf, Fl.pinf => true
  | Fl.ninf, Fl.ninf => true
  | Fl.pinf, Fl.pinf => true
  | _, _ => false

instance {α : Type} [LinearOrderedField α] {f : Format α} : Neg (Fl f) := ⟨Fl.neg⟩

instance {α : Type} [LinearOrderedField α] {f : Format α} : Add (Fl f) := ⟨Fl.add⟩

instance {α : Type} [LinearOrderedField α] {f : Format α} : Sub (Fl f) :=
  ⟨fun a b => Fl.add a (Fl.neg b)⟩

instance {α : Type} [LinearOrderedField α] {f : Format α} : Mul (Fl f) := ⟨Fl.mul⟩

instance {α : Type} [LinearOrderedField α] {f : Format α} : Div (Fl f) := ⟨Fl.div⟩

instance {α : Type} [LinearOrderedField α] {f : Format α} : LT (Fl f) :=
  ⟨fun a b => Fl.lt a b = true⟩

instance {α : Type} [LinearOrderedField α] {f : Format α} : LE (Fl f) :=
  ⟨fun a b => Fl.le a b = true⟩

instance {α : Type} [LinearOrderedField α] {f : Format α} :
    DecidableRel (fun a b : Fl f => a < b) :=
  fun a b => decEq (Fl.lt a b) true

instance {α : Type} [LinearOrderedField α] {f : Format α} :
    DecidableRel (fun a b : Fl f => a ≤ b) :=
  fun a b => decEq (Fl.le a b) true

instance {α : Type} [LinearOrderedField α] {f : Format α} : Zero (Fl f) := ⟨Fl.ofExact f 0⟩

instance {α : Type} [LinearOrderedField α] {f : Format α} : One (Fl f) := ⟨Fl.ofExact f 1⟩

instance {α : Type} [LinearOrderedField α] {f : Format α} (n : ℕ) [n.AtLeastTwo] :
    OfNat (Fl f) n :=
  ⟨Fl.ofExact f n⟩

instance {α : Type} [LinearOrderedField α] {f : Format α} : OfScientific (Fl f) :=
  ⟨fun m s e => Fl.ofExact f (OfScientific.ofScientific m s e)⟩

/-- The library function `sqrt` on values of format `f`, from the exact square root `sqrt`:
NaN below zero, correctly rounded otherwise. -/
def Fl.sqrt {α : Type} [LinearOrderedField α] (f : Format α) (sqrt : α → α) : Fl f → Fl f
  | Fl.fin x => if x < 0 then Fl.nan else Fl.ofExact f (sqrt x)
  | Fl.pinf => Fl.pinf
  | _ => Fl.nan

/-- The library function `acos` on values of format `f`, from the exact arc cosine `acos`:
NaN outside `[-1, 1]`. -/
def Fl.acos {α : Type} [LinearOrderedField α] (f : Format α) (acos : α → α) : Fl f → Fl f
  | Fl.fin x => if x < -1 ∨ 1 < x then Fl.nan else Fl.ofExact f (acos x)
  | _ => Fl.nan

/-- Conversion of a floating-point value to the format `g`. -/
def Fl.convert {α : Type} [LinearOrderedField α] {f : Format α} (g : Format α) : Fl f → Fl g
  | Fl.nan => Fl.nan
  | Fl.ninf => Fl.ninf
  | Fl.fin x => Fl.ofExact g x
  | Fl.pinf => Fl.pinf

/-- The type `φ` of the `float` values that go with the `double` values of type `δ`:
`narrow` is the conversion in `float r = d`, `widen` the one in `d = r`. -/
class Narrowing (δ : Type) (φ : outParam Type) where
  narrow : δ → φ
  widen : φ → δ

/-- Exact arithmetic: in an ordered field `float` and `double` are the field itself and the
conversions change nothing. -/
instance {α : Type} [LinearOrderedField α] : Narrowing α α := ⟨fun x => x, fun x => x⟩

/-- Machine arithmetic: `float` is binary32, and every `float` is a `double`. -/
instance {α : Type} [LinearOrderedField α] [FloorRing α] :
    Narrowing (Fl (Format.exact : Format α)) (Fl (Format.binary32 : Format α)) :=
  ⟨Fl.convert Format.binary32, Fl.convert Format.exact⟩

/-! ## Pose representation: `rotationToQuaternion` (lines 346-413) -/

/-- A 3x3 `cv::Mat` of type `CV_64FC1`, entry `rij` being `rot.at<double>(i-1, j-1)`; the two
assertions of lines 348-349 hold by typing. -/
structure Mat3 (α : Type) where
  r11 : α
  r12 : α
  r13 : α
  r21 : α
  r22 : α
  r23 : α
  r31 : α
  r32 : α
  r33 : α

/-- The 4x1 matrix `ret` of `rotationToQuaternion`: `w`, `x`, `y`, `z` are its rows 0 to 3. -/
structure Quaternion (α : Type) where
  w : α
  x : α
  y : α
  z : α

/-- The matrix with `g` applied to every entry. -/
def Mat3.map {α β : Type} (g : α → β) (rot : Mat3 α) : Mat3 β :=
  { r11 := g rot.r11, r12 := g rot.r12, r13 := g rot.r13
    r21 := g rot.r21, r22 := g rot.r22, r23 := g rot.r23
    r31 := g rot.r31, r32 := g rot.r32, r33 := g rot.r33 }

/-- The quaternion with `g` applied to every component. -/
def Quaternion.map {α β : Type} (g : α → β) (q : Quaternion α) : Quaternion β :=
  ⟨g q.w, g q.x, g q.y, g q.z⟩

/-- A matrix of finite `double` values. -/
def Mat3.toDouble {α : Type} (rot : Mat3 α) : Mat3 (Fl (Format.exact : Format α)) :=
  rot.map Fl.fin

/-- A 4x4 pose of finite `double` values. -/
def poseToDouble {α : Type} (pose : Matrix (Fin 4) (Fin 4) α) :
    Matrix (Fin 4) (Fin 4) (Fl (Format.exact : Format α)) :=
  fun i j => Fl.fin (pose i j)

/-- Modelled from the spec: `CvxPoseEstimation::SIGN` is declared in `cvxPoseEstimation.hpp`,
which is not among the sources; it is `+1` for `x ≥ 0` and `-1` otherwise. -/
def SIGN {φ : Type} [Zero φ] [One φ] [Neg φ] [LE φ] [DecidableRel (fun a b : φ => a ≤ b)]
    (x : φ) : φ :=
  if x ≥ 0 then 1 else -1

/-- Modelled from the spec: `CvxPoseEstimation::NORM` is declared in `cvxPoseEstimation.hpp`,
which is not among the sources; it is the Euclidean norm of its four arguments.  The square
root is the argument `sqrt`. -/
def NORM {φ : Type} [Add φ] [Mul φ] (sqrt : φ → φ) (a b c d : φ) : φ :=
  sqrt (a * a + b * b + c * c + d * d)

/-- Lines 363-374: the four candidates, clamped at zero, and their square roots, in the
arithmetic of the type `φ` of the `float` variables. -/
def quaternionCandidates {φ : Type} [Zero φ] [One φ] [OfNat φ 4] [Add φ] [Sub φ] [Div φ]
    [Neg φ] [LT φ] [DecidableRel (fun a b : φ => a < b)] (sqrt : φ → φ) (rot : Mat3 φ) :
    φ × φ × φ × φ :=
  let q0 := (rot.r11 + rot.r22 + rot.r33 + 1) / 4
  let q1 := (rot.r11 - rot.r22 - rot.r33 + 1) / 4
  let q2 := (-rot.r11 + rot.r22 - rot.r33 + 1) / 4
  let q3 := (-rot.r11 - rot.r22 + rot.r33 + 1) / 4
  let q0 := if q0 < 0 then 0 else q0
  let q1 := if q1 < 0 then 0 else q1
  let q2 := if q2 < 0 then 0 else q2
  let q3 := if q3 < 0 then 0 else q3
  (sqrt q0, sqrt q1, sqrt q2, sqrt q3)

/-- Lines 375-399: the choice of the pivot and the signs of the other three components;
`none` is the final `else` branch, which ends in `assert(0)`. -/
def signedQuaternion {φ : Type} [Zero φ] [One φ] [OfNat φ 4] [Add φ] [Sub φ] [Mul φ] [Div φ]
    [Neg φ] [LT φ] [LE φ] [DecidableRel (fun a b : φ => a < b)]
    [DecidableRel (fun a b : φ => a ≤ b)] (sqrt : φ → φ) (rot : Mat3 φ) :
    Option (Quaternion φ) :=
  let q0 := (quaternionCandidates sqrt rot).1
  let q1 := (quaternionCandidates sqrt rot).2.1
  let q2 := (quaternionCandidates sqrt rot).2.2.1
  let q3 := (quaternionCandidates sqrt rot).2.2.2
  if q0 ≥ q1 ∧ q0 ≥ q2 ∧ q0 ≥ q3 then
    some ⟨q0 * 1, q1 * SIGN (rot.r32 - rot.r23), q2 * SIGN (rot.r13 - rot.r31),
      q3 * SIGN (rot.r21 - rot.r12)⟩
  else if q1 ≥ q0 ∧ q1 ≥ q2 ∧ q1 ≥ q3 then
    some ⟨q0 * SIGN (rot.r32 - rot.r23), q1 * 1, q2 * SIGN (rot.r21 + rot.r12),
      q3 * SIGN (rot.r13 + rot.r31)⟩
  else if q2 ≥ q0 ∧ q2 ≥ q1 ∧ q2 ≥ q3 then
    some ⟨q0 * SIGN (rot.r13 - rot.r31), q1 * SIGN (rot.r21 + rot.r12), q2 * 1,
      q3 * SIGN (rot.r32 + rot.r23)⟩
  else if q3 ≥ q0 ∧ q3 ≥ q1 ∧ q3 ≥ q2 then
    some ⟨q0 * SIGN (rot.r21 - rot.r12), q1 * SIGN (rot.r31 + rot.r13),
      q2 * SIGN (rot.r32 + rot.r23), q3 * 1⟩
  else
    none

/-- Lines 400-404: division of the four components by their `NORM`. -/
def normalizeQuaternion {φ : Type} [Add φ] [Mul φ] [Div φ] (sqrt : φ → φ) (q : Quaternion φ) :
    Quaternion φ :=
  let r := NORM sqrt q.w q.x q.y q.z
  ⟨q.w / r, q.x / r, q.y / r, q.z / r⟩

/-- The library function `sqrt` applied to a `float` and assigned to a `float`: the argument
is widened to `double` and the result narrowed. -/
def floatSqrt {δ φ : Type} [Narrowing δ φ] (sqrt : δ → δ) (x : φ) : φ :=
  Narrowing.narrow (sqrt (Narrowing.widen x))

/-- The function `CvxPoseEstimation::rotationToQuaternion` (lines 346-413).  The matrix holds
`double` values, of type `δ`; lines 353-361 narrow its entries to `float`, of type `φ`, lines
363-404 compute in `float`, and lines 406-409 widen the result.  With `δ = φ = ℝ` this is the
function in exact real arithmetic; with `δ = Fl Format.exact` and `φ = Fl Format.binary32` it
is the function in machine arithmetic. -/
def rotationToQuaternion {δ φ : Type} [Narrowing δ φ] [Zero φ] [One φ] [OfNat φ 4] [Add φ]
    [Sub φ] [Mul φ] [Div φ] [Neg φ] [LT φ] [LE φ] [DecidableRel (fun a b : φ => a < b)]
    [DecidableRel (fun a b : φ => a ≤ b)] (sqrt : δ → δ) (rot : Mat3 δ) :
    Option (Quaternion δ) :=
  (signedQuaternion (floatSqrt sqrt) (rot.map Narrowing.narrow)).map
    (fun s => (normalizeQuaternion (floatSqrt sqrt) s).map Narrowing.widen)

/-- The entries of a `Mat3` as a matrix. -/
def Mat3.toMatrix {α : Type} (rot : Mat3 α) : Matrix (Fin 3) (Fin 3) α :=
  fun i j =>
    match i, j with
    | 0, 0 => rot.r11
    | 0, 1 => rot.r12
    | 0, 2 => rot.r13
    | 1, 0 => rot.r21
    | 1, 1 => rot.r22
    | 1, 2 => rot.r23
    | 2, 0 => rot.r31
    | 2, 1 => rot.r32
    | 2, 2 => rot.r33

/-- An orthonormal rotation matrix: `Rᵀ R = I` and `det R = 1`. -/
def IsRotation (rot : Mat3 ℝ) : Prop :=
  rot.toMatrix.transpose * rot.toMatrix = 1 ∧ rot.toMatrix.det = 1

/-- The rotation matrix of a unit quaternion `(w, x, y, z)` by the standard formula; it is not
part of the source and serves to state the round trip. -/
def quaternionToRotation {α : Type} [LinearOrderedField α] (q : Quaternion α) : Mat3 α :=
  { r11 := 1 - 2 * (q.y * q.y + q.z * q.z)
    r12 := 2 * (q.x * q.y - q.w * q.z)
    r13 := 2 * (q.x * q.z + q.w * q.y)
    r21 := 2 * (q.x * q.y + q.w * q.z)
    r22 := 1 - 2 * (q.x * q.x + q.z * q.z)
    r23 := 2 * (q.y * q.z - q.w * q.x)
    r31 := 2 * (q.x * q.z - q.w * q.y)
    r32 := 2 * (q.y * q.z + q.w * q.x)
    r33 := 1 - 2 * (q.x * q.x + q.y * q.y) }

/-- The identity rotation. -/
def Mat3.identity : Mat3 ℝ := ⟨1, 0, 0, 0, 1, 0, 0, 0, 1⟩

/-! ## Pose representation: `rotationToEularAngle`, `poseDistance`, the camera pose -/

/-- The function `CvxPoseEstimation::rotationToEularAngle` (lines 277-310), in exact arithmetic
over an ordered field with the library functions `sqrt`, `atan2`, `sin` and `cos` as
arguments; the result is the column `(theta1, theta2, theta3)` of `eular_angle`. -/
def rotationToEularAngle {α : Type} [LinearOrderedField α] (sqrt : α → α) (atan2 : α → α → α)
    (sin cos : α → α) (rot : Mat3 α) : α × α × α :=
  let m00 := rot.r11
  let m01 := rot.r12
  let m02 := rot.r13
  let m10 := rot.r21
  let m11 := rot.r22
  let m12 := rot.r23
  let m20 := rot.r31
  let m21 := rot.r32
  let m22 := rot.r33
  let theta1 := atan2 m12 m22
  let c2 := sqrt (m00 * m00 + m01 * m01)
  let theta2 := atan2 (-m02) c2
  let s1 := sin theta1
  let c1 := cos theta1
  let theta3 := atan2 (s1 * m20 - c1 * m10) (c1 * m11 - s1 * m21)
  let scale := 180 / 3.14159
  (theta1 * scale, theta2 * scale, theta3 * scale)

/-- The 3x3 block `pose(cv::Rect(0, 0, 3, 3))` of a 4x4 pose (lines 321-322). -/
def rotationBlock {α : Type} (pose : Matrix (Fin 4) (Fin 4) α) : Mat3 α :=
  { r11 := pose 0 0, r12 := pose 0 1, r13 := pose 0 2
    r21 := pose 1 0, r22 := pose 1 1, r23 := pose 1 2
    r31 := pose 2 0, r32 := pose 2 1, r33 := pose 2 2 }

/-- The dot product `q1.dot(q2)` of two 4x1 matrices. -/
def Quaternion.dot {δ : Type} [Add δ] [Mul δ] (q1 q2 : Quaternion δ) : δ :=
  q1.w * q2.w + q1.x * q2.x + q1.y * q2.y + q1.z * q2.z

/-- The library function `fabs`. -/
def fabs {δ : Type} [Zero δ] [Neg δ] [LT δ] [DecidableRel (fun a b : δ => a < b)] (x : δ) : δ :=
  if x < 0 then -x else x

/-- The function `CvxPoseEstimation::poseDistance` (lines 312-344), in the arithmetic of the
type `δ` of the `double` values, with the library functions `sqrt` and `acos` as arguments;
the quaternions come from `rotationToQuaternion`, which computes in `float`.  The result is
`(angle_distance, euclidean_disance)`; `none` when `rotationToQuaternion` ends in its
`assert(0)`. -/
def poseDistance {δ φ : Type} [Narrowing δ φ] [Zero φ] [One φ] [OfNat φ 4] [Add φ]
    [Sub φ] [Mul φ] [Div φ] [Neg φ] [LT φ] [LE φ] [DecidableRel (fun a b : φ => a < b)]
    [DecidableRel (fun a b : φ => a ≤ b)] [Zero δ] [OfNat δ 2] [OfNat δ 180] [OfScientific δ]
    [Add δ] [Sub δ] [Mul δ] [Div δ] [Neg δ] [LT δ] [DecidableRel (fun a b : δ => a < b)]
    (sqrt acos : δ → δ) (src_pose dst_pose : Matrix (Fin 4) (Fin 4) δ) : Option (δ × δ) :=
  let src_R := rotationBlock src_pose
  let dst_R := rotationBlock dst_pose
  let scale := 180 / 3.14159
  match rotationToQuaternion sqrt src_R, rotationToQuaternion sqrt dst_R with
  | some q1, some q2 =>
    let val_dot := fabs (q1.dot q2)
    let angle_distance := 2 * acos val_dot * scale
    let euclidean_disance := 0
    let dx := src_pose 0 3 - dst_pose 0 3
    let dy := src_pose 1 3 - dst_pose 1 3
    let dz := src_pose 2 3 - dst_pose 2 3
    let euclidean_disance := euclidean_disance + dx * dx
    let euclidean_disance := euclidean_disance + dy * dy
    let euclidean_disance := euclidean_disance + dz * dz
    let euclidean_disance := sqrt euclidean_disance
    some (angle_distance, euclidean_disance)
  | _, _ => none

/-- The column `tvec`, read at rows 0 to 2 (lines 64-66 and 267-269). -/
structure Vec3 (α : Type) where
  x : α
  y : α
  z : α

/-- Lines 57-66 and 261-269: `cv::Mat::eye(4, 4, CV_64F)` with the 3x3 block overwritten by
`rot` and the first three rows of the last column by `tvec`. -/
def assemblePose {α : Type} [Zero α] [One α] (rot : Mat3 α) (tvec : Vec3 α) :
    Matrix (Fin 4) (Fin 4) α :=
  fun i j =>
    match i, j with
    | 0, 0 => rot.r11
    | 0, 1 => rot.r12
    | 0, 2 => rot.r13
    | 0, 3 => tvec.x
    | 1, 0 => rot.r21
    | 1, 1 => rot.r22
    | 1, 2 => rot.r23
    | 1, 3 => tvec.y
    | 2, 0 => rot.r31
    | 2, 1 => rot.r32
    | 2, 2 => rot.r33
    | 2, 3 => tvec.z
    | 3, 0 => 0
    | 3, 1 => 0
    | 3, 2 => 0
    | 3, 3 => 1

/-- Lines 57-69 of `estimateCameraPose` and 261-272 of `preemptiveRANSAC`: the pose handed
back to the caller, `camera_pose.inv()` of the assembled matrix; `inv` is `cv::Mat::inv`. -/
def cameraPose {α : Type} [Zero α] [One α]
    (inv : Matrix (Fin 4) (Fin 4) α → Matrix (Fin 4) (Fin 4) α) (rot : Mat3 α) (tvec : Vec3 α) :
    Matrix (Fin 4) (Fin 4) α :=
  inv (assemblePose rot tvec)

/-- The rigid inverse `[Rᵀ | -Rᵀ t]` with bottom row `(0, 0, 0, 1)`; it is not part of the
source and serves to state what `cameraPose` returns. -/
def rigidInverse {α : Type} [LinearOrderedField α] (rot : Mat3 α) (tvec : Vec3 α) :
    Matrix (Fin 4) (Fin 4) α :=
  fun i j =>
    match i, j with
    | 0, 0 => rot.r11
    | 0, 1 => rot.r21
    | 0, 2 => rot.r31
    | 0, 3 => -(rot.r11 * tvec.x + rot.r21 * tvec.y + rot.r31 * tvec.z)
    | 1, 0 => rot.r12
    | 1, 1 => rot.r22
    | 1, 2 => rot.r32
    | 1, 3 => -(rot.r12 * tvec.x + rot.r22 * tvec.y + rot.r32 * tvec.z)
    | 2, 0 => rot.r13
    | 2, 1 => rot.r23
    | 2, 2 => rot.r33
    | 2, 3 => -(rot.r13 * tvec.x + rot.r23 * tvec.y + rot.r33 * tvec.z)
    | 3, 0 => 0
    | 3, 1 => 0
    | 3, 2 => 0
    | 3, 3 => 1

/-! ## A concrete set of collaborators, for evaluating the model -/

/-- Insertion sort by `operator<`: one implementation meeting the contract of `std::sort`. -/
def insertionSort {M : Type} (l : List (HypotheseLoss M)) : List (HypotheseLoss M) :=
  l.insertionSort (fun a b => a.loss_ ≤ b.loss_)

/-- A projector that drops the third coordinate, whatever the pose. -/
def flatProject (pts : List Point3d) : List Point2d :=
  pts.map (fun w => ⟨w.x, w.y⟩)

/-- The distance of a point from the origin along the axes; it is `cv::norm` on every point
with a zero coordinate. -/
def axisNorm (p : Point2d) : ℚ := |p.x| + |p.y|

/-- Collaborators over `M = Nat` (a pose is a label): the solver writes the label `1` into
both arrays and succeeds according to `ok`, the projector is `flatProject`. -/
def labEnv (ok : List Point3d → Bool) : Extern Nat where
  solvePnP := fun wld _ _ _ _ _ _ => (ok wld, 1, 1)
  projectPoints := fun pts _ _ _ _ => flatProject pts
  norm := axisNorm
  sort := insertionSort

/-- An image list of 501 points, all at the origin. -/
def imgPts : List Point2d := List.replicate 501 ⟨0, 0⟩

/-- A world list of 501 points: 500 that `flatProject` sends to the origin and a last one that
it sends 100 pixels away. -/
def wldPts : List Point3d := List.replicate 500 ⟨0, 0, 1⟩ ++ [⟨100, 0, 1⟩]

/-- A pool of `n` hypotheses as the seeding leaves them: loss zero, no inlier. -/
def seededPool (n : Nat) : List (HypotheseLoss Nat) :=
  List.replicate n (HypotheseLoss.ofCandidate (1, 1))

/-- The stream `c, c + 1, c + 2, ...` of `rand()` values. -/
def countFrom (c : Nat) : Rand := fun n => n + c

/-- First round of the run that shows C3 failing. -/
def staleRound1 : List (HypotheseLoss Nat) × Rand :=
  round (labEnv (fun _ => true)) imgPts wldPts 0 0 8 501 (seededPool 4) (countFrom 0)

/-- The block drawn at the start of the second round of that run. -/
def staleBlock2 : List Point2d × List Point3d × Rand :=
  sampleBlock imgPts wldPts 501 B staleRound1.2 [] []

/-- The pool of that run after the scoring loop of the second round. -/
def staleScored2 : List (HypotheseLoss Nat) :=
  staleRound1.1.map (scoreHyp (labEnv (fun _ => true)) 0 0 8 staleBlock2.1 staleBlock2.2.1)

/-- The pose with identity rotation and zero translation. -/
def identityPose : Matrix (Fin 4) (Fin 4) ℝ := assemblePose Mat3.identity ⟨0, 0, 0⟩

/-- The rotation by 180 degrees about the x axis. -/
def Mat3.halfTurnX : Mat3 ℝ := ⟨1, 0, 0, 0, -1, 0, 0, 0, -1⟩

/-- The pose with rotation `Mat3.halfTurnX` and zero translation. -/
def halfTurnPose : Matrix (Fin 4) (Fin 4) ℝ := assemblePose Mat3.halfTurnX ⟨0, 0, 0⟩

/-- The rotation by 90 degrees about the x axis, counter-clockwise for `s = 1` and clockwise
for `s = -1`. -/
def Mat3.quarterTurnX (s : ℝ) : Mat3 ℝ := ⟨1, 0, 0, 0, 0, -s, 0, s, 0⟩

/-- The rotation by 90 degrees about the y axis, counter-clockwise for `s = 1` and clockwise
for `s = -1`. -/
def Mat3.quarterTurnY (s : ℝ) : Mat3 ℝ := ⟨0, 0, s, 0, 1, 0, -s, 0, 0⟩

/-- The rotation by 90 degrees about the z axis, counter-clockwise for `s = 1` and clockwise
for `s = -1`. -/
def Mat3.quarterTurnZ (s : ℝ) : Mat3 ℝ := ⟨0, -s, 0, s, 0, 0, 0, 0, 1⟩

/-- The pose with rotation `Mat3.quarterTurnX 1` and zero translation. -/
def quarterTurnPose : Matrix (Fin 4) (Fin 4) ℝ := assemblePose (Mat3.quarterTurnX 1) ⟨0, 0, 0⟩

/-- The matrix `diag(10^39, -10^39, 1)`: finite `double` entries, two of them beyond the range
of `float`. -/
def Mat3.hugeDiagonal : Mat3 (Fl (Format.exact : Format ℝ)) :=
  ⟨Fl.fin (10 ^ 39), Fl.fin 0, Fl.fin 0, Fl.fin 0, Fl.fin (-10 ^ 39), Fl.fin 0, Fl.fin 0,
    Fl.fin 0, Fl.fin 1⟩

/-- The matrix `diag(2^127, 2^127, 1)`: every entry is a `float`, the sum of the first two
diagonal entries is not. -/
def Mat3.overflowingSum : Mat3 (Fl (Format.exact : Format ℝ)) :=
  ⟨Fl.fin (2 ^ 127), Fl.fin 0, Fl.fin 0, Fl.fin 0, Fl.fin (2 ^ 127), Fl.fin 0, Fl.fin 0,
    Fl.fin 0, Fl.fin 1⟩

/-! ## Lemmas on the tournament -/

theorem insertionSort_contract {M : Type} :
    StdSortContract (insertionSort : List (HypotheseLoss M) → List (HypotheseLoss M)) := by
  intro l
  refine ⟨List.perm_insertionSort _ l, ?_⟩
  have hs : (l.insertionSort (fun a b : HypotheseLoss M => a.loss_ ≤ b.loss_)).Pairwise
      (fun a b => a.loss_ ≤ b.loss_) := by
    haveI : IsTotal (HypotheseLoss M) (fun a b => a.loss_ ≤ b.loss_) :=
      ⟨fun a b => Nat.le_total a.loss_ b.loss_⟩
    haveI : IsTrans (HypotheseLoss M) (fun a b => a.loss_ ≤ b.loss_) :=
      ⟨fun a b c hab hbc => Nat.le_trans hab hbc⟩
    exact List.sorted_insertionSort _ l
  refine hs.imp ?_
  intro a b hab
  simp [HypotheseLoss.lt, hab]

theorem eliminate_length {M : Type} (env : Extern M) (hsort : StdSortContract env.sort)
    (losses : List (HypotheseLoss M)) : (eliminate env losses).length = losses.length / 2 := by
  have hlen : (env.sort losses).length = losses.length := (hsort losses).1.length_eq
  simp only [eliminate, List.length_take, hlen]
  exact Nat.min_eq_left (Nat.div_le_self _ _)

theorem round_length {M : Type} (env : Extern M) (hsort : StdSortContract env.sort)
    (img_pts : List Point2d) (wld_pts : List Point3d) (camera_matrix dist_coeff : M)
    (reproj_threshold : ℚ) (N : Nat) (losses : List (HypotheseLoss M)) (g : Rand) :
    (round env img_pts wld_pts camera_matrix dist_coeff reproj_threshold N losses g).1.length
      = losses.length / 2 := by
  simp only [round, List.length_map, eliminate_length env hsort]

theorem tournament_rounds {M : Type} (env : Extern M) (hsort : StdSortContract env.sort)
    (img_pts : List Point2d) (wld_pts : List Point3d) (camera_matrix dist_coeff : M)
    (reproj_threshold : ℚ) (N : Nat) :
    ∀ (n : Nat) (losses : List (HypotheseLoss M)) (g : Rand) (fuel : Nat),
      losses.length = n → 1 ≤ n → Nat.log 2 n ≤ fuel →
      ∃ final g', tournament env img_pts wld_pts camera_matrix dist_coeff reproj_threshold N
          fuel losses g = some (final, Nat.log 2 n, g') ∧ final.length = 1 := by
  intro n
  induction n using Nat.strong_induction_on with
  | _ n ih =>
    intro losses g fuel hlen hn hfuel
    by_cases h1 : n = 1
    · subst h1
      refine ⟨losses, g, ?_, hlen⟩
      cases fuel <;> simp [tournament, hlen]
    · have hgt : 1 < n := by omega
      have hlog : 1 ≤ Nat.log 2 n := Nat.log_pos (by decide) (by omega)
      obtain ⟨f, rfl⟩ : ∃ f, fuel = f + 1 := ⟨fuel - 1, by omega⟩
      have hhalf : (round env img_pts wld_pts camera_matrix dist_coeff reproj_threshold N
          losses g).1.length = n / 2 := by
        rw [round_length env hsort, hlen]
      have hdiv : Nat.log 2 (n / 2) = Nat.log 2 n - 1 := Nat.log_div_base 2 n
      obtain ⟨final, g', hrun, hfin⟩ := ih (n / 2) (by omega) _
        (round env img_pts wld_pts camera_matrix dist_coeff reproj_threshold N losses g).2
        f hhalf (by omega) (by omega)
      refine ⟨final, g', ?_, hfin⟩
      rw [tournament]
      simp only [hlen, hgt, if_true, hrun, hdiv]
      congr 3
      omega

/-! ## Lemmas on scoring -/

theorem scorePoint_eq {M : Type} (env : Extern M) (thr : ℚ) (simg : List Point2d)
    (p : Point2d) (j : Nat) (h : HypotheseLoss M) :
    scorePoint env thr simg p j h =
      if outlierAt env thr simg (j, p) = true then { h with loss_ := h.loss_ + 1 }
      else { h with inlier_indices_ := h.inlier_indices_ ++ [j] } := by
  simp [scorePoint, outlierAt]

theorem scoreLoop_loss {M : Type} (env : Extern M) (thr : ℚ) (simg : List Point2d) :
    ∀ (ps : List Point2d) (j : Nat) (h : HypotheseLoss M),
      (scoreLoop env thr simg ps j h).loss_ =
        h.loss_ + ((ps.enumFrom j).filter (outlierAt env thr simg)).length := by
  intro ps
  induction ps with
  | nil => intro j h; simp [scoreLoop]
  | cons p rest ih =>
    intro j h
    rw [scoreLoop, ih, scorePoint_eq, List.enumFrom_cons, List.filter_cons]
    by_cases hout : outlierAt env thr simg (j, p) = true
    · simp [hout]; omega
    · simp [hout]

theorem scoreLoop_inliers {M : Type} (env : Extern M) (thr : ℚ) (simg : List Point2d) :
    ∀ (ps : List Point2d) (j : Nat) (h : HypotheseLoss M),
      (scoreLoop env thr simg ps j h).inlier_indices_ =
        h.inlier_indices_ ++
          ((ps.enumFrom j).filter (fun jp => !outlierAt env thr simg jp)).map Prod.fst := by
  intro ps
  induction ps with
  | nil => intro j h; simp [scoreLoop]
  | cons p rest ih =>
    intro j h
    rw [scoreLoop, ih, scorePoint_eq, List.enumFrom_cons, List.filter_cons]
    by_cases hout : outlierAt env thr simg (j, p) = true
    · simp [hout]
    · simp [hout]

theorem scoreLoop_pose {M : Type} (env : Extern M) (thr : ℚ) (simg : List Point2d) :
    ∀ (ps : List Point2d) (j : Nat) (h : HypotheseLoss M),
      (scoreLoop env thr simg ps j h).rvec_ = h.rvec_ ∧
        (scoreLoop env thr simg ps j h).tvec_ = h.tvec_ := by
  intro ps
  induction ps with
  | nil => intro j h; simp [scoreLoop]
  | cons p rest ih =>
    intro j h
    rw [scoreLoop, (ih _ _).1, (ih _ _).2, scorePoint_eq]
    by_cases hout : outlierAt env thr simg (j, p) = true
    · simp [hout]
    · simp [hout]

theorem refineHyp_loss {M : Type} (env : Extern M) (cm dc : M) (simg : List Point2d)
    (swld : List Point3d) (h : HypotheseLoss M) :
    (refineHyp env cm dc simg swld h).loss_ = h.loss_ := by
  simp only [refineHyp]
  split_ifs <;> rfl

theorem refineHyp_inliers {M : Type} (env : Extern M) (cm dc : M) (simg : List Point2d)
    (swld : List Point3d) (h : HypotheseLoss M) :
    (refineHyp env cm dc simg swld h).inlier_indices_ = h.inlier_indices_ := by
  simp only [refineHyp]
  split_ifs <;> rfl

/-- The pose after the refinement of a hypothesis with more than four inliers is what the
solver left in the two arrays, whatever it returned. -/
theorem refineHyp_pose {M : Type} (env : Extern M) (cm dc : M) (simg : List Point2d)
    (swld : List Point3d) (h : HypotheseLoss M) (hmany : 4 < h.inlier_indices_.length) :
    refineHyp env cm dc simg swld h =
      { h with
        rvec_ := (env.solvePnP (h.inlier_indices_.map (fun index => swld.getD index default))
          (h.inlier_indices_.map (fun index => simg.getD index default))
          cm dc h.rvec_ h.tvec_ true).2.1
        tvec_ := (env.solvePnP (h.inlier_indices_.map (fun index => swld.getD index default))
          (h.inlier_indices_.map (fun index => simg.getD index default))
          cm dc h.rvec_ h.tvec_ true).2.2 } := by
  simp only [refineHyp, gt_iff_lt, hmany, if_true]
  split_ifs <;> rfl

theorem scoreHyp_loss {M : Type} (env : Extern M) (cm dc : M) (thr : ℚ) (simg : List Point2d)
    (swld : List Point3d) (h : HypotheseLoss M) :
    (scoreHyp env cm dc thr simg swld h).loss_ =
      h.loss_ + outlierCount env cm dc thr simg swld h := by
  simp only [scoreHyp, scoreLoop_loss, outlierCount, List.enum]

theorem scoreHyp_inliers {M : Type} (env : Extern M) (cm dc : M) (thr : ℚ)
    (simg : List Point2d) (swld : List Point3d) (h : HypotheseLoss M) :
    (scoreHyp env cm dc thr simg swld h).inlier_indices_ =
      h.inlier_indices_ ++ inliersOfRound env cm dc thr simg swld h := by
  simp only [scoreHyp, scoreLoop_inliers, inliersOfRound, List.enum]

theorem scoreHyp_pose {M : Type} (env : Extern M) (cm dc : M) (thr : ℚ)
    (simg : List Point2d) (swld : List Point3d) (h : HypotheseLoss M) :
    (scoreHyp env cm dc thr simg swld h).rvec_ = h.rvec_ ∧
      (scoreHyp env cm dc thr simg swld h).tvec_ = h.tvec_ := by
  simp only [scoreHyp]
  exact scoreLoop_pose env thr simg _ 0 h

theorem labEnv_projector (ok : List Point3d → Bool) : ProjectorContract (labEnv ok) := by
  intro pts rvec tvec cm dc
  simp [labEnv, flatProject]

theorem eliminate_subperm {M : Type} (env : Extern M) (hsort : StdSortContract env.sort)
    (losses : List (HypotheseLoss M)) : (eliminate env losses).Subperm losses :=
  ((List.take_sublist _ _).subperm).trans (hsort losses).1.subperm

/-! ## Lemmas on the block draw -/

theorem sampleBlock_eq (img_pts : List Point2d) (wld_pts : List Point3d) (N : Nat) :
    ∀ (n : Nat) (g : Rand) (si : List Point2d) (sw : List Point3d),
      sampleBlock img_pts wld_pts N n g si sw =
        (si ++ (List.range n).map (fun i => img_pts.getD (g i % N) default),
         sw ++ (List.range n).map (fun i => wld_pts.getD (g i % N) default),
         fun k => g (k + n)) := by
  intro n
  induction n with
  | zero => intro g si sw; simp [sampleBlock]
  | succ n ih =>
    intro g si sw
    rw [sampleBlock, ih]
    simp only [rand, List.range_succ_eq_map, List.map_cons, List.map_map, List.append_assoc,
      List.singleton_append, Prod.mk.injEq]
    exact ⟨rfl, rfl, rfl⟩

theorem sampleBlock_length (img_pts : List Point2d) (wld_pts : List Point3d) (N n : Nat)
    (g : Rand) :
    (sampleBlock img_pts wld_pts N n g [] []).1.length = n ∧
      (sampleBlock img_pts wld_pts N n g [] []).2.1.length = n := by
  simp [sampleBlock_eq]

/-! ## Lemmas on the seeding -/

theorem labEnv_solvePnP (ok : List Point3d → Bool) (wld : List Point3d) (img : List Point2d)
    (cm dc rvec tvec : Nat) (guess : Bool) :
    (labEnv ok).solvePnP wld img cm dc rvec tvec guess = (ok wld, 1, 1) :=
  rfl

theorem drawSample_countFrom (c fuel : Nat) :
    drawSample 501 (fuel + 1) (countFrom c) =
      some ((c % 501, (c + 1) % 501, (c + 2) % 501, (c + 3) % 501), countFrom (c + 4)) := by
  have hg : (fun n => n + 1 + 1 + 1 + 1 + c) = countFrom (c + 4) := by
    funext n
    simp only [countFrom]
    omega
  simp only [drawSample, rand, countFrom]
  rw [if_neg (by omega)]
  simp only [Option.some.injEq, Prod.mk.injEq]
  refine ⟨⟨by simp, by congr 1; omega, by congr 1; omega, by congr 1; omega⟩, ?_⟩
  funext n
  simp only [countFrom]
  omega

theorem initLoop_all_fail (img_pts : List Point2d) (wld_pts : List Point3d) (cm dc : Nat)
    (fuel : Nat) :
    ∀ (remaining c : Nat),
      initLoop (labEnv (fun _ => false)) img_pts wld_pts cm dc 501 (fuel + 1) remaining
        (countFrom c) [] = some ([], countFrom (c + 4 * remaining)) := by
  intro remaining
  induction remaining with
  | zero => intro c; simp [initLoop]
  | succ n ih =>
    intro c
    rw [initLoop, drawSample_countFrom]
    simp only [labEnv_solvePnP, Bool.false_eq_true, if_false, List.length_nil]
    rw [if_neg (by simp [K]), ih (c + 4)]
    have harith : c + 4 + 4 * n = c + 4 * (n + 1) := by omega
    rw [harith]

theorem initLoop_all_succeed (img_pts : List Point2d) (wld_pts : List Point3d) (cm dc : Nat)
    (fuel : Nat) :
    ∀ (remaining c : Nat) (cands : List (Nat × Nat)), cands.length ≤ K →
      ∃ out g', initLoop (labEnv (fun _ => true)) img_pts wld_pts cm dc 501 (fuel + 1) remaining
        (countFrom c) cands = some (out, g') ∧
        out.length = min (cands.length + remaining) (K + 1) := by
  intro remaining
  induction remaining with
  | zero =>
    intro c cands hc
    exact ⟨cands, countFrom c, by simp [initLoop], by simp; omega⟩
  | succ n ih =>
    intro c cands hc
    rw [initLoop, drawSample_countFrom]
    simp only [labEnv_solvePnP, if_true]
    by_cases hfull : (cands ++ [((1 : Nat), (1 : Nat))]).length > K
    · rw [if_pos hfull]
      refine ⟨_, _, rfl, ?_⟩
      simp only [List.length_append, List.length_singleton] at hfull ⊢
      omega
    · rw [if_neg hfull]
      simp only [List.length_append, List.length_singleton] at hfull
      obtain ⟨out, g', hrun, hlen⟩ := ih (c + 4) (cands ++ [(1, 1)]) (by simp; omega)
      refine ⟨out, g', hrun, ?_⟩
      rw [hlen]
      simp only [List.length_append, List.length_singleton]
      omega

theorem preemptiveRANSAC_of_empty_seed {M : Type} [Inhabited M] (env : Extern M) (fuel : Nat)
    (img_pts : List Point2d) (wld_pts : List Point3d) (camera_matrix dist_coeff : M)
    (param : PreemptiveRANSACParameter) (g g' : Rand)
    (hsize : img_pts.length = wld_pts.length) (h500 : img_pts.length > 500)
    (hseed : initLoop env img_pts wld_pts camera_matrix dist_coeff img_pts.length fuel
      num_iteration g [] = some ([], g')) :
    preemptiveRANSAC env fuel img_pts wld_pts camera_matrix dist_coeff param g
      = Outcome.assertFailed 255 := by
  have htour : tournament env img_pts wld_pts camera_matrix dist_coeff param.reproj_threshold
      img_pts.length fuel [] g' = some ([], 0, g') := by
    cases fuel <;> simp [tournament]
  rw [preemptiveRANSAC, if_neg (not_not.2 hsize), if_neg (not_not.2 h500)]
  simp [hseed, htour]

theorem imgPts_length : imgPts.length = 501 := by
  simp only [imgPts, List.length_replicate]

theorem wldPts_length : wldPts.length = 501 := by
  simp only [wldPts, List.length_append, List.length_replicate, List.length_singleton]

/-! ## Lemmas on the run with stale inliers -/

theorem Point2d.sub_def (a b : Point2d) : a - b = ⟨a.x - b.x, a.y - b.y⟩ := rfl

theorem labEnv_projectPoints (ok : List Point3d → Bool) (pts : List Point3d)
    (rvec tvec cm dc : Nat) : (labEnv ok).projectPoints pts rvec tvec cm dc = flatProject pts :=
  rfl

theorem labEnv_norm (ok : List Point3d → Bool) : (labEnv ok).norm = axisNorm := rfl

theorem imgPts_getD (k : Nat) : imgPts.getD k default = ⟨0, 0⟩ := by
  simp only [imgPts, List.getD_eq_getElem?_getD, List.getElem?_replicate]
  split <;> rfl

theorem wldPts_getD_zero : wldPts.getD 0 default = ⟨0, 0, 1⟩ := by
  have hlt : 0 < (List.replicate 500 (⟨0, 0, 1⟩ : Point3d)).length := by
    simp only [List.length_replicate]
    decide
  simp only [wldPts, List.getD_eq_getElem?_getD]
  rw [List.getElem?_append_left hlt, List.getElem?_replicate]
  rfl

theorem wldPts_getD_last : wldPts.getD 500 default = ⟨100, 0, 1⟩ := by
  have hle : (List.replicate 500 (⟨0, 0, 1⟩ : Point3d)).length ≤ 500 := by
    simp only [List.length_replicate]
    exact le_refl _
  simp only [wldPts, List.getD_eq_getElem?_getD]
  rw [List.getElem?_append_right hle]
  simp only [List.length_replicate, Nat.sub_self]
  rfl

theorem sampleBlock_head (img_pts : List Point2d) (wld_pts : List Point3d) (N n : Nat)
    (g : Rand) :
    ∃ ri rw, (sampleBlock img_pts wld_pts N (n + 1) g [] []).1
        = img_pts.getD (g 0 % N) default :: ri ∧
      (sampleBlock img_pts wld_pts N (n + 1) g [] []).2.1
        = wld_pts.getD (g 0 % N) default :: rw := by
  rw [sampleBlock_eq]
  simp [List.range_succ_eq_map]

theorem round_inliers {M : Type} (env : Extern M) (hsort : StdSortContract env.sort)
    (img_pts : List Point2d) (wld_pts : List Point3d) (cm dc : M)
    (thr : ℚ) (N : Nat) (losses : List (HypotheseLoss M)) (g : Rand) :
    ∀ h' ∈ (round env img_pts wld_pts cm dc thr N losses g).1,
      ∃ h ∈ losses, h'.inlier_indices_ = h.inlier_indices_ ++
        inliersOfRound env cm dc thr (sampleBlock img_pts wld_pts N B g [] []).1
          (sampleBlock img_pts wld_pts N B g [] []).2.1 h := by
  intro h' hmem
  simp only [round, List.mem_map] at hmem
  obtain ⟨s, hs, rfl⟩ := hmem
  obtain ⟨h, hh, rfl⟩ := List.mem_map.1 ((eliminate_subperm env hsort _).subset hs)
  exact ⟨h, hh, by rw [refineHyp_inliers, scoreHyp_inliers]⟩

theorem staleRound1_stream_head : staleRound1.2 0 % 501 = 500 := by
  simp [staleRound1, round, sampleBlock_eq, countFrom, B]

theorem staleRound1_inliers : ∀ h ∈ staleRound1.1, 0 ∈ h.inlier_indices_ := by
  intro h hmem
  obtain ⟨h0, _, hin⟩ := round_inliers (labEnv (fun _ => true)) insertionSort_contract
    imgPts wldPts 0 0 8 501 (seededPool 4) (countFrom 0) h hmem
  obtain ⟨ri, rw, hi, hw⟩ := sampleBlock_head imgPts wldPts 501 499 (countFrom 0)
  rw [hin]
  refine List.mem_append_right _ ?_
  have hB : B = 499 + 1 := rfl
  have hc : countFrom 0 0 % 501 = 0 := rfl
  rw [hc, imgPts_getD] at hi
  rw [hc, wldPts_getD_zero] at hw
  rw [hB, hi, hw]
  simp only [inliersOfRound, labEnv_projectPoints, flatProject, List.map_cons, List.enum_cons,
    List.filter_cons]
  have hin0 : outlierAt (labEnv (fun _ => true)) 8 ((⟨0, 0⟩ : Point2d) :: ri) (0, ⟨0, 0⟩)
      = false := by
    simp [outlierAt, labEnv_norm, axisNorm, Point2d.sub_def]
  simp [hin0]

/-! ## Lemmas on rotation matrices -/

theorem isRotation_iff (rot : Mat3 ℝ) :
    IsRotation rot ↔
      rot.r11 * rot.r11 + rot.r21 * rot.r21 + rot.r31 * rot.r31 = 1 ∧
      rot.r12 * rot.r12 + rot.r22 * rot.r22 + rot.r32 * rot.r32 = 1 ∧
      rot.r13 * rot.r13 + rot.r23 * rot.r23 + rot.r33 * rot.r33 = 1 ∧
      rot.r11 * rot.r12 + rot.r21 * rot.r22 + rot.r31 * rot.r32 = 0 ∧
      rot.r11 * rot.r13 + rot.r21 * rot.r23 + rot.r31 * rot.r33 = 0 ∧
      rot.r12 * rot.r13 + rot.r22 * rot.r23 + rot.r32 * rot.r33 = 0 ∧
      rot.r11 * (rot.r22 * rot.r33 - rot.r23 * rot.r32)
        - rot.r12 * (rot.r21 * rot.r33 - rot.r23 * rot.r31)
        + rot.r13 * (rot.r21 * rot.r32 - rot.r22 * rot.r31) = 1 := by
  have hdet : rot.toMatrix.det =
      rot.r11 * (rot.r22 * rot.r33 - rot.r23 * rot.r32)
        - rot.r12 * (rot.r21 * rot.r33 - rot.r23 * rot.r31)
        + rot.r13 * (rot.r21 * rot.r32 - rot.r22 * rot.r31) := by
    rw [Matrix.det_fin_three]
    simp only [Mat3.toMatrix]
    ring
  have h00 : (rot.toMatrix.transpose * rot.toMatrix) 0 0 =
      rot.r11 * rot.r11 + rot.r21 * rot.r21 + rot.r31 * rot.r31 := by
    simp [Matrix.mul_apply, Fin.sum_univ_three, Mat3.toMatrix]
  have h11 : (rot.toMatrix.transpose * rot.toMatrix) 1 1 =
      rot.r12 * rot.r12 + rot.r22 * rot.r22 + rot.r32 * rot.r32 := by
    simp [Matrix.mul_apply, Fin.sum_univ_three, Mat3.toMatrix]
  have h22 : (rot.toMatrix.transpose * rot.toMatrix) 2 2 =
      rot.r13 * rot.r13 + rot.r23 * rot.r23 + rot.r33 * rot.r33 := by
    simp [Matrix.mul_apply, Fin.sum_univ_three, Mat3.toMatrix]
  have h01 : (rot.toMatrix.transpose * rot.toMatrix) 0 1 =
      rot.r11 * rot.r12 + rot.r21 * rot.r22 + rot.r31 * rot.r32 := by
    simp [Matrix.mul_apply, Fin.sum_univ_three, Mat3.toMatrix]
  have h02 : (rot.toMatrix.transpose * rot.toMatrix) 0 2 =
      rot.r11 * rot.r13 + rot.r21 * rot.r23 + rot.r31 * rot.r33 := by
    simp [Matrix.mul_apply, Fin.sum_univ_three, Mat3.toMatrix]
  have h12 : (rot.toMatrix.transpose * rot.toMatrix) 1 2 =
      rot.r12 * rot.r13 + rot.r22 * rot.r23 + rot.r32 * rot.r33 := by
    simp [Matrix.mul_apply, Fin.sum_univ_three, Mat3.toMatrix]
  have hsymm : ∀ i j, (rot.toMatrix.transpose * rot.toMatrix) i j =
      (rot.toMatrix.transpose * rot.toMatrix) j i := by
    intro i j
    simp only [Matrix.mul_apply, Matrix.transpose_apply]
    exact Finset.sum_congr rfl (fun k _ => mul_comm _ _)
  simp only [IsRotation, hdet]
  constructor
  · rintro ⟨horth, hd⟩
    have e := fun i j => congrFun (congrFun horth i) j
    refine ⟨?_, ?_, ?_, ?_, ?_, ?_, hd⟩
    · rw [← h00, e]; rfl
    · rw [← h11, e]; rfl
    · rw [← h22, e]; rfl
    · rw [← h01, e]; rfl
    · rw [← h02, e]; rfl
    · rw [← h12, e]; rfl
  · rintro ⟨e11, e22, e33, e12, e13, e23, hd⟩
    refine ⟨?_, hd⟩
    ext i j
    fin_cases i <;> fin_cases j
    · exact h00.trans e11
    · exact h01.trans e12
    · exact h02.trans e13
    · exact (hsymm 1 0).trans (h01.trans e12)
    · exact h11.trans e22
    · exact h12.trans e23
    · exact (hsymm 2 0).trans (h02.trans e13)
    · exact (hsymm 2 1).trans (h12.trans e23)
    · exact h22.trans e33

theorem identity_isRotation : IsRotation Mat3.identity := by
  rw [isRotation_iff]
  norm_num [Mat3.identity]

theorem cofactor_eqs (r11 r12 r13 r21 r22 r23 r31 r32 r33 : ℝ)
    (hc11 : r11 * r11 + r21 * r21 + r31 * r31 = 1)
    (hc22 : r12 * r12 + r22 * r22 + r32 * r32 = 1)
    (hc33 : r13 * r13 + r23 * r23 + r33 * r33 = 1)
    (hc12 : r11 * r12 + r21 * r22 + r31 * r32 = 0)
    (hc13 : r11 * r13 + r21 * r23 + r31 * r33 = 0)
    (hc23 : r12 * r13 + r22 * r23 + r32 * r33 = 0)
    (hdet : r11 * (r22 * r33 - r23 * r32) - r12 * (r21 * r33 - r23 * r31)
      + r13 * (r21 * r32 - r22 * r31) = 1) :
    r11 = r22 * r33 - r23 * r32 ∧
    r12 = -(r21 * r33 - r23 * r31) ∧
    r13 = r21 * r32 - r22 * r31 ∧
    r21 = -(r12 * r33 - r13 * r32) ∧
    r22 = r11 * r33 - r13 * r31 ∧
    r23 = -(r11 * r32 - r12 * r31) ∧
    r31 = r12 * r23 - r13 * r22 ∧
    r32 = -(r11 * r23 - r13 * r21) ∧
    r33 = r11 * r22 - r12 * r21 := by
  refine ⟨?_, ?_, ?_, ?_, ?_, ?_, ?_, ?_, ?_⟩
  · linear_combination (-r11) * hdet + (r22 * r33 - r23 * r32) * hc11 + (-(r21 * r33 - r23 * r31)) * hc12 + (r21 * r32 - r22 * r31) * hc13
  · linear_combination (-r12) * hdet + (r22 * r33 - r23 * r32) * hc12 + (-(r21 * r33 - r23 * r31)) * hc22 + (r21 * r32 - r22 * r31) * hc23
  · linear_combination (-r13) * hdet + (r22 * r33 - r23 * r32) * hc13 + (-(r21 * r33 - r23 * r31)) * hc23 + (r21 * r32 - r22 * r31) * hc33
  · linear_combination (-r21) * hdet + (-(r12 * r33 - r13 * r32)) * hc11 + (r11 * r33 - r13 * r31) * hc12 + (-(r11 * r32 - r12 * r31)) * hc13
  · linear_combination (-r22) * hdet + (-(r12 * r33 - r13 * r32)) * hc12 + (r11 * r33 - r13 * r31) * hc22 + (-(r11 * r32 - r12 * r31)) * hc23
  · linear_combination (-r23) * hdet + (-(r12 * r33 - r13 * r32)) * hc13 + (r11 * r33 - r13 * r31) * hc23 + (-(r11 * r32 - r12 * r31)) * hc33
  · linear_combination (-r31) * hdet + (r12 * r23 - r13 * r22) * hc11 + (-(r11 * r23 - r13 * r21)) * hc12 + (r11 * r22 - r12 * r21) * hc13
  · linear_combination (-r32) * hdet + (r12 * r23 - r13 * r22) * hc12 + (-(r11 * r23 - r13 * r21)) * hc22 + (r11 * r22 - r12 * r21) * hc23
  · linear_combination (-r33) * hdet + (r12 * r23 - r13 * r22) * hc13 + (-(r11 * r23 - r13 * r21)) * hc23 + (r11 * r22 - r12 * r21) * hc33

theorem row_eqs (r11 r12 r13 r21 r22 r23 r31 r32 r33 : ℝ)
    (hc11 : r11 * r11 + r21 * r21 + r31 * r31 = 1)
    (hc22 : r12 * r12 + r22 * r22 + r32 * r32 = 1)
    (hc33 : r13 * r13 + r23 * r23 + r33 * r33 = 1)
    (hc12 : r11 * r12 + r21 * r22 + r31 * r32 = 0)
    (hc13 : r11 * r13 + r21 * r23 + r31 * r33 = 0)
    (hc23 : r12 * r13 + r22 * r23 + r32 * r33 = 0)
    (hdet : r11 * (r22 * r33 - r23 * r32) - r12 * (r21 * r33 - r23 * r31)
      + r13 * (r21 * r32 - r22 * r31) = 1) :
    r11 * r11 + r12 * r12 + r13 * r13 = 1 ∧
    r21 * r21 + r22 * r22 + r23 * r23 = 1 ∧
    r31 * r31 + r32 * r32 + r33 * r33 = 1 ∧
    r11 * r21 + r12 * r22 + r13 * r23 = 0 ∧
    r11 * r31 + r12 * r32 + r13 * r33 = 0 ∧
    r21 * r31 + r22 * r32 + r23 * r33 = 0 := by
  obtain ⟨k11, k12, k13, k21, k22, k23, k31, k32, k33⟩ :=
    cofactor_eqs r11 r12 r13 r21 r22 r23 r31 r32 r33 hc11 hc22 hc33 hc12 hc13 hc23 hdet
  refine ⟨?_, ?_, ?_, ?_, ?_, ?_⟩
  · linear_combination r11 * k11 + r12 * k12 + r13 * k13 + hdet
  · linear_combination r21 * k21 + r22 * k22 + r23 * k23 + hdet
  · linear_combination r31 * k31 + r32 * k32 + r33 * k33 + hdet
  · linear_combination r11 * k21 + r12 * k22 + r13 * k23
  · linear_combination r11 * k31 + r12 * k32 + r13 * k33
  · linear_combination r21 * k31 + r22 * k32 + r23 * k33

/-! ## Lemmas on `rotationToQuaternion` -/

theorem one_of_four_is_largest {α : Type} [LinearOrder α] (a b c d : α) :
    (a ≥ b ∧ a ≥ c ∧ a ≥ d) ∨ (b ≥ a ∧ b ≥ c ∧ b ≥ d) ∨ (c ≥ a ∧ c ≥ b ∧ c ≥ d) ∨
      (d ≥ a ∧ d ≥ b ∧ d ≥ c) := by
  rcases le_total a b with hab | hab <;> rcases le_total c d with hcd | hcd
  · rcases le_total b d with hbd | hbd
    · exact Or.inr (Or.inr (Or.inr ⟨le_trans hab hbd, hbd, hcd⟩))
    · exact Or.inr (Or.inl ⟨hab, le_trans hcd hbd, hbd⟩)
  · rcases le_total b c with hbc | hbc
    · exact Or.inr (Or.inr (Or.inl ⟨le_trans hab hbc, hbc, hcd⟩))
    · exact Or.inr (Or.inl ⟨hab, hbc, le_trans hcd hbc⟩)
  · rcases le_total a d with had | had
    · exact Or.inr (Or.inr (Or.inr ⟨had, le_trans hab had, hcd⟩))
    · exact Or.inl ⟨hab, le_trans hcd had, had⟩
  · rcases le_total a c with hac | hac
    · exact Or.inr (Or.inr (Or.inl ⟨hac, le_trans hab hac, hcd⟩))
    · exact Or.inl ⟨hab, hac, le_trans hcd hac⟩

theorem signedQuaternion_isSome {α : Type} [LinearOrderedField α] (sqrt : α → α)
    (rot : Mat3 α) : (signedQuaternion sqrt rot).isSome = true := by
  simp only [signedQuaternion]
  split_ifs with h0 h1 h2 h3
  · rfl
  · rfl
  · rfl
  · rfl
  · exfalso
    rcases one_of_four_is_largest (quaternionCandidates sqrt rot).1
      (quaternionCandidates sqrt rot).2.1 (quaternionCandidates sqrt rot).2.2.1
      (quaternionCandidates sqrt rot).2.2.2 with h | h | h | h
    · exact h0 h
    · exact h1 h
    · exact h2 h
    · exact h3 h

theorem SIGN_mul_self (t : ℝ) : SIGN t * SIGN t = 1 := by
  unfold SIGN
  split_ifs <;> norm_num

theorem abs_mul_SIGN (t : ℝ) : |t| * SIGN t = t := by
  unfold SIGN
  split_ifs with h
  · rw [abs_of_nonneg h, mul_one]
  · rw [abs_of_neg (not_le.1 h)]
    ring

/-- The product of the pivot `√P` with another component `√U * SIGN t`, when `16 P U = t²`. -/
theorem sqrt_mul_signed (P U t : ℝ) (hP : 0 ≤ P) (h : P * U = (t / 4) ^ 2) :
    Real.sqrt P * (Real.sqrt U * SIGN t) = t / 4 := by
  have hsq : Real.sqrt P * Real.sqrt U = |t| / 4 := by
    rw [← Real.sqrt_mul hP, h, Real.sqrt_sq_eq_abs, abs_div]
    norm_num
  calc Real.sqrt P * (Real.sqrt U * SIGN t)
      = (Real.sqrt P * Real.sqrt U) * SIGN t := by ring
    _ = (|t| * SIGN t) / 4 := by rw [hsq]; ring
    _ = t / 4 := by rw [abs_mul_SIGN]

/-- The ten products of the components in a branch with pivot candidate `P`. -/
theorem pivot_products (P U V W tu tv tw tuv tuw tvw : ℝ)
    (hP : 0 < P) (hU : 0 ≤ U) (hV : 0 ≤ V) (hW : 0 ≤ W)
    (hPU : P * U = (tu / 4) ^ 2) (hPV : P * V = (tv / 4) ^ 2) (hPW : P * W = (tw / 4) ^ 2)
    (huv : tu * tv = 4 * P * tuv) (huw : tu * tw = 4 * P * tuw)
    (hvw : tv * tw = 4 * P * tvw) :
    (Real.sqrt P * 1) * (Real.sqrt P * 1) = P ∧
    (Real.sqrt U * SIGN tu) * (Real.sqrt U * SIGN tu) = U ∧
    (Real.sqrt V * SIGN tv) * (Real.sqrt V * SIGN tv) = V ∧
    (Real.sqrt W * SIGN tw) * (Real.sqrt W * SIGN tw) = W ∧
    (Real.sqrt P * 1) * (Real.sqrt U * SIGN tu) = tu / 4 ∧
    (Real.sqrt P * 1) * (Real.sqrt V * SIGN tv) = tv / 4 ∧
    (Real.sqrt P * 1) * (Real.sqrt W * SIGN tw) = tw / 4 ∧
    (Real.sqrt U * SIGN tu) * (Real.sqrt V * SIGN tv) = tuv / 4 ∧
    (Real.sqrt U * SIGN tu) * (Real.sqrt W * SIGN tw) = tuw / 4 ∧
    (Real.sqrt V * SIGN tv) * (Real.sqrt W * SIGN tw) = tvw / 4 := by
  have hpp : Real.sqrt P * Real.sqrt P = P := Real.mul_self_sqrt hP.le
  have hsq : ∀ (X t : ℝ), 0 ≤ X → (Real.sqrt X * SIGN t) * (Real.sqrt X * SIGN t) = X := by
    intro X t hX
    calc (Real.sqrt X * SIGN t) * (Real.sqrt X * SIGN t)
        = (Real.sqrt X * Real.sqrt X) * (SIGN t * SIGN t) := by ring
      _ = X := by rw [Real.mul_self_sqrt hX, SIGN_mul_self, mul_one]
  have hpu := sqrt_mul_signed P U tu hP.le hPU
  have hpv := sqrt_mul_signed P V tv hP.le hPV
  have hpw := sqrt_mul_signed P W tw hP.le hPW
  have hcross : ∀ (u v lu lv luv : ℝ), Real.sqrt P * u = lu / 4 → Real.sqrt P * v = lv / 4 →
      lu * lv = 4 * P * luv → u * v = luv / 4 := by
    intro u v lu lv luv h1 h2 h3
    have hmul : P * (u * v) = P * (luv / 4) := by
      calc P * (u * v) = (Real.sqrt P * Real.sqrt P) * (u * v) := by rw [hpp]
        _ = (Real.sqrt P * u) * (Real.sqrt P * v) := by ring
        _ = (lu * lv) / 16 := by rw [h1, h2]; ring
        _ = P * (luv / 4) := by rw [h3]; ring
    exact mul_left_cancel₀ hP.ne' hmul
  refine ⟨by rw [mul_one, hpp], hsq U tu hU, hsq V tv hV, hsq W tw hW,
    by rw [mul_one, hpu], by rw [mul_one, hpv], by rw [mul_one, hpw],
    hcross _ _ _ _ _ hpu hpv huv, hcross _ _ _ _ _ hpu hpw huw, hcross _ _ _ _ _ hpv hpw hvw⟩

/-- A quaternion whose ten products are those of the rotation has unit norm and is sent
back to the rotation by `quaternionToRotation`. -/
theorem quaternionToRotation_of_products (rot : Mat3 ℝ) (q : Quaternion ℝ)
    (hww : q.w * q.w = (rot.r11 + rot.r22 + rot.r33 + 1) / 4)
    (hxx : q.x * q.x = (rot.r11 - rot.r22 - rot.r33 + 1) / 4)
    (hyy : q.y * q.y = (-rot.r11 + rot.r22 - rot.r33 + 1) / 4)
    (hzz : q.z * q.z = (-rot.r11 - rot.r22 + rot.r33 + 1) / 4)
    (hwx : q.w * q.x = (rot.r32 - rot.r23) / 4)
    (hwy : q.w * q.y = (rot.r13 - rot.r31) / 4)
    (hwz : q.w * q.z = (rot.r21 - rot.r12) / 4)
    (hxy : q.x * q.y = (rot.r21 + rot.r12) / 4)
    (hxz : q.x * q.z = (rot.r13 + rot.r31) / 4)
    (hyz : q.y * q.z = (rot.r32 + rot.r23) / 4) :
    quaternionToRotation q = rot ∧ q.w * q.w + q.x * q.x + q.y * q.y + q.z * q.z = 1 := by
  constructor
  · obtain ⟨r11, r12, r13, r21, r22, r23, r31, r32, r33⟩ := rot
    simp only [quaternionToRotation, Mat3.mk.injEq]
    simp only at hww hxx hyy hzz hwx hwy hwz hxy hxz hyz
    refine ⟨?_, ?_, ?_, ?_, ?_, ?_, ?_, ?_, ?_⟩ <;> linarith
  · linarith

theorem normalizeQuaternion_of_unit (q : Quaternion ℝ)
    (h : q.w * q.w + q.x * q.x + q.y * q.y + q.z * q.z = 1) :
    normalizeQuaternion Real.sqrt q = q := by
  simp only [normalizeQuaternion, NORM, h, Real.sqrt_one, div_one]

theorem rotation_products (rot : Mat3 ℝ) (h : IsRotation rot) :
    (rot.r11 + rot.r22 + rot.r33 + 1) / 4 * ((rot.r11 - rot.r22 - rot.r33 + 1) / 4)
      = ((rot.r32 - rot.r23) / 4) ^ 2 ∧
    (rot.r11 + rot.r22 + rot.r33 + 1) / 4 * ((-rot.r11 + rot.r22 - rot.r33 + 1) / 4)
      = ((rot.r13 - rot.r31) / 4) ^ 2 ∧
    (rot.r11 + rot.r22 + rot.r33 + 1) / 4 * ((-rot.r11 - rot.r22 + rot.r33 + 1) / 4)
      = ((rot.r21 - rot.r12) / 4) ^ 2 ∧
    (rot.r11 - rot.r22 - rot.r33 + 1) / 4 * ((-rot.r11 + rot.r22 - rot.r33 + 1) / 4)
      = ((rot.r21 + rot.r12) / 4) ^ 2 ∧
    (rot.r11 - rot.r22 - rot.r33 + 1) / 4 * ((-rot.r11 - rot.r22 + rot.r33 + 1) / 4)
      = ((rot.r13 + rot.r31) / 4) ^ 2 ∧
    (-rot.r11 + rot.r22 - rot.r33 + 1) / 4 * ((-rot.r11 - rot.r22 + rot.r33 + 1) / 4)
      = ((rot.r32 + rot.r23) / 4) ^ 2 := by
  obtain ⟨hc11, hc22, hc33, hc12, hc13, hc23, hdet⟩ := (isRotation_iff rot).1 h
  obtain ⟨k11, k12, k13, k21, k22, k23, k31, k32, k33⟩ :=
    cofactor_eqs _ _ _ _ _ _ _ _ _ hc11 hc22 hc33 hc12 hc13 hc23 hdet
  obtain ⟨hr11, hr22, hr33, hr12, hr13, hr23⟩ :=
    row_eqs _ _ _ _ _ _ _ _ _ hc11 hc22 hc33 hc12 hc13 hc23 hdet
  refine ⟨?_, ?_, ?_, ?_, ?_, ?_⟩ <;> linarith

theorem rotation_triples_w (rot : Mat3 ℝ) (h : IsRotation rot) :
    (rot.r32 - rot.r23) * (rot.r13 - rot.r31)
      = 4 * ((rot.r11 + rot.r22 + rot.r33 + 1) / 4) * (rot.r21 + rot.r12) ∧
    (rot.r32 - rot.r23) * (rot.r21 - rot.r12)
      = 4 * ((rot.r11 + rot.r22 + rot.r33 + 1) / 4) * (rot.r13 + rot.r31) ∧
    (rot.r13 - rot.r31) * (rot.r21 - rot.r12)
      = 4 * ((rot.r11 + rot.r22 + rot.r33 + 1) / 4) * (rot.r32 + rot.r23) := by
  obtain ⟨hc11, hc22, hc33, hc12, hc13, hc23, hdet⟩ := (isRotation_iff rot).1 h
  obtain ⟨k11, k12, k13, k21, k22, k23, k31, k32, k33⟩ :=
    cofactor_eqs _ _ _ _ _ _ _ _ _ hc11 hc22 hc33 hc12 hc13 hc23 hdet
  obtain ⟨hr11, hr22, hr33, hr12, hr13, hr23⟩ :=
    row_eqs _ _ _ _ _ _ _ _ _ hc11 hc22 hc33 hc12 hc13 hc23 hdet
  refine ⟨?_, ?_, ?_⟩ <;> linarith

theorem rotation_triples_x (rot : Mat3 ℝ) (h : IsRotation rot) :
    (rot.r32 - rot.r23) * (rot.r21 + rot.r12)
      = 4 * ((rot.r11 - rot.r22 - rot.r33 + 1) / 4) * (rot.r13 - rot.r31) ∧
    (rot.r32 - rot.r23) * (rot.r13 + rot.r31)
      = 4 * ((rot.r11 - rot.r22 - rot.r33 + 1) / 4) * (rot.r21 - rot.r12) ∧
    (rot.r21 + rot.r12) * (rot.r13 + rot.r31)
      = 4 * ((rot.r11 - rot.r22 - rot.r33 + 1) / 4) * (rot.r32 + rot.r23) := by
  obtain ⟨hc11, hc22, hc33, hc12, hc13, hc23, hdet⟩ := (isRotation_iff rot).1 h
  obtain ⟨k11, k12, k13, k21, k22, k23, k31, k32, k33⟩ :=
    cofactor_eqs _ _ _ _ _ _ _ _ _ hc11 hc22 hc33 hc12 hc13 hc23 hdet
  obtain ⟨hr11, hr22, hr33, hr12, hr13, hr23⟩ :=
    row_eqs _ _ _ _ _ _ _ _ _ hc11 hc22 hc33 hc12 hc13 hc23 hdet
  refine ⟨?_, ?_, ?_⟩ <;> linarith

theorem rotation_triples_y (rot : Mat3 ℝ) (h : IsRotation rot) :
    (rot.r13 - rot.r31) * (rot.r21 + rot.r12)
      = 4 * ((-rot.r11 + rot.r22 - rot.r33 + 1) / 4) * (rot.r32 - rot.r23) ∧
    (rot.r13 - rot.r31) * (rot.r32 + rot.r23)
      = 4 * ((-rot.r11 + rot.r22 - rot.r33 + 1) / 4) * (rot.r21 - rot.r12) ∧
    (rot.r21 + rot.r12) * (rot.r32 + rot.r23)
      = 4 * ((-rot.r11 + rot.r22 - rot.r33 + 1) / 4) * (rot.r13 + rot.r31) := by
  obtain ⟨hc11, hc22, hc33, hc12, hc13, hc23, hdet⟩ := (isRotation_iff rot).1 h
  obtain ⟨k11, k12, k13, k21, k22, k23, k31, k32, k33⟩ :=
    cofactor_eqs _ _ _ _ _ _ _ _ _ hc11 hc22 hc33 hc12 hc13 hc23 hdet
  obtain ⟨hr11, hr22, hr33, hr12, hr13, hr23⟩ :=
    row_eqs _ _ _ _ _ _ _ _ _ hc11 hc22 hc33 hc12 hc13 hc23 hdet
  refine ⟨?_, ?_, ?_⟩ <;> linarith

theorem rotation_triples_z (rot : Mat3 ℝ) (h : IsRotation rot) :
    (rot.r21 - rot.r12) * (rot.r31 + rot.r13)
      = 4 * ((-rot.r11 - rot.r22 + rot.r33 + 1) / 4) * (rot.r32 - rot.r23) ∧
    (rot.r21 - rot.r12) * (rot.r32 + rot.r23)
      = 4 * ((-rot.r11 - rot.r22 + rot.r33 + 1) / 4) * (rot.r13 - rot.r31) ∧
    (rot.r31 + rot.r13) * (rot.r32 + rot.r23)
      = 4 * ((-rot.r11 - rot.r22 + rot.r33 + 1) / 4) * (rot.r21 + rot.r12) := by
  obtain ⟨hc11, hc22, hc33, hc12, hc13, hc23, hdet⟩ := (isRotation_iff rot).1 h
  obtain ⟨k11, k12, k13, k21, k22, k23, k31, k32, k33⟩ :=
    cofactor_eqs _ _ _ _ _ _ _ _ _ hc11 hc22 hc33 hc12 hc13 hc23 hdet
  obtain ⟨hr11, hr22, hr33, hr12, hr13, hr23⟩ :=
    row_eqs _ _ _ _ _ _ _ _ _ hc11 hc22 hc33 hc12 hc13 hc23 hdet
  refine ⟨?_, ?_, ?_⟩ <;> linarith

theorem four_nonneg (a b c d : ℝ) (hab : 0 ≤ a * b) (hac : 0 ≤ a * c) (had : 0 ≤ a * d)
    (hbc : 0 ≤ b * c) (hbd : 0 ≤ b * d) (hcd : 0 ≤ c * d) (hsum : a + b + c + d = 1) :
    0 ≤ a ∧ 0 ≤ b ∧ 0 ≤ c ∧ 0 ≤ d := by
  have key : ∀ (p u v w : ℝ), 0 ≤ p * u → 0 ≤ p * v → 0 ≤ p * w → p + u + v + w = 1 →
      0 ≤ p := by
    intro p u v w hu hv hw hs
    by_contra hp
    have hp' : p < 0 := not_le.1 hp
    have hu' : u ≤ 0 := by
      by_contra hcon
      have : p * u < 0 := mul_neg_of_neg_of_pos hp' (not_le.1 hcon)
      linarith
    have hv' : v ≤ 0 := by
      by_contra hcon
      have : p * v < 0 := mul_neg_of_neg_of_pos hp' (not_le.1 hcon)
      linarith
    have hw' : w ≤ 0 := by
      by_contra hcon
      have : p * w < 0 := mul_neg_of_neg_of_pos hp' (not_le.1 hcon)
      linarith
    linarith
  refine ⟨key a b c d hab hac had hsum, key b a c d (by linarith) hbc hbd (by linarith),
    key c a b d (by linarith) (by linarith) hcd (by linarith),
    key d a b c (by linarith) (by linarith) (by linarith) (by linarith)⟩

theorem rotation_candidates_nonneg (rot : Mat3 ℝ) (h : IsRotation rot) :
    0 ≤ (rot.r11 + rot.r22 + rot.r33 + 1) / 4 ∧ 0 ≤ (rot.r11 - rot.r22 - rot.r33 + 1) / 4 ∧
      0 ≤ (-rot.r11 + rot.r22 - rot.r33 + 1) / 4 ∧
      0 ≤ (-rot.r11 - rot.r22 + rot.r33 + 1) / 4 := by
  obtain ⟨hab, hac, had, hbc, hbd, hcd⟩ := rotation_products rot h
  refine four_nonneg _ _ _ _ ?_ ?_ ?_ ?_ ?_ ?_ (by ring)
  · rw [hab]; positivity
  · rw [hac]; positivity
  · rw [had]; positivity
  · rw [hbc]; positivity
  · rw [hbd]; positivity
  · rw [hcd]; positivity

theorem rotation_quaternionCandidates (rot : Mat3 ℝ) (h : IsRotation rot) :
    quaternionCandidates Real.sqrt rot =
      (Real.sqrt ((rot.r11 + rot.r22 + rot.r33 + 1) / 4),
       Real.sqrt ((rot.r11 - rot.r22 - rot.r33 + 1) / 4),
       Real.sqrt ((-rot.r11 + rot.r22 - rot.r33 + 1) / 4),
       Real.sqrt ((-rot.r11 - rot.r22 + rot.r33 + 1) / 4)) := by
  obtain ⟨ha, hb, hc, hd⟩ := rotation_candidates_nonneg rot h
  simp only [quaternionCandidates, if_neg (not_lt.2 ha), if_neg (not_lt.2 hb),
    if_neg (not_lt.2 hc), if_neg (not_lt.2 hd)]

/-- A candidate whose square root is at least the other three square roots is positive. -/
theorem pivot_pos (P U V W : ℝ) (hP : 0 ≤ P) (hsum : P + U + V + W = 1)
    (hU : Real.sqrt P ≥ Real.sqrt U) (hV : Real.sqrt P ≥ Real.sqrt V)
    (hW : Real.sqrt P ≥ Real.sqrt W) : 0 < P := by
  have hU' := (Real.sqrt_le_sqrt_iff hP).1 hU
  have hV' := (Real.sqrt_le_sqrt_iff hP).1 hV
  have hW' := (Real.sqrt_le_sqrt_iff hP).1 hW
  linarith

/-- On a rotation, whichever branch of lines 375-399 is taken, the signed quaternion has unit
norm and `quaternionToRotation` sends it back to the rotation. -/
theorem signedQuaternion_spec (rot : Mat3 ℝ) (h : IsRotation rot) (s : Quaternion ℝ)
    (hs : signedQuaternion Real.sqrt rot = some s) :
    quaternionToRotation s = rot ∧ s.w * s.w + s.x * s.x + s.y * s.y + s.z * s.z = 1 := by
  obtain ⟨ha, hb, hc, hd⟩ := rotation_candidates_nonneg rot h
  obtain ⟨hab, hac, had, hbc, hbd, hcd⟩ := rotation_products rot h
  simp only [signedQuaternion, rotation_quaternionCandidates rot h] at hs
  split_ifs at hs with h0 h1 h2 h3
  · have hP := pivot_pos _ _ _ _ ha (by ring) h0.1 h0.2.1 h0.2.2
    obtain ⟨t1, t2, t3⟩ := rotation_triples_w rot h
    obtain ⟨pp, uu, vv, ww, pu, pv, pw, uv, uw, vw⟩ := pivot_products _ _ _ _
      (rot.r32 - rot.r23) (rot.r13 - rot.r31) (rot.r21 - rot.r12)
      (rot.r21 + rot.r12) (rot.r13 + rot.r31) (rot.r32 + rot.r23)
      hP hb hc hd hab hac had t1 t2 t3
    cases hs
    exact quaternionToRotation_of_products rot _ pp uu vv ww pu pv pw uv uw vw
  · have hP := pivot_pos _ _ _ _ hb (by ring) h1.1 h1.2.1 h1.2.2
    obtain ⟨t1, t2, t3⟩ := rotation_triples_x rot h
    obtain ⟨pp, uu, vv, ww, pu, pv, pw, uv, uw, vw⟩ := pivot_products _ _ _ _
      (rot.r32 - rot.r23) (rot.r21 + rot.r12) (rot.r13 + rot.r31)
      (rot.r13 - rot.r31) (rot.r21 - rot.r12) (rot.r32 + rot.r23)
      hP ha hc hd (by rw [mul_comm]; exact hab) hbc hbd t1 t2 t3
    cases hs
    exact quaternionToRotation_of_products rot _ uu pp vv ww (by rw [mul_comm]; exact pu)
      uv uw pv pw vw
  · have hP := pivot_pos _ _ _ _ hc (by ring) h2.1 h2.2.1 h2.2.2
    obtain ⟨t1, t2, t3⟩ := rotation_triples_y rot h
    obtain ⟨pp, uu, vv, ww, pu, pv, pw, uv, uw, vw⟩ := pivot_products _ _ _ _
      (rot.r13 - rot.r31) (rot.r21 + rot.r12) (rot.r32 + rot.r23)
      (rot.r32 - rot.r23) (rot.r21 - rot.r12) (rot.r13 + rot.r31)
      hP ha hb hd (by rw [mul_comm]; exact hac) (by rw [mul_comm]; exact hbc) hcd t1 t2 t3
    cases hs
    exact quaternionToRotation_of_products rot _ uu vv pp ww uv (by rw [mul_comm]; exact pu)
      uw (by rw [mul_comm]; exact pv) vw pw
  · have hP := pivot_pos _ _ _ _ hd (by ring) h3.1 h3.2.1 h3.2.2
    obtain ⟨t1, t2, t3⟩ := rotation_triples_z rot h
    obtain ⟨pp, uu, vv, ww, pu, pv, pw, uv, uw, vw⟩ := pivot_products _ _ _ _
      (rot.r21 - rot.r12) (rot.r31 + rot.r13) (rot.r32 + rot.r23)
      (rot.r32 - rot.r23) (rot.r13 - rot.r31) (rot.r21 + rot.r12)
      hP ha hb hc (by rw [mul_comm]; exact had)
      (by rw [mul_comm, add_comm rot.r31 rot.r13]; exact hbd)
      (by rw [mul_comm]; exact hcd) t1 t2 t3
    cases hs
    exact quaternionToRotation_of_products rot _ uu vv ww pp uv uw
      (by rw [mul_comm]; exact pu)
      vw (by rw [mul_comm, add_comm rot.r13 rot.r31]; exact pv) (by rw [mul_comm]; exact pw)

/-- In exact real arithmetic the narrowing and the widening of `rotationToQuaternion` change
nothing. -/
theorem rotationToQuaternion_exact (sqrt : ℝ → ℝ) (rot : Mat3 ℝ) :
    rotationToQuaternion sqrt rot
      = (signedQuaternion sqrt rot).map (normalizeQuaternion sqrt) := by
  show Option.map (fun s => normalizeQuaternion sqrt s) (signedQuaternion sqrt rot) = _
  rfl

/-- On a rotation `rotationToQuaternion` returns a quaternion, of unit norm, that
`quaternionToRotation` sends back to the rotation. -/
theorem rotationToQuaternion_spec (rot : Mat3 ℝ) (h : IsRotation rot) :
    ∃ q, rotationToQuaternion Real.sqrt rot = some q ∧ quaternionToRotation q = rot ∧
      q.w * q.w + q.x * q.x + q.y * q.y + q.z * q.z = 1 := by
  obtain ⟨s, hs⟩ := Option.isSome_iff_exists.1 (signedQuaternion_isSome Real.sqrt rot)
  obtain ⟨hrot, hunit⟩ := signedQuaternion_spec rot h s hs
  refine ⟨s, ?_, hrot, hunit⟩
  rw [rotationToQuaternion_exact, hs, Option.map_some', normalizeQuaternion_of_unit s hunit]

/-! ## Lemmas on the samples of the seeding -/

theorem drawSample_distinct (N : Nat) (hN : 0 < N) :
    ∀ (fuel : Nat) (g g' : Rand) (k1 k2 k3 k4 : Nat),
      drawSample N fuel g = some ((k1, k2, k3, k4), g') →
      (k1 ≠ k2 ∧ k1 ≠ k3 ∧ k1 ≠ k4 ∧ k2 ≠ k3 ∧ k2 ≠ k4 ∧ k3 ≠ k4) ∧
        k1 < N ∧ k2 < N ∧ k3 < N ∧ k4 < N := by
  intro fuel
  induction fuel with
  | zero => intro g g' k1 k2 k3 k4 h; simp [drawSample] at h
  | succ fuel ih =>
    intro g g' k1 k2 k3 k4 h
    simp only [drawSample] at h
    split_ifs at h with hrep
    · exact ih _ _ _ _ _ _ h
    · simp only [Option.some.injEq, Prod.mk.injEq] at h
      obtain ⟨⟨rfl, rfl, rfl, rfl⟩, _⟩ := h
      simp only [not_or] at hrep
      exact ⟨hrep, Nat.mod_lt _ hN, Nat.mod_lt _ hN, Nat.mod_lt _ hN, Nat.mod_lt _ hN⟩

theorem initSamples_isSome {M : Type} [Inhabited M] (env : Extern M)
    (img_pts : List Point2d) (wld_pts : List Point3d) (cm dc : M) (N fuel : Nat) :
    ∀ (remaining : Nat) (g : Rand) (cands : List (M × M)),
      (initSamples env img_pts wld_pts cm dc N fuel remaining g cands).isSome =
        (initLoop env img_pts wld_pts cm dc N fuel remaining g cands).isSome := by
  intro remaining
  induction remaining with
  | zero => intro g cands; simp [initSamples, initLoop]
  | succ n ih =>
    intro g cands
    simp only [initSamples, initLoop]
    cases hdraw : drawSample N fuel g with
    | none => rfl
    | some res =>
      obtain ⟨⟨k1, k2, k3, k4⟩, g1⟩ := res
      simp only
      split_ifs <;> simp only [Option.isSome_some, Option.isSome_map', ih]

theorem initSamples_distinct {M : Type} [Inhabited M] (env : Extern M)
    (img_pts : List Point2d) (wld_pts : List Point3d) (cm dc : M) (N fuel : Nat)
    (hN : 0 < N) :
    ∀ (remaining : Nat) (g : Rand) (cands : List (M × M)) (samples : List (Nat × Nat × Nat)),
      initSamples env img_pts wld_pts cm dc N fuel remaining g cands = some samples →
      ∀ s ∈ samples, s.1 ≠ s.2.1 ∧ s.1 ≠ s.2.2 ∧ s.2.1 ≠ s.2.2 ∧
        s.1 < N ∧ s.2.1 < N ∧ s.2.2 < N := by
  intro remaining
  induction remaining with
  | zero =>
    intro g cands samples h s hs
    simp only [initSamples, Option.some.injEq] at h
    subst h
    simp at hs
  | succ n ih =>
    intro g cands samples h s hs
    simp only [initSamples] at h
    cases hdraw : drawSample N fuel g with
    | none => simp [hdraw] at h
    | some res =>
      obtain ⟨⟨k1, k2, k3, k4⟩, g1⟩ := res
      obtain ⟨⟨h12, h13, _, h23, _, _⟩, l1, l2, l3, _⟩ :=
        drawSample_distinct N hN fuel g g1 k1 k2 k3 k4 hdraw
      simp only [hdraw] at h
      by_cases hfull : (if (env.solvePnP [wld_pts.getD k1 default, wld_pts.getD k2 default,
          wld_pts.getD k3 default] [img_pts.getD k1 default, img_pts.getD k2 default,
          img_pts.getD k3 default] cm dc default default false).1 = true
        then cands ++ [((env.solvePnP [wld_pts.getD k1 default, wld_pts.getD k2 default,
          wld_pts.getD k3 default] [img_pts.getD k1 default, img_pts.getD k2 default,
          img_pts.getD k3 default] cm dc default default false).2.1,
          (env.solvePnP [wld_pts.getD k1 default, wld_pts.getD k2 default,
          wld_pts.getD k3 default] [img_pts.getD k1 default, img_pts.getD k2 default,
          img_pts.getD k3 default] cm dc default default false).2.2)]
        else cands).length > K
      · rw [if_pos hfull] at h
        simp only [Option.some.injEq] at h
        subst h
        simp only [List.mem_singleton] at hs
        subst hs
        exact ⟨h12, h13, h23, l1, l2, l3⟩
      · rw [if_neg hfull] at h
        simp only [Option.map_eq_some'] at h
        obtain ⟨rest, hrest, rfl⟩ := h
        rcases List.mem_cons.1 hs with rfl | hmem
        · exact ⟨h12, h13, h23, l1, l2, l3⟩
        · exact ih _ _ _ hrest s hmem

/-! ## Lemmas on repeated rounds -/

theorem round_mem {M : Type} (env : Extern M) (hsort : StdSortContract env.sort)
    (img_pts : List Point2d) (wld_pts : List Point3d) (cm dc : M)
    (thr : ℚ) (N : Nat) (losses : List (HypotheseLoss M)) (g : Rand) :
    ∀ h' ∈ (round env img_pts wld_pts cm dc thr N losses g).1,
      ∃ h ∈ losses, h' = refineHyp env cm dc (sampleBlock img_pts wld_pts N B g [] []).1
        (sampleBlock img_pts wld_pts N B g [] []).2.1
        (scoreHyp env cm dc thr (sampleBlock img_pts wld_pts N B g [] []).1
          (sampleBlock img_pts wld_pts N B g [] []).2.1 h) := by
  intro h' hmem
  simp only [round, List.mem_map] at hmem
  obtain ⟨s, hs, rfl⟩ := hmem
  obtain ⟨h, hh, rfl⟩ := List.mem_map.1 ((eliminate_subperm env hsort _).subset hs)
  exact ⟨h, hh, rfl⟩

theorem tournament_eq_iterRounds {M : Type} (env : Extern M) (img_pts : List Point2d)
    (wld_pts : List Point3d) (cm dc : M) (thr : ℚ) (N : Nat) :
    ∀ (fuel : Nat) (losses : List (HypotheseLoss M)) (g : Rand)
      (final : List (HypotheseLoss M)) (rounds : Nat) (g' : Rand),
      tournament env img_pts wld_pts cm dc thr N fuel losses g = some (final, rounds, g') →
      iterRounds env img_pts wld_pts cm dc thr N rounds losses g = (final, g') := by
  intro fuel
  induction fuel with
  | zero =>
    intro losses g final rounds g' h
    simp only [tournament] at h
    split_ifs at h
    simp only [Option.some.injEq, Prod.mk.injEq] at h
    obtain ⟨rfl, rfl, rfl⟩ := h
    rfl
  | succ fuel ih =>
    intro losses g final rounds g' h
    simp only [tournament] at h
    split_ifs at h
    · cases hrec : tournament env img_pts wld_pts cm dc thr N fuel
          (round env img_pts wld_pts cm dc thr N losses g).1
          (round env img_pts wld_pts cm dc thr N losses g).2 with
      | none => simp [hrec] at h
      | some res =>
        obtain ⟨final1, rounds1, g1⟩ := res
        simp only [hrec, Option.some.injEq, Prod.mk.injEq] at h
        obtain ⟨rfl, rfl, rfl⟩ := h
        simp only [iterRounds]
        exact ih _ _ _ _ _ hrec
    · simp only [Option.some.injEq, Prod.mk.injEq] at h
      obtain ⟨rfl, rfl, rfl⟩ := h
      rfl

/-- Scoring a hypothesis adds one to `loss_ + inlier_indices_.size()` for each projected
point. -/
theorem scoreHyp_loss_add_inliers {M : Type} (env : Extern M) (cm dc : M) (thr : ℚ)
    (simg : List Point2d) (swld : List Point3d) (h : HypotheseLoss M) :
    (scoreHyp env cm dc thr simg swld h).loss_
        + (scoreHyp env cm dc thr simg swld h).inlier_indices_.length =
      h.loss_ + h.inlier_indices_.length
        + (env.projectPoints swld h.rvec_ h.tvec_ cm dc).length := by
  rw [scoreHyp_loss, scoreHyp_inliers, List.length_append]
  have hsplit := List.length_eq_countP_add_countP (outlierAt env thr simg)
    (env.projectPoints swld h.rvec_ h.tvec_ cm dc).enum
  simp only [List.countP_eq_length_filter, List.enum_length] at hsplit
  have hnot : (fun a => decide ¬outlierAt env thr simg a = true)
      = (fun jp => !outlierAt env thr simg jp) := by
    funext a
    cases outlierAt env thr simg a <;> rfl
  rw [hnot] at hsplit
  simp only [outlierCount, inliersOfRound, List.length_map]
  omega

theorem inliersOfRound_lt {M : Type} (env : Extern M) (cm dc : M) (thr : ℚ)
    (simg : List Point2d) (swld : List Point3d) (h : HypotheseLoss M) :
    ∀ index ∈ inliersOfRound env cm dc thr simg swld h,
      index < (env.projectPoints swld h.rvec_ h.tvec_ cm dc).length := by
  intro index hmem
  simp only [inliersOfRound, List.mem_map, List.mem_filter] at hmem
  obtain ⟨jp, ⟨hjp, _⟩, rfl⟩ := hmem
  exact List.fst_lt_of_mem_enum hjp

/-- One round keeps `loss_ + inlier_indices_.size()` a multiple of `B`, one `B` further. -/
theorem round_loss_add_inliers {M : Type} (env : Extern M) (hsort : StdSortContract env.sort)
    (hproj : ProjectorContract env) (img_pts : List Point2d) (wld_pts : List Point3d)
    (cm dc : M) (thr : ℚ) (N : Nat) (losses : List (HypotheseLoss M)) (g : Rand) (r : Nat)
    (hinv : ∀ h ∈ losses, h.loss_ + h.inlier_indices_.length = r * B) :
    ∀ h ∈ (round env img_pts wld_pts cm dc thr N losses g).1,
      h.loss_ + h.inlier_indices_.length = (r + 1) * B := by
  intro h' hmem
  obtain ⟨h, hh, rfl⟩ := round_mem env hsort img_pts wld_pts cm dc thr N losses g h' hmem
  rw [refineHyp_loss, refineHyp_inliers, scoreHyp_loss_add_inliers, hproj,
    (sampleBlock_length img_pts wld_pts N B g).2, hinv h hh]
  ring

/-- One round keeps every stored inlier index below `B`. -/
theorem round_inliers_lt {M : Type} (env : Extern M) (hsort : StdSortContract env.sort)
    (hproj : ProjectorContract env) (img_pts : List Point2d) (wld_pts : List Point3d)
    (cm dc : M) (thr : ℚ) (N : Nat) (losses : List (HypotheseLoss M)) (g : Rand)
    (hinv : ∀ h ∈ losses, ∀ index ∈ h.inlier_indices_, index < B) :
    ∀ h ∈ (round env img_pts wld_pts cm dc thr N losses g).1,
      ∀ index ∈ h.inlier_indices_, index < B := by
  intro h' hmem index hidx
  obtain ⟨h, hh, rfl⟩ := round_mem env hsort img_pts wld_pts cm dc thr N losses g h' hmem
  rw [refineHyp_inliers, scoreHyp_inliers] at hidx
  rcases List.mem_append.1 hidx with hold | hnew
  · exact hinv h hh index hold
  · have hlt := inliersOfRound_lt env cm dc thr _ _ h index hnew
    rwa [hproj, (sampleBlock_length img_pts wld_pts N B g).2] at hlt

theorem iterRounds_loss_add_inliers {M : Type} (env : Extern M)
    (hsort : StdSortContract env.sort) (hproj : ProjectorContract env)
    (img_pts : List Point2d) (wld_pts : List Point3d) (cm dc : M) (thr : ℚ) (N : Nat) :
    ∀ (r r0 : Nat) (losses : List (HypotheseLoss M)) (g : Rand),
      (∀ h ∈ losses, h.loss_ + h.inlier_indices_.length = r0 * B) →
      ∀ h ∈ (iterRounds env img_pts wld_pts cm dc thr N r losses g).1,
        h.loss_ + h.inlier_indices_.length = (r0 + r) * B := by
  intro r
  induction r with
  | zero => intro r0 losses g hinv h hmem; exact hinv h hmem
  | succ r ih =>
    intro r0 losses g hinv h hmem
    simp only [iterRounds] at hmem
    have hstep := round_loss_add_inliers env hsort hproj img_pts wld_pts cm dc thr N losses g
      r0 hinv
    have := ih (r0 + 1) _ _ hstep h hmem
    rw [this]
    ring

theorem iterRounds_inliers_lt {M : Type} (env : Extern M)
    (hsort : StdSortContract env.sort) (hproj : ProjectorContract env)
    (img_pts : List Point2d) (wld_pts : List Point3d) (cm dc : M) (thr : ℚ) (N : Nat) :
    ∀ (r : Nat) (losses : List (HypotheseLoss M)) (g : Rand),
      (∀ h ∈ losses, ∀ index ∈ h.inlier_indices_, index < B) →
      ∀ h ∈ (iterRounds env img_pts wld_pts cm dc thr N r losses g).1,
        ∀ index ∈ h.inlier_indices_, index < B := by
  intro r
  induction r with
  | zero => intro losses g hinv h hmem; exact hinv h hmem
  | succ r ih =>
    intro losses g hinv h hmem
    simp only [iterRounds] at hmem
    exact ih _ _ (round_inliers_lt env hsort hproj img_pts wld_pts cm dc thr N losses g hinv)
      h hmem

theorem sampleBlock_eq_blockIndices (img_pts : List Point2d) (wld_pts : List Point3d)
    (N n : Nat) (g : Rand) :
    (sampleBlock img_pts wld_pts N n g [] []).1
        = (blockIndices N n g).map (fun index => img_pts.getD index default) ∧
      (sampleBlock img_pts wld_pts N n g [] []).2.1
        = (blockIndices N n g).map (fun index => wld_pts.getD index default) := by
  simp [sampleBlock_eq, blockIndices, Function.comp_def]

theorem blockIndices_lt (N n : Nat) (g : Rand) (hN : 0 < N) :
    ∀ index ∈ blockIndices N n g, index < N := by
  intro index hmem
  simp only [blockIndices, List.mem_map] at hmem
  obtain ⟨i, _, rfl⟩ := hmem
  exact Nat.mod_lt _ hN

theorem seededPool_of_candidates {M : Type} (rt_candidate : List (M × M)) :
    ∀ h ∈ rt_candidate.map HypotheseLoss.ofCandidate,
      h.loss_ = 0 ∧ h.inlier_indices_ = [] := by
  intro h hmem
  obtain ⟨rt, _, rfl⟩ := List.mem_map.1 hmem
  exact ⟨rfl, rfl⟩

/-! ## Lemmas on `poseDistance` -/

theorem Quaternion.dot_comm (q1 q2 : Quaternion ℝ) : q1.dot q2 = q2.dot q1 := by
  simp only [Quaternion.dot]
  ring

theorem fabs_eq_abs (x : ℝ) : fabs x = |x| := by
  unfold fabs
  split_ifs with h
  · exact (abs_of_neg h).symm
  · exact (abs_of_nonneg (not_lt.1 h)).symm

theorem rotationBlock_assemblePose (rot : Mat3 ℝ) (tvec : Vec3 ℝ) :
    rotationBlock (assemblePose rot tvec) = rot := rfl

theorem rotationToQuaternion_identity :
    rotationToQuaternion Real.sqrt Mat3.identity = some ⟨1, 0, 0, 0⟩ := by
  have hc : quaternionCandidates Real.sqrt Mat3.identity = (1, 0, 0, 0) := by
    simp only [quaternionCandidates, Mat3.identity]
    norm_num
  simp only [rotationToQuaternion_exact, signedQuaternion, hc]
  norm_num [normalizeQuaternion, NORM]

theorem halfTurnX_isRotation : IsRotation Mat3.halfTurnX := by
  rw [isRotation_iff]
  norm_num [Mat3.halfTurnX]

theorem rotationToQuaternion_halfTurnX :
    rotationToQuaternion Real.sqrt Mat3.halfTurnX = some ⟨0, 1, 0, 0⟩ := by
  have hc : quaternionCandidates Real.sqrt Mat3.halfTurnX = (0, 1, 0, 0) := by
    simp only [quaternionCandidates, Mat3.halfTurnX]
    norm_num
  simp only [rotationToQuaternion_exact, signedQuaternion, hc]
  norm_num [normalizeQuaternion, NORM]

/-! ## Lemmas on `rotationToEularAngle` -/

theorem arg_mk_one_zero : Complex.arg ⟨1, 0⟩ = 0 := by
  have h : (⟨1, 0⟩ : ℂ) = 1 := by apply Complex.ext <;> simp
  rw [h, Complex.arg_one]

theorem arg_mk_zero_zero : Complex.arg ⟨0, 0⟩ = 0 := by
  have h : (⟨0, 0⟩ : ℂ) = 0 := by apply Complex.ext <;> simp
  rw [h, Complex.arg_zero]

theorem arg_mk_zero_one : Complex.arg ⟨0, 1⟩ = Real.pi / 2 := by
  have h : (⟨0, 1⟩ : ℂ) = Complex.I := by apply Complex.ext <;> simp
  rw [h, Complex.arg_I]

theorem arg_mk_zero_neg_one : Complex.arg ⟨0, -1⟩ = -(Real.pi / 2) := by
  have h : (⟨0, -1⟩ : ℂ) = -Complex.I := by apply Complex.ext <;> simp
  rw [h, Complex.arg_neg_I]

theorem quarterTurn_isRotation (s : ℝ) (hs : s = 1 ∨ s = -1) :
    IsRotation (Mat3.quarterTurnX s) ∧ IsRotation (Mat3.quarterTurnY s) ∧
      IsRotation (Mat3.quarterTurnZ s) := by
  simp only [isRotation_iff]
  rcases hs with rfl | rfl <;>
    norm_num [Mat3.quarterTurnX, Mat3.quarterTurnY, Mat3.quarterTurnZ]

/-- The Euler angles that `rotationToEularAngle` returns on the six quarter turns. -/
theorem rotationToEularAngle_quarterTurn (s : ℝ) (hs : s = 1 ∨ s = -1) :
    rotationToEularAngle Real.sqrt (fun y x => Complex.arg ⟨x, y⟩) Real.sin Real.cos
        (Mat3.quarterTurnX s) = (-s * (Real.pi / 2) * (180 / 3.14159), 0, 0) ∧
      rotationToEularAngle Real.sqrt (fun y x => Complex.arg ⟨x, y⟩) Real.sin Real.cos
        (Mat3.quarterTurnY s) = (0, -s * (Real.pi / 2) * (180 / 3.14159), 0) ∧
      rotationToEularAngle Real.sqrt (fun y x => Complex.arg ⟨x, y⟩) Real.sin Real.cos
        (Mat3.quarterTurnZ s) = (0, 0, -s * (Real.pi / 2) * (180 / 3.14159)) := by
  rcases hs with rfl | rfl
  · refine ⟨?_, ?_, ?_⟩
    · simp [rotationToEularAngle, Mat3.quarterTurnX, arg_mk_zero_neg_one, arg_mk_one_zero]
    · simp [rotationToEularAngle, Mat3.quarterTurnY, arg_mk_zero_neg_one, arg_mk_one_zero,
        arg_mk_zero_zero]
    · simp [rotationToEularAngle, Mat3.quarterTurnZ, arg_mk_zero_neg_one, arg_mk_one_zero]
  · refine ⟨?_, ?_, ?_⟩
    · simp [rotationToEularAngle, Mat3.quarterTurnX, arg_mk_zero_one, arg_mk_one_zero]
    · simp [rotationToEularAngle, Mat3.quarterTurnY, arg_mk_zero_one, arg_mk_one_zero,
        arg_mk_zero_zero]
    · simp [rotationToEularAngle, Mat3.quarterTurnZ, arg_mk_zero_one, arg_mk_one_zero]

/-! ## Lemmas on the camera pose -/

theorem rigidInverse_mul_assemblePose (rot : Mat3 ℝ) (tvec : Vec3 ℝ) (h : IsRotation rot) :
    rigidInverse rot tvec * assemblePose rot tvec = 1 := by
  obtain ⟨hc11, hc22, hc33, hc12, hc13, hc23, _⟩ := (isRotation_iff rot).1 h
  ext i j
  fin_cases i <;> fin_cases j <;>
    simp [Matrix.mul_apply, Fin.sum_univ_four, rigidInverse, assemblePose] <;> linarith

/-! ## Lemmas on rounding -/

theorem roundHalfEven_le {α : Type} [LinearOrderedField α] [FloorRing α] (y : α) (N : ℤ)
    (h : y ≤ N) : roundHalfEven y ≤ N := by
  have hfl : ⌊y⌋ ≤ N := by
    have := Int.floor_mono h
    rwa [Int.floor_intCast] at this
  unfold roundHalfEven
  by_cases hy : ⌊y⌋ = N
  · have h0 : y - ((⌊y⌋ : ℤ) : α) < 1 / 2 := by
      rw [hy]
      have : y - (N : α) ≤ 0 := sub_nonpos.2 h
      linarith
    simp only [h0, if_true]
    exact hfl
  · have hlt : ⌊y⌋ + 1 ≤ N := by omega
    simp only
    split_ifs <;> omega

theorem le_roundHalfEven {α : Type} [LinearOrderedField α] [FloorRing α] (y : α) (N : ℤ)
    (h : (N : α) ≤ y) : N ≤ roundHalfEven y := by
  have hfl : N ≤ ⌊y⌋ := Int.le_floor.2 h
  unfold roundHalfEven
  simp only
  split_ifs <;> omega

theorem roundHalfEven_eq {α : Type} [LinearOrderedField α] [FloorRing α] (y : α) (n : ℤ)
    (h1 : (n : α) - 1 / 2 < y) (h2 : y < n + 1 / 2) : roundHalfEven y = n := by
  unfold roundHalfEven
  by_cases hn : (n : α) ≤ y
  · have hfl : ⌊y⌋ = n := Int.floor_eq_iff.2 ⟨hn, by linarith⟩
    have h0 : y - ((⌊y⌋ : ℤ) : α) < 1 / 2 := by
      rw [hfl]
      linarith
    simp only [h0, if_true]
    exact hfl
  · have hn : y < n := not_le.1 hn
    have hfl : ⌊y⌋ = n - 1 := by
      apply Int.floor_eq_iff.2
      push_cast
      constructor <;> linarith
    have h0 : ¬ y - ((⌊y⌋ : ℤ) : α) < 1 / 2 := by
      rw [hfl]
      push_cast
      linarith
    have h1 : (1 : α) / 2 < y - ((⌊y⌋ : ℤ) : α) := by
      rw [hfl]
      push_cast
      linarith
    simp only [h0, h1, if_true, if_false]
    omega

theorem log_two_abs_eq {α : Type} [LinearOrderedField α] [FloorRing α] (x : α) (e : ℤ)
    (h1 : (2 : α) ^ e ≤ |x|) (h2 : |x| < (2 : α) ^ (e + 1)) : Int.log 2 |x| = e := by
  have hpos : (0 : α) < |x| := lt_of_lt_of_le (zpow_pos (by norm_num) e) h1
  have hb : 1 < 2 := by norm_num
  have hle : e ≤ Int.log 2 |x| := by
    apply (Int.zpow_le_iff_le_log hb hpos).1
    rw [Nat.cast_ofNat]
    exact h1
  have hlt : Int.log 2 |x| < e + 1 := by
    apply (Int.lt_zpow_iff_log_lt hb hpos).1
    rw [Nat.cast_ofNat]
    exact h2
  omega

/-- The value of the binary32 rounding at `x`, from the binade of `x` and the integer nearest
to its significand. -/
theorem round32_eq {α : Type} [LinearOrderedField α] [FloorRing α] (x : α) (e n : ℤ)
    (he : -126 ≤ e) (h1 : (2 : α) ^ e ≤ |x|) (h2 : |x| < (2 : α) ^ (e + 1))
    (h3 : (n : α) - 1 / 2 < x / (2 : α) ^ (e - 23)) (h4 : x / (2 : α) ^ (e - 23) < n + 1 / 2) :
    roundTo 24 (-126) x = n * (2 : α) ^ (e - 23) := by
  unfold roundTo
  simp only [log_two_abs_eq x e h1 h2, max_eq_left he]
  have h23 : e - (((24 : ℕ) : ℤ) - 1) = e - 23 := by norm_num
  rw [h23, roundHalfEven_eq _ n h3 h4]

theorem round32_nonneg {α : Type} [LinearOrderedField α] [FloorRing α] (x : α) (h : 0 ≤ x) :
    0 ≤ roundTo 24 (-126) x := by
  unfold roundTo
  simp only
  have hu : (0 : α) < (2 : α) ^ (max (Int.log 2 |x|) (-126) - (((24 : ℕ) : ℤ) - 1)) :=
    zpow_pos (by norm_num) _
  have hq : ((0 : ℤ) : α) ≤ x / (2 : α) ^ (max (Int.log 2 |x|) (-126) - (((24 : ℕ) : ℤ) - 1)) := by
    rw [Int.cast_zero]
    exact div_nonneg h hu.le
  have := le_roundHalfEven _ 0 hq
  have hc : (0 : α) ≤ (roundHalfEven
      (x / (2 : α) ^ (max (Int.log 2 |x|) (-126) - (((24 : ℕ) : ℤ) - 1))) : ℤ) := by
    exact_mod_cast this
  exact mul_nonneg hc hu.le

theorem round32_nonpos {α : Type} [LinearOrderedField α] [FloorRing α] (x : α) (h : x ≤ 0) :
    roundTo 24 (-126) x ≤ 0 := by
  unfold roundTo
  simp only
  have hu : (0 : α) < (2 : α) ^ (max (Int.log 2 |x|) (-126) - (((24 : ℕ) : ℤ) - 1)) :=
    zpow_pos (by norm_num) _
  have hq : x / (2 : α) ^ (max (Int.log 2 |x|) (-126) - (((24 : ℕ) : ℤ) - 1)) ≤ ((0 : ℤ) : α) := by
    rw [Int.cast_zero]
    exact div_nonpos_of_nonpos_of_nonneg h hu.le
  have := roundHalfEven_le _ 0 hq
  have hc : ((roundHalfEven
      (x / (2 : α) ^ (max (Int.log 2 |x|) (-126) - (((24 : ℕ) : ℤ) - 1))) : ℤ) : α) ≤ 0 := by
    exact_mod_cast this
  exact mul_nonpos_of_nonpos_of_nonneg hc hu.le

theorem round32_zero {α : Type} [LinearOrderedField α] [FloorRing α] :
    roundTo 24 (-126) (0 : α) = 0 :=
  le_antisymm (round32_nonpos 0 le_rfl) (round32_nonneg 0 le_rfl)

/-- Rounding does not cross a power of two from above. -/
theorem two_zpow_le_round32 {α : Type} [LinearOrderedField α] [FloorRing α] (k : ℤ)
    (hk : -126 ≤ k) (x : α) (h : (2 : α) ^ k ≤ x) : (2 : α) ^ k ≤ roundTo 24 (-126) x := by
  have hxpos : (0 : α) < x := lt_of_lt_of_le (zpow_pos (by norm_num) k) h
  have habs : |x| = x := abs_of_pos hxpos
  have hb : 1 < 2 := by norm_num
  have hke : k ≤ Int.log 2 x := by
    apply (Int.zpow_le_iff_le_log hb hxpos).1
    rw [Nat.cast_ofNat]
    exact h
  have hex : (2 : α) ^ Int.log 2 x ≤ x := by
    have := Int.zpow_log_le_self hb hxpos
    rwa [Nat.cast_ofNat] at this
  unfold roundTo
  simp only [habs, max_eq_left (hk.trans hke)]
  have h23 : Int.log 2 x - (((24 : ℕ) : ℤ) - 1) = Int.log 2 x - 23 := by norm_num
  rw [h23]
  have hu : (0 : α) < (2 : α) ^ (Int.log 2 x - 23) := zpow_pos (by norm_num) _
  have hsplit : (2 : α) ^ Int.log 2 x = (2 : α) ^ (23 : ℕ) * (2 : α) ^ (Int.log 2 x - 23) := by
    rw [← zpow_natCast, ← zpow_add₀ (by norm_num : (2 : α) ≠ 0)]
    congr 1
    omega
  have hq : (((2 : ℤ) ^ (23 : ℕ) : ℤ) : α) ≤ x / (2 : α) ^ (Int.log 2 x - 23) := by
    rw [le_div_iff₀ hu, Int.cast_pow, Int.cast_ofNat, ← hsplit]
    exact hex
  have hr := le_roundHalfEven _ _ hq
  have hc : ((2 : α) ^ (23 : ℕ)) ≤ (roundHalfEven (x / (2 : α) ^ (Int.log 2 x - 23)) : ℤ) := by
    exact_mod_cast hr
  calc (2 : α) ^ k ≤ (2 : α) ^ Int.log 2 x := zpow_le_zpow_right₀ (by norm_num) hke
    _ = (2 : α) ^ (23 : ℕ) * (2 : α) ^ (Int.log 2 x - 23) := hsplit
    _ ≤ _ := mul_le_mul_of_nonneg_right hc hu.le

/-- Rounding does not cross a negated power of two from below. -/
theorem round32_le_neg_two_zpow {α : Type} [LinearOrderedField α] [FloorRing α] (k : ℤ)
    (hk : -126 ≤ k) (x : α) (h : x ≤ -(2 : α) ^ k) : roundTo 24 (-126) x ≤ -(2 : α) ^ k := by
  have hxneg : x < 0 := lt_of_le_of_lt h (neg_neg_of_pos (zpow_pos (by norm_num) k))
  have habs : |x| = -x := abs_of_neg hxneg
  have hxpos : (0 : α) < -x := neg_pos.2 hxneg
  have hb : 1 < 2 := by norm_num
  have hke : k ≤ Int.log 2 (-x) := by
    apply (Int.zpow_le_iff_le_log hb hxpos).1
    rw [Nat.cast_ofNat]
    linarith
  have hex : (2 : α) ^ Int.log 2 (-x) ≤ -x := by
    have := Int.zpow_log_le_self hb hxpos
    rwa [Nat.cast_ofNat] at this
  unfold roundTo
  simp only [habs, max_eq_left (hk.trans hke)]
  have h23 : Int.log 2 (-x) - (((24 : ℕ) : ℤ) - 1) = Int.log 2 (-x) - 23 := by norm_num
  rw [h23]
  have hu : (0 : α) < (2 : α) ^ (Int.log 2 (-x) - 23) := zpow_pos (by norm_num) _
  have hsplit : (2 : α) ^ Int.log 2 (-x)
      = (2 : α) ^ (23 : ℕ) * (2 : α) ^ (Int.log 2 (-x) - 23) := by
    rw [← zpow_natCast, ← zpow_add₀ (by norm_num : (2 : α) ≠ 0)]
    congr 1
    omega
  have hq : x / (2 : α) ^ (Int.log 2 (-x) - 23) ≤ ((-(2 : ℤ) ^ (23 : ℕ) : ℤ) : α) := by
    rw [div_le_iff₀ hu, Int.cast_neg, Int.cast_pow, Int.cast_ofNat, neg_mul, ← hsplit]
    linarith
  have hr := roundHalfEven_le _ _ hq
  have hc : ((roundHalfEven (x / (2 : α) ^ (Int.log 2 (-x) - 23)) : ℤ) : α)
      ≤ -((2 : α) ^ (23 : ℕ)) := by
    exact_mod_cast hr
  have hkk : (2 : α) ^ k ≤ (2 : α) ^ Int.log 2 (-x) := zpow_le_zpow_right₀ (by norm_num) hke
  calc _ ≤ -((2 : α) ^ (23 : ℕ)) * (2 : α) ^ (Int.log 2 (-x) - 23) :=
        mul_le_mul_of_nonneg_right hc hu.le
    _ = -(2 : α) ^ Int.log 2 (-x) := by rw [neg_mul, ← hsplit]
    _ ≤ -(2 : α) ^ k := neg_le_neg hkk

/-- Rounding does not leave an interval `[-2^k, 2^k]`. -/
theorem abs_round32_le {α : Type} [LinearOrderedField α] [FloorRing α] (k : ℤ)
    (hk : -126 ≤ k) (x : α) (h : |x| ≤ (2 : α) ^ k) : |roundTo 24 (-126) x| ≤ (2 : α) ^ k := by
  rcases eq_or_lt_of_le (abs_nonneg x) with h0 | hpos
  · have hx : x = 0 := abs_eq_zero.1 h0.symm
    rw [hx, round32_zero, abs_zero]
    exact (zpow_pos (by norm_num) k).le
  · have hb : 1 < 2 := by norm_num
    have hlog : Int.log 2 |x| ≤ k := by
      have hlt : |x| < (2 : α) ^ (k + 1) :=
        lt_of_le_of_lt h (zpow_lt_zpow_right₀ (by norm_num) (by omega))
      have := (Int.lt_zpow_iff_log_lt hb hpos).1 (by rw [Nat.cast_ofNat]; exact hlt)
      omega
    have he : max (Int.log 2 |x|) (-126) ≤ k := max_le hlog hk
    unfold roundTo
    simp only
    generalize max (Int.log 2 |x|) (-126) = e at he
    have h23 : e - (((24 : ℕ) : ℤ) - 1) = e - 23 := by norm_num
    rw [h23]
    have hu : (0 : α) < (2 : α) ^ (e - 23) := zpow_pos (by norm_num) _
    obtain ⟨m, hm⟩ : ∃ m : ℕ, (m : ℤ) = k - e + 23 := ⟨(k - e + 23).toNat, by omega⟩
    have hsplit : (2 : α) ^ k = (2 : α) ^ m * (2 : α) ^ (e - 23) := by
      rw [← zpow_natCast, ← zpow_add₀ (by norm_num : (2 : α) ≠ 0)]
      congr 1
      omega
    have hx := abs_le.1 h
    have hq1 : x / (2 : α) ^ (e - 23) ≤ (((2 : ℤ) ^ m : ℤ) : α) := by
      rw [div_le_iff₀ hu, Int.cast_pow, Int.cast_ofNat, ← hsplit]
      exact hx.2
    have hq2 : ((-(2 : ℤ) ^ m : ℤ) : α) ≤ x / (2 : α) ^ (e - 23) := by
      rw [le_div_iff₀ hu, Int.cast_neg, Int.cast_pow, Int.cast_ofNat, neg_mul, ← hsplit]
      exact hx.1
    have hr1 := roundHalfEven_le _ _ hq1
    have hr2 := le_roundHalfEven _ _ hq2
    have hc1 : ((roundHalfEven (x / (2 : α) ^ (e - 23)) : ℤ) : α) ≤ (2 : α) ^ m := by
      exact_mod_cast hr1
    have hc2 : -((2 : α) ^ m) ≤ ((roundHalfEven (x / (2 : α) ^ (e - 23)) : ℤ) : α) := by
      exact_mod_cast hr2
    rw [abs_le, hsplit]
    constructor
    · rw [← neg_mul]
      exact mul_le_mul_of_nonneg_right hc2 hu.le
    · exact mul_le_mul_of_nonneg_right hc1 hu.le

theorem round32_two_zpow {α : Type} [LinearOrderedField α] [FloorRing α] (k : ℤ)
    (hk : -126 ≤ k) : roundTo 24 (-126) ((2 : α) ^ k) = (2 : α) ^ k := by
  apply le_antisymm
  · have hpos : (0 : α) < (2 : α) ^ k := zpow_pos (by norm_num) k
    exact (le_abs_self _).trans (abs_round32_le k hk _ (by rw [abs_of_pos hpos]))
  · exact two_zpow_le_round32 k hk _ le_rfl

theorem round32_neg_two_zpow {α : Type} [LinearOrderedField α] [FloorRing α] (k : ℤ)
    (hk : -126 ≤ k) : roundTo 24 (-126) (-(2 : α) ^ k) = -(2 : α) ^ k := by
  apply le_antisymm
  · exact round32_le_neg_two_zpow k hk _ le_rfl
  · have hpos : (0 : α) < (2 : α) ^ k := zpow_pos (by norm_num) k
    have := abs_round32_le k hk (-(2 : α) ^ k) (by rw [abs_neg, abs_of_pos hpos])
    exact (abs_le.1 this).1

/-! ## Lemmas on floating-point values -/

theorem Fl.ofExact_exact {α : Type} [LinearOrderedField α] (x : α) :
    Fl.ofExact (Format.exact : Format α) x = Fl.fin x := rfl

theorem two_pow_127_le_FLT_MAX : (2 : ℝ) ^ (127 : ℤ) ≤ FLT_MAX := by
  unfold FLT_MAX
  norm_num

theorem FLT_MAX_lt_two_pow_128 : (FLT_MAX : ℝ) < (2 : ℝ) ^ (128 : ℤ) := by
  unfold FLT_MAX
  norm_num

/-- An exact result of magnitude at most `2^127` does not overflow. -/
theorem Fl.ofExact_binary32_of_abs_le (x : ℝ) (h : |x| ≤ (2 : ℝ) ^ (127 : ℤ)) :
    Fl.ofExact (Format.binary32 : Format ℝ) x = Fl.fin (roundTo 24 (-126) x) := by
  have hr := abs_round32_le 127 (by norm_num) x h
  have hno : ¬ (FLT_MAX : ℝ) < |roundTo 24 (-126) x| :=
    not_lt.2 (hr.trans two_pow_127_le_FLT_MAX)
  simp only [Fl.ofExact, Format.binary32, hno, decide_False, Bool.false_eq_true, if_false]

/-- An exact result of at least `2^128` overflows to `+∞`. -/
theorem Fl.ofExact_binary32_of_le (x : ℝ) (h : (2 : ℝ) ^ (128 : ℤ) ≤ x) :
    Fl.ofExact (Format.binary32 : Format ℝ) x = Fl.pinf := by
  have hr := two_zpow_le_round32 128 (by norm_num) x h
  have hpos : (0 : ℝ) < roundTo 24 (-126) x := lt_of_lt_of_le (zpow_pos (by norm_num) _) hr
  have hov : (FLT_MAX : ℝ) < |roundTo 24 (-126) x| := by
    rw [abs_of_pos hpos]
    exact lt_of_lt_of_le FLT_MAX_lt_two_pow_128 hr
  simp only [Fl.ofExact, Format.binary32, hov, decide_True, if_true, hpos]

/-- An exact result of at most `-2^128` overflows to `-∞`. -/
theorem Fl.ofExact_binary32_of_le_neg (x : ℝ) (h : x ≤ -(2 : ℝ) ^ (128 : ℤ)) :
    Fl.ofExact (Format.binary32 : Format ℝ) x = Fl.ninf := by
  have hr := round32_le_neg_two_zpow 128 (by norm_num) x h
  have hneg : roundTo 24 (-126) x < (0 : ℝ) :=
    lt_of_le_of_lt hr (neg_neg_of_pos (zpow_pos (by norm_num) _))
  have hov : (FLT_MAX : ℝ) < |roundTo 24 (-126) x| := by
    rw [abs_of_neg hneg]
    have := FLT_MAX_lt_two_pow_128
    linarith
  simp only [Fl.ofExact, Format.binary32, hov, decide_True, if_true, not_lt.2 hneg.le, if_false]

theorem Fl.ofExact_binary32_zero : Fl.ofExact (Format.binary32 : Format ℝ) 0 = Fl.fin 0 := by
  rw [Fl.ofExact_binary32_of_abs_le 0 (by rw [abs_zero]; positivity), round32_zero]

theorem Fl.ofExact_binary32_two_zpow (k : ℤ) (h1 : -126 ≤ k) (h2 : k ≤ 127) :
    Fl.ofExact (Format.binary32 : Format ℝ) ((2 : ℝ) ^ k) = Fl.fin ((2 : ℝ) ^ k) := by
  have hpos : (0 : ℝ) < (2 : ℝ) ^ k := zpow_pos (by norm_num) k
  rw [Fl.ofExact_binary32_of_abs_le _ (by
    rw [abs_of_pos hpos]
    exact zpow_le_zpow_right₀ (by norm_num) h2), round32_two_zpow k h1]

theorem Fl.ofExact_binary32_neg_two_zpow (k : ℤ) (h1 : -126 ≤ k) (h2 : k ≤ 127) :
    Fl.ofExact (Format.binary32 : Format ℝ) (-(2 : ℝ) ^ k) = Fl.fin (-(2 : ℝ) ^ k) := by
  have hpos : (0 : ℝ) < (2 : ℝ) ^ k := zpow_pos (by norm_num) k
  rw [Fl.ofExact_binary32_of_abs_le _ (by
    rw [abs_neg, abs_of_pos hpos]
    exact zpow_le_zpow_right₀ (by norm_num) h2), round32_neg_two_zpow k h1]

theorem Fl.ofExact_binary32_one : Fl.ofExact (Format.binary32 : Format ℝ) 1 = Fl.fin 1 := by
  have := Fl.ofExact_binary32_two_zpow 0 (by norm_num) (by norm_num)
  simpa using this

theorem Fl.ofExact_binary32_neg_one :
    Fl.ofExact (Format.binary32 : Format ℝ) (-1) = Fl.fin (-1) := by
  have := Fl.ofExact_binary32_neg_two_zpow 0 (by norm_num) (by norm_num)
  simpa using this

theorem Fl.ofExact_binary32_two : Fl.ofExact (Format.binary32 : Format ℝ) 2 = Fl.fin 2 := by
  have := Fl.ofExact_binary32_two_zpow 1 (by norm_num) (by norm_num)
  simpa using this

theorem Fl.ofExact_binary32_four : Fl.ofExact (Format.binary32 : Format ℝ) 4 = Fl.fin 4 := by
  have := Fl.ofExact_binary32_two_zpow 2 (by norm_num) (by norm_num)
  norm_num at this
  exact this

theorem Fl.zero_binary32 : (0 : Fl (Format.binary32 : Format ℝ)) = Fl.fin 0 :=
  Fl.ofExact_binary32_zero

theorem Fl.one_binary32 : (1 : Fl (Format.binary32 : Format ℝ)) = Fl.fin 1 :=
  Fl.ofExact_binary32_one

theorem Fl.four_binary32 : (4 : Fl (Format.binary32 : Format ℝ)) = Fl.fin 4 := by
  show Fl.ofExact Format.binary32 (((4 : ℕ) : ℝ)) = Fl.fin 4
  rw [Nat.cast_ofNat]
  exact Fl.ofExact_binary32_four

theorem Fl.neg_fin {α : Type} [LinearOrderedField α] {f : Format α} (x : α) :
    -(Fl.fin x : Fl f) = Fl.fin (-x) := rfl

theorem Fl.sub_eq {α : Type} [LinearOrderedField α] {f : Format α} (a b : Fl f) :
    a - b = a + -b := rfl

theorem Fl.fin_add_fin {α : Type} [LinearOrderedField α] {f : Format α} (x y : α) :
    (Fl.fin x : Fl f) + Fl.fin y = Fl.ofExact f (x + y) := rfl

theorem Fl.fin_mul_fin {α : Type} [LinearOrderedField α] {f : Format α} (x y : α) :
    (Fl.fin x : Fl f) * Fl.fin y = Fl.ofExact f (x * y) := rfl

theorem Fl.fin_div_fin {α : Type} [LinearOrderedField α] {f : Format α} (x y : α)
    (hy : y ≠ 0) : (Fl.fin x : Fl f) / Fl.fin y = Fl.ofExact f (x / y) := by
  show Fl.div _ _ = _
  simp only [Fl.div, hy, if_false]

theorem Fl.lt_iff {α : Type} [LinearOrderedField α] {f : Format α} (a b : Fl f) :
    a < b ↔ Fl.lt a b = true := Iff.rfl

theorem Fl.ge_iff {α : Type} [LinearOrderedField α] {f : Format α} (a b : Fl f) :
    a ≥ b ↔ Fl.le b a = true := Iff.rfl

theorem Fl.widen_fin (x : ℝ) :
    (Narrowing.widen (Fl.fin x : Fl (Format.binary32 : Format ℝ)) : Fl (Format.exact : Format ℝ))
      = Fl.fin x := rfl

theorem Fl.narrow_fin (x : ℝ) :
    (Narrowing.narrow (Fl.fin x : Fl (Format.exact : Format ℝ)) : Fl (Format.binary32 : Format ℝ))
      = Fl.ofExact Format.binary32 x := rfl

theorem floatSqrt_fin (x : ℝ) (hx : 0 ≤ x) :
    floatSqrt (Fl.sqrt Format.exact Real.sqrt) (Fl.fin x : Fl (Format.binary32 : Format ℝ))
      = Fl.ofExact Format.binary32 (Real.sqrt x) := by
  simp only [floatSqrt, Fl.widen_fin, Fl.sqrt, not_lt.2 hx, if_false, Fl.ofExact_exact,
    Fl.narrow_fin]

theorem floatSqrt_pinf :
    floatSqrt (Fl.sqrt Format.exact Real.sqrt) (Fl.pinf : Fl (Format.binary32 : Format ℝ))
      = Fl.pinf := rfl

theorem floatSqrt_nan :
    floatSqrt (Fl.sqrt Format.exact Real.sqrt) (Fl.nan : Fl (Format.binary32 : Format ℝ))
      = Fl.nan := rfl

theorem Fl.add_def {α : Type} [LinearOrderedField α] {f : Format α} (a b : Fl f) :
    a + b = Fl.add a b := rfl

theorem Fl.mul_def {α : Type} [LinearOrderedField α] {f : Format α} (a b : Fl f) :
    a * b = Fl.mul a b := rfl

theorem Fl.div_def {α : Type} [LinearOrderedField α] {f : Format α} (a b : Fl f) :
    a / b = Fl.div a b := rfl

theorem Fl.neg_def {α : Type} [LinearOrderedField α] {f : Format α} (a : Fl f) :
    -a = Fl.neg a := rfl

/-! ## Lemmas on the pivot selection in machine arithmetic -/

theorem narrow_hugeDiagonal :
    Mat3.hugeDiagonal.map Narrowing.narrow
      = (⟨Fl.pinf, Fl.fin 0, Fl.fin 0, Fl.fin 0, Fl.ninf, Fl.fin 0, Fl.fin 0, Fl.fin 0,
          Fl.fin 1⟩ : Mat3 (Fl (Format.binary32 : Format ℝ))) := by
  have h1 : Fl.ofExact (Format.binary32 : Format ℝ) (10 ^ 39) = Fl.pinf :=
    Fl.ofExact_binary32_of_le _ (by norm_num)
  have h2 : Fl.ofExact (Format.binary32 : Format ℝ) (-10 ^ 39) = Fl.ninf :=
    Fl.ofExact_binary32_of_le_neg _ (by norm_num)
  simp only [Mat3.hugeDiagonal, Mat3.map, Fl.narrow_fin, h1, h2, Fl.ofExact_binary32_zero,
    Fl.ofExact_binary32_one]

theorem candidates_hugeDiagonal :
    quaternionCandidates (floatSqrt (Fl.sqrt Format.exact Real.sqrt))
        (Mat3.hugeDiagonal.map Narrowing.narrow)
      = (Fl.nan, Fl.pinf, Fl.fin 0, Fl.nan) := by
  rw [narrow_hugeDiagonal]
  simp only [quaternionCandidates, Fl.one_binary32, Fl.four_binary32, Fl.zero_binary32,
    Fl.add_def, Fl.sub_eq, Fl.div_def, Fl.neg_def, Fl.neg, Fl.add, Fl.div, Fl.lt_iff, Fl.lt]
  norm_num [floatSqrt_nan, floatSqrt_pinf, floatSqrt_fin, Fl.ofExact_binary32_zero]

theorem rotationToQuaternion_hugeDiagonal :
    rotationToQuaternion (Fl.sqrt Format.exact Real.sqrt) Mat3.hugeDiagonal = none := by
  simp only [rotationToQuaternion, signedQuaternion, candidates_hugeDiagonal, Fl.ge_iff, Fl.le]
  simp

theorem Fl.ofExact_ne_nan {α : Type} [LinearOrderedField α] (f : Format α) (x : α) :
    Fl.ofExact f x ≠ Fl.nan := by
  unfold Fl.ofExact
  split_ifs <;> simp

theorem Fl.add_fin_ne_nan {α : Type} [LinearOrderedField α] {f : Format α} (v : Fl f) (y : α)
    (hv : v ≠ Fl.nan) : v + Fl.fin y ≠ Fl.nan := by
  cases v with
  | nan => exact absurd rfl hv
  | ninf => simp [Fl.add_def, Fl.add]
  | fin x => exact Fl.ofExact_ne_nan f _
  | pinf => simp [Fl.add_def, Fl.add]

theorem Fl.div_fin_ne_nan {α : Type} [LinearOrderedField α] {f : Format α} (v : Fl f) (y : α)
    (hy : 0 < y) (hv : v ≠ Fl.nan) : v / Fl.fin y ≠ Fl.nan := by
  cases v with
  | nan => exact absurd rfl hv
  | ninf => simp [Fl.div_def, Fl.div, hy.le]
  | fin x =>
    rw [Fl.fin_div_fin x y hy.ne']
    exact Fl.ofExact_ne_nan f _
  | pinf => simp [Fl.div_def, Fl.div, hy.le]

/-- A value that is not NaN is, once clamped at zero, a non-negative number or `+∞`. -/
theorem Fl.clamp_cases (v : Fl (Format.binary32 : Format ℝ)) (hv : v ≠ Fl.nan) :
    (∃ y : ℝ, 0 ≤ y ∧ (if v < 0 then 0 else v) = Fl.fin y) ∨
      (if v < 0 then 0 else v) = Fl.pinf := by
  cases v with
  | nan => exact absurd rfl hv
  | ninf =>
    left
    exact ⟨0, le_rfl, by simp [Fl.lt_iff, Fl.lt, Fl.zero_binary32]⟩
  | fin x =>
    left
    by_cases hx : x < 0
    · exact ⟨0, le_rfl, by simp [Fl.lt_iff, Fl.lt, Fl.zero_binary32, hx]⟩
    · exact ⟨x, not_lt.1 hx, by simp [Fl.lt_iff, Fl.lt, Fl.zero_binary32, hx]⟩
  | pinf =>
    right
    simp [Fl.lt_iff, Fl.lt, Fl.zero_binary32]

/-- The binary32 value of a non-negative exact result is a non-negative number or `+∞`. -/
theorem Fl.ofExact_binary32_nonneg (x : ℝ) (hx : 0 ≤ x) :
    (∃ y : ℝ, 0 ≤ y ∧ Fl.ofExact (Format.binary32 : Format ℝ) x = Fl.fin y) ∨
      Fl.ofExact (Format.binary32 : Format ℝ) x = Fl.pinf := by
  have hr := round32_nonneg x hx
  unfold Fl.ofExact
  by_cases hov : (Format.binary32 : Format ℝ).overflows ((Format.binary32 : Format ℝ).round x)
      = true
  · right
    have hpos : (0 : ℝ) < (Format.binary32 : Format ℝ).round x := by
      rcases eq_or_lt_of_le hr with h0 | hpos
      · exfalso
        have h0 : (Format.binary32 : Format ℝ).round x = 0 := h0.symm
        rw [h0] at hov
        simp [Format.binary32, FLT_MAX] at hov
        norm_num at hov
      · exact hpos
    simp only [hov, if_true, hpos]
  · left
    exact ⟨_, hr, by simp only [hov, Bool.false_eq_true, if_false]; rfl⟩

/-- Each candidate of lines 363-374 is a non-negative number or `+∞` when the three entries it
is computed from are finite. -/
theorem candidate_cases (a b c : ℝ) :
    (∃ y : ℝ, 0 ≤ y ∧
        floatSqrt (Fl.sqrt Format.exact Real.sqrt)
          (if ((Fl.fin a : Fl (Format.binary32 : Format ℝ)) + Fl.fin b + Fl.fin c + 1) / 4 < 0
            then 0 else (Fl.fin a + Fl.fin b + Fl.fin c + 1) / 4) = Fl.fin y) ∨
      floatSqrt (Fl.sqrt Format.exact Real.sqrt)
          (if ((Fl.fin a : Fl (Format.binary32 : Format ℝ)) + Fl.fin b + Fl.fin c + 1) / 4 < 0
            then 0 else (Fl.fin a + Fl.fin b + Fl.fin c + 1) / 4) = Fl.pinf := by
  have h1 : (Fl.fin a : Fl (Format.binary32 : Format ℝ)) + Fl.fin b ≠ Fl.nan :=
    Fl.ofExact_ne_nan _ _
  have h2 := Fl.add_fin_ne_nan _ c h1
  have h3 := Fl.add_fin_ne_nan _ 1 h2
  rw [← Fl.one_binary32] at h3
  have h4 := Fl.div_fin_ne_nan _ 4 (by norm_num) h3
  rw [← Fl.four_binary32] at h4
  rcases Fl.clamp_cases _ h4 with ⟨y, hy, hc⟩ | hc
  · rw [hc, floatSqrt_fin y hy]
    exact Fl.ofExact_binary32_nonneg _ (Real.sqrt_nonneg y)
  · right
    rw [hc]
    rfl

/-- Among four values that are non-negative numbers or `+∞`, one is at least the other
three. -/
theorem Fl.pivot_total (a b c d : Fl (Format.binary32 : Format ℝ))
    (ha : (∃ y : ℝ, 0 ≤ y ∧ a = Fl.fin y) ∨ a = Fl.pinf)
    (hb : (∃ y : ℝ, 0 ≤ y ∧ b = Fl.fin y) ∨ b = Fl.pinf)
    (hc : (∃ y : ℝ, 0 ≤ y ∧ c = Fl.fin y) ∨ c = Fl.pinf)
    (hd : (∃ y : ℝ, 0 ≤ y ∧ d = Fl.fin y) ∨ d = Fl.pinf) :
    (a ≥ b ∧ a ≥ c ∧ a ≥ d) ∨ (b ≥ a ∧ b ≥ c ∧ b ≥ d) ∨ (c ≥ a ∧ c ≥ b ∧ c ≥ d) ∨
      (d ≥ a ∧ d ≥ b ∧ d ≥ c) := by
  rcases ha with ⟨ya, _, rfl⟩ | rfl <;> rcases hb with ⟨yb, _, rfl⟩ | rfl <;>
    rcases hc with ⟨yc, _, rfl⟩ | rfl <;> rcases hd with ⟨yd, _, rfl⟩ | rfl <;>
    simp only [Fl.ge_iff, Fl.le, decide_eq_true_eq, and_self, and_true, true_and, true_or,
      or_true]
  exact one_of_four_is_largest ya yb yc yd

/-- The four candidates on a matrix whose diagonal entries do not overflow in `float`. -/
theorem quaternionCandidates_cases (rot : Mat3 ℝ) (h11 : |rot.r11| ≤ 2 ^ 127)
    (h22 : |rot.r22| ≤ 2 ^ 127) (h33 : |rot.r33| ≤ 2 ^ 127) :
    ((∃ y : ℝ, 0 ≤ y ∧ (quaternionCandidates (floatSqrt (Fl.sqrt Format.exact Real.sqrt))
          (rot.toDouble.map Narrowing.narrow)).1 = Fl.fin y) ∨
        (quaternionCandidates (floatSqrt (Fl.sqrt Format.exact Real.sqrt))
          (rot.toDouble.map Narrowing.narrow)).1 = Fl.pinf) ∧
      ((∃ y : ℝ, 0 ≤ y ∧ (quaternionCandidates (floatSqrt (Fl.sqrt Format.exact Real.sqrt))
          (rot.toDouble.map Narrowing.narrow)).2.1 = Fl.fin y) ∨
        (quaternionCandidates (floatSqrt (Fl.sqrt Format.exact Real.sqrt))
          (rot.toDouble.map Narrowing.narrow)).2.1 = Fl.pinf) ∧
      ((∃ y : ℝ, 0 ≤ y ∧ (quaternionCandidates (floatSqrt (Fl.sqrt Format.exact Real.sqrt))
          (rot.toDouble.map Narrowing.narrow)).2.2.1 = Fl.fin y) ∨
        (quaternionCandidates (floatSqrt (Fl.sqrt Format.exact Real.sqrt))
          (rot.toDouble.map Narrowing.narrow)).2.2.1 = Fl.pinf) ∧
      ((∃ y : ℝ, 0 ≤ y ∧ (quaternionCandidates (floatSqrt (Fl.sqrt Format.exact Real.sqrt))
          (rot.toDouble.map Narrowing.narrow)).2.2.2 = Fl.fin y) ∨
        (quaternionCandidates (floatSqrt (Fl.sqrt Format.exact Real.sqrt))
          (rot.toDouble.map Narrowing.narrow)).2.2.2 = Fl.pinf) := by
  have e11 := Fl.ofExact_binary32_of_abs_le rot.r11 (by have h := h11; norm_num at h ⊢; exact h)
  have e22 := Fl.ofExact_binary32_of_abs_le rot.r22 (by have h := h22; norm_num at h ⊢; exact h)
  have e33 := Fl.ofExact_binary32_of_abs_le rot.r33 (by have h := h33; norm_num at h ⊢; exact h)
  simp only [quaternionCandidates, Mat3.toDouble, Mat3.map, Fl.narrow_fin, e11, e22, e33,
    Fl.sub_eq, Fl.neg_fin]
  exact ⟨candidate_cases _ _ _, candidate_cases _ _ _, candidate_cases _ _ _,
    candidate_cases _ _ _⟩

/-- On a matrix whose diagonal entries do not overflow in `float` one branch of lines 375-394
is taken. -/
theorem signedQuaternion_binary32_isSome (rot : Mat3 ℝ) (h11 : |rot.r11| ≤ 2 ^ 127)
    (h22 : |rot.r22| ≤ 2 ^ 127) (h33 : |rot.r33| ≤ 2 ^ 127) :
    (signedQuaternion (floatSqrt (Fl.sqrt Format.exact Real.sqrt))
      (rot.toDouble.map Narrowing.narrow)).isSome = true := by
  obtain ⟨c0, c1, c2, c3⟩ := quaternionCandidates_cases rot h11 h22 h33
  have h := Fl.pivot_total _ _ _ _ c0 c1 c2 c3
  unfold signedQuaternion
  simp only
  split_ifs with h0 h1 h2 h3
  · rfl
  · rfl
  · rfl
  · rfl
  · rcases h with h | h | h | h
    · exact absurd h h0
    · exact absurd h h1
    · exact absurd h h2
    · exact absurd h h3

/-! ## Lemmas on the overflowing sum -/

theorem narrow_overflowingSum :
    Mat3.overflowingSum.map Narrowing.narrow
      = (⟨Fl.fin (2 ^ 127), Fl.fin 0, Fl.fin 0, Fl.fin 0, Fl.fin (2 ^ 127), Fl.fin 0, Fl.fin 0,
          Fl.fin 0, Fl.fin 1⟩ : Mat3 (Fl (Format.binary32 : Format ℝ))) := by
  have h1 : Fl.ofExact (Format.binary32 : Format ℝ) (2 ^ 127) = Fl.fin (2 ^ 127) := by
    have := Fl.ofExact_binary32_two_zpow 127 (by norm_num) (by norm_num)
    norm_num at this ⊢
    exact this
  simp only [Mat3.overflowingSum, Mat3.map, Fl.narrow_fin, h1, Fl.ofExact_binary32_zero,
    Fl.ofExact_binary32_one]

theorem candidates_overflowingSum :
    quaternionCandidates (floatSqrt (Fl.sqrt Format.exact Real.sqrt))
        (Mat3.overflowingSum.map Narrowing.narrow)
      = (Fl.pinf, Fl.fin 0, Fl.fin 0, Fl.fin 0) := by
  rw [narrow_overflowingSum]
  have hA : Fl.ofExact (Format.binary32 : Format ℝ) (2 ^ 127 + 2 ^ 127) = Fl.pinf :=
    Fl.ofExact_binary32_of_le _ (by norm_num)
  have hC : Fl.ofExact (Format.binary32 : Format ℝ) (-2 ^ 127 + -2 ^ 127) = Fl.ninf :=
    Fl.ofExact_binary32_of_le_neg _ (by norm_num)
  have h0 : Fl.ofExact (Format.binary32 : Format ℝ) (0 / 4) = Fl.fin 0 := by
    rw [zero_div]
    exact Fl.ofExact_binary32_zero
  simp only [quaternionCandidates, Fl.one_binary32, Fl.four_binary32, Fl.zero_binary32,
    Fl.sub_eq, Fl.neg_fin, Fl.fin_add_fin, hA, hC, add_neg_cancel, neg_add_cancel,
    Fl.ofExact_binary32_zero, zero_add, Fl.ofExact_binary32_neg_one,
    Fl.fin_div_fin _ _ (by norm_num : (4 : ℝ) ≠ 0), h0]
  simp only [Fl.add_def, Fl.add, Fl.div_def, Fl.div, Fl.lt_iff, Fl.lt]
  norm_num [floatSqrt_pinf, floatSqrt_fin, Fl.ofExact_binary32_zero]

/-- On `Mat3.overflowingSum` the divisor of lines 401-404 is `+∞` and the first component
returned is NaN. -/
theorem rotationToQuaternion_overflowingSum :
    signedQuaternion (floatSqrt (Fl.sqrt Format.exact Real.sqrt))
        (Mat3.overflowingSum.map Narrowing.narrow)
      = some ⟨Fl.pinf, Fl.fin 0, Fl.fin 0, Fl.fin 0⟩ ∧
    NORM (floatSqrt (Fl.sqrt Format.exact Real.sqrt))
        (Fl.pinf : Fl (Format.binary32 : Format ℝ)) (Fl.fin 0) (Fl.fin 0) (Fl.fin 0) = Fl.pinf ∧
    rotationToQuaternion (Fl.sqrt Format.exact Real.sqrt) Mat3.overflowingSum
      = some ⟨Fl.nan, Fl.fin 0, Fl.fin 0, Fl.fin 0⟩ := by
  have hs : signedQuaternion (floatSqrt (Fl.sqrt Format.exact Real.sqrt))
        (Mat3.overflowingSum.map Narrowing.narrow)
      = some ⟨Fl.pinf, Fl.fin 0, Fl.fin 0, Fl.fin 0⟩ := by
    simp only [signedQuaternion, candidates_overflowingSum]
    rw [narrow_overflowingSum]
    simp only [Fl.sub_eq, Fl.neg_fin, Fl.fin_add_fin, add_neg_cancel, neg_zero, add_zero,
      Fl.ofExact_binary32_zero, SIGN, Fl.zero_binary32, Fl.one_binary32, Fl.ge_iff, Fl.le,
      Fl.fin_mul_fin, zero_mul, le_refl, decide_True, if_true, and_self]
    simp [Fl.mul_def, Fl.mul]
  have hn : NORM (floatSqrt (Fl.sqrt Format.exact Real.sqrt))
      (Fl.pinf : Fl (Format.binary32 : Format ℝ)) (Fl.fin 0) (Fl.fin 0) (Fl.fin 0)
      = Fl.pinf := by
    simp only [NORM, Fl.fin_mul_fin, mul_zero, Fl.ofExact_binary32_zero]
    simp [Fl.mul_def, Fl.mul, Fl.add_def, Fl.add, floatSqrt_pinf]
  refine ⟨hs, hn, ?_⟩
  simp only [rotationToQuaternion, hs, Option.map_some', normalizeQuaternion, hn,
    Quaternion.map]
  simp [Fl.div_def, Fl.div]
  refine ⟨rfl, rfl⟩

/-! ## Lemmas on the divisor in machine arithmetic -/

/-- One rounding step: an exact result of magnitude at most `M = 2^k` is a finite `float` of
magnitude at most `M`. -/
theorem round32_step (x M : ℝ) (k : ℤ) (hk : -126 ≤ k) (hk2 : k ≤ 127) (hM : M = (2 : ℝ) ^ k)
    (hx : |x| ≤ M) :
    Fl.ofExact (Format.binary32 : Format ℝ) x = Fl.fin (roundTo 24 (-126) x) ∧
      |roundTo 24 (-126) x| ≤ M := by
  subst hM
  refine ⟨Fl.ofExact_binary32_of_abs_le x (hx.trans ?_), abs_round32_le k hk x hx⟩
  exact zpow_le_zpow_right₀ (by norm_num) hk2

theorem round32_ge (x m : ℝ) (j : ℤ) (hj : -126 ≤ j) (hm : m = (2 : ℝ) ^ j) (hx : m ≤ x) :
    m ≤ roundTo 24 (-126) x := by
  subst hm
  exact two_zpow_le_round32 j hj x hx

theorem round32_le_neg (x m : ℝ) (j : ℤ) (hj : -126 ≤ j) (hm : m = (2 : ℝ) ^ j) (hx : x ≤ -m) :
    roundTo 24 (-126) x ≤ -m := by
  subst hm
  exact round32_le_neg_two_zpow j hj x hx

/-- The clamp of lines 367-370 on a finite number. -/
theorem Fl.clamp_fin (v : ℝ) :
    (if (Fl.fin v : Fl (Format.binary32 : Format ℝ)) < 0
      then (0 : Fl (Format.binary32 : Format ℝ)) else Fl.fin v) = Fl.fin (max v 0) := by
  by_cases hneg : v < 0
  · simp [Fl.lt_iff, Fl.lt, Fl.zero_binary32, hneg, max_eq_right hneg.le]
  · simp [Fl.lt_iff, Fl.lt, Fl.zero_binary32, hneg, max_eq_left (not_lt.1 hneg)]

/-- One candidate of lines 363-374 on entries of magnitude at most `2^100`: a finite number in
`[0, 2^51]`, and at least `1/2` when the sum before `+ 1.0f` is not negative. -/
theorem candidate_bounds (a b c : ℝ) (ha : |a| ≤ 2 ^ 100) (hb : |b| ≤ 2 ^ 100)
    (hc : |c| ≤ 2 ^ 100) :
    ∃ y : ℝ, floatSqrt (Fl.sqrt Format.exact Real.sqrt)
        (if ((Fl.fin a : Fl (Format.binary32 : Format ℝ)) + Fl.fin b + Fl.fin c + 1) / 4 < 0
          then 0 else (Fl.fin a + Fl.fin b + Fl.fin c + 1) / 4) = Fl.fin y ∧
      0 ≤ y ∧ y ≤ 2 ^ 51 ∧ (0 ≤ roundTo 24 (-126) (a + b) + c → 1 / 2 ≤ y) := by
  have ha' := abs_le.1 ha
  have hb' := abs_le.1 hb
  have hc' := abs_le.1 hc
  -- s = a + b
  obtain ⟨es, hs⟩ := round32_step (a + b) (2 ^ 101) 101 (by norm_num) (by norm_num)
    (by norm_num) (abs_le.2 ⟨by linarith, by linarith⟩)
  have hs' := abs_le.1 hs
  -- t = s + c
  obtain ⟨et, ht⟩ := round32_step (roundTo 24 (-126) (a + b) + c) (2 ^ 102) 102 (by norm_num)
    (by norm_num) (by norm_num) (abs_le.2 ⟨by linarith, by linarith⟩)
  have ht' := abs_le.1 ht
  -- u = t + 1
  obtain ⟨eu, hu⟩ := round32_step (roundTo 24 (-126) (roundTo 24 (-126) (a + b) + c) + 1)
    (2 ^ 103) 103 (by norm_num) (by norm_num) (by norm_num)
    (abs_le.2 ⟨by linarith, by linarith⟩)
  have hu' := abs_le.1 hu
  -- v = u / 4
  obtain ⟨ev, hv⟩ := round32_step
    (roundTo 24 (-126) (roundTo 24 (-126) (roundTo 24 (-126) (a + b) + c) + 1) / 4)
    (2 ^ 101) 101 (by norm_num) (by norm_num) (by norm_num)
    (abs_le.2 ⟨by linarith, by linarith⟩)
  have hv' := abs_le.1 hv
  -- the value before clamping
  have hq : ((Fl.fin a : Fl (Format.binary32 : Format ℝ)) + Fl.fin b + Fl.fin c + 1) / 4
      = Fl.fin (roundTo 24 (-126)
          (roundTo 24 (-126) (roundTo 24 (-126) (roundTo 24 (-126) (a + b) + c) + 1) / 4)) := by
    rw [Fl.fin_add_fin, es, Fl.fin_add_fin, et, Fl.one_binary32, Fl.fin_add_fin, eu,
      Fl.four_binary32, Fl.fin_div_fin _ _ (by norm_num : (4 : ℝ) ≠ 0), ev]
  rw [hq]
  generalize hvdef : roundTo 24 (-126)
      (roundTo 24 (-126) (roundTo 24 (-126) (roundTo 24 (-126) (a + b) + c) + 1) / 4) = v
    at hv' ⊢
  -- lower bound of v when the sum is not negative
  have hbig : 0 ≤ roundTo 24 (-126) (a + b) + c → 1 / 4 ≤ v := by
    intro h0
    have h1 : 0 ≤ roundTo 24 (-126) (roundTo 24 (-126) (a + b) + c) := round32_nonneg _ h0
    have h2 : 1 ≤ roundTo 24 (-126) (roundTo 24 (-126) (roundTo 24 (-126) (a + b) + c) + 1) :=
      round32_ge _ 1 0 (by norm_num) (by norm_num) (by linarith)
    rw [← hvdef]
    exact round32_ge _ (1 / 4) (-2) (by norm_num) (by norm_num) (by linarith)
  -- clamping and the square root
  rw [Fl.clamp_fin]
  have hv0 : 0 ≤ max v 0 := le_max_right _ _
  have hv1 : max v 0 ≤ 2 ^ 101 := max_le hv'.2 (by positivity)
  rw [floatSqrt_fin _ hv0]
  have hsq0 : 0 ≤ Real.sqrt (max v 0) := Real.sqrt_nonneg _
  have hsq1 : Real.sqrt (max v 0) ≤ 2 ^ 51 := by
    rw [Real.sqrt_le_left (by positivity)]
    have h1 : ((2 : ℝ) ^ 51) ^ 2 = 2 ^ 102 := by norm_num
    have h2 : (2 : ℝ) ^ 101 ≤ 2 ^ 102 := by norm_num
    rw [h1]
    linarith
  obtain ⟨ey, hy⟩ := round32_step (Real.sqrt (max v 0)) (2 ^ 51) 51 (by norm_num)
    (by norm_num) (by norm_num) (abs_le.2 ⟨by linarith, hsq1⟩)
  refine ⟨_, ey, round32_nonneg _ hsq0, (abs_le.1 hy).2, ?_⟩
  intro h0
  have hv4 : 1 / 4 ≤ max v 0 := (hbig h0).trans (le_max_left _ _)
  have hsq2 : 1 / 2 ≤ Real.sqrt (max v 0) := by
    rw [Real.le_sqrt' (by norm_num)]
    calc ((1 : ℝ) / 2) ^ 2 = 1 / 4 := by norm_num
      _ ≤ max v 0 := hv4
  exact round32_ge _ (1 / 2) (-1) (by norm_num) (by norm_num) hsq2

/-- The four candidates on a matrix whose diagonal entries have magnitude at most `2^100`:
finite numbers in `[0, 2^51]`, one of them at least `1/2`. -/
theorem quaternionCandidates_bounds (rot : Mat3 ℝ) (h11 : |rot.r11| ≤ 2 ^ 100)
    (h22 : |rot.r22| ≤ 2 ^ 100) (h33 : |rot.r33| ≤ 2 ^ 100) :
    ∃ y0 y1 y2 y3 : ℝ,
      quaternionCandidates (floatSqrt (Fl.sqrt Format.exact Real.sqrt))
          (rot.toDouble.map Narrowing.narrow) = (Fl.fin y0, Fl.fin y1, Fl.fin y2, Fl.fin y3) ∧
      (0 ≤ y0 ∧ y0 ≤ 2 ^ 51) ∧ (0 ≤ y1 ∧ y1 ≤ 2 ^ 51) ∧ (0 ≤ y2 ∧ y2 ≤ 2 ^ 51) ∧
      (0 ≤ y3 ∧ y3 ≤ 2 ^ 51) ∧ (1 / 2 ≤ y0 ∨ 1 / 2 ≤ y1 ∨ 1 / 2 ≤ y2 ∨ 1 / 2 ≤ y3) := by
  obtain ⟨e11, ha⟩ := round32_step rot.r11 (2 ^ 100) 100 (by norm_num) (by norm_num)
    (by norm_num) h11
  obtain ⟨e22, hb⟩ := round32_step rot.r22 (2 ^ 100) 100 (by norm_num) (by norm_num)
    (by norm_num) h22
  obtain ⟨e33, hc⟩ := round32_step rot.r33 (2 ^ 100) 100 (by norm_num) (by norm_num)
    (by norm_num) h33
  generalize roundTo 24 (-126) rot.r11 = a at e11 ha
  generalize roundTo 24 (-126) rot.r22 = b at e22 hb
  generalize roundTo 24 (-126) rot.r33 = c at e33 hc
  have hna : |-a| ≤ 2 ^ 100 := by rwa [abs_neg]
  have hnb : |-b| ≤ 2 ^ 100 := by rwa [abs_neg]
  have hnc : |-c| ≤ 2 ^ 100 := by rwa [abs_neg]
  obtain ⟨y0, e0, l0, u0, b0⟩ := candidate_bounds a b c ha hb hc
  obtain ⟨y1, e1, l1, u1, b1⟩ := candidate_bounds a (-b) (-c) ha hnb hnc
  obtain ⟨y2, e2, l2, u2, b2⟩ := candidate_bounds (-a) b (-c) hna hb hnc
  obtain ⟨y3, e3, l3, u3, b3⟩ := candidate_bounds (-a) (-b) c hna hnb hc
  refine ⟨y0, y1, y2, y3, ?_, ⟨l0, u0⟩, ⟨l1, u1⟩, ⟨l2, u2⟩, ⟨l3, u3⟩, ?_⟩
  · simp only [quaternionCandidates, Mat3.toDouble, Mat3.map, Fl.narrow_fin, e11, e22, e33,
      Fl.sub_eq, Fl.neg_fin, e0, e1, e2, e3]
  · rcases le_total 0 c with hc0 | hc0
    · rcases le_total 0 (a + b) with hs | hs
      · exact Or.inl (b0 (add_nonneg (round32_nonneg _ hs) hc0))
      · exact Or.inr (Or.inr (Or.inr (b3
          (add_nonneg (round32_nonneg _ (by linarith)) hc0))))
    · rcases le_total 0 (a + -b) with hs | hs
      · exact Or.inr (Or.inl (b1 (add_nonneg (round32_nonneg _ hs) (by linarith))))
      · exact Or.inr (Or.inr (Or.inl (b2
          (add_nonneg (round32_nonneg _ (by linarith)) (by linarith)))))

theorem SIGN_binary32_cases (x : Fl (Format.binary32 : Format ℝ)) :
    SIGN x = Fl.fin 1 ∨ SIGN x = Fl.fin (-1) := by
  unfold SIGN
  split_ifs
  · exact Or.inl Fl.one_binary32
  · right
    rw [Fl.one_binary32, Fl.neg_fin]

/-- A candidate times a sign: a finite number of the same magnitude bounds. -/
theorem mul_sign_bounds (y : ℝ) (hy0 : 0 ≤ y) (hy1 : y ≤ 2 ^ 51)
    (σ : Fl (Format.binary32 : Format ℝ)) (hσ : σ = Fl.fin 1 ∨ σ = Fl.fin (-1)) :
    ∃ z : ℝ, Fl.fin y * σ = Fl.fin z ∧ |z| ≤ 2 ^ 51 ∧ (1 / 2 ≤ y → 1 / 2 ≤ |z|) := by
  rcases hσ with rfl | rfl
  · obtain ⟨e, h⟩ := round32_step (y * 1) (2 ^ 51) 51 (by norm_num) (by norm_num)
      (by norm_num) (by rw [mul_one]; exact abs_le.2 ⟨by linarith, hy1⟩)
    refine ⟨_, by rw [Fl.fin_mul_fin, e], h, ?_⟩
    intro hbig
    have := round32_ge (y * 1) (1 / 2) (-1) (by norm_num) (by norm_num) (by linarith)
    exact this.trans (le_abs_self _)
  · obtain ⟨e, h⟩ := round32_step (y * -1) (2 ^ 51) 51 (by norm_num) (by norm_num)
      (by norm_num) (by rw [mul_neg_one, abs_neg]; exact abs_le.2 ⟨by linarith, hy1⟩)
    refine ⟨_, by rw [Fl.fin_mul_fin, e], h, ?_⟩
    intro hbig
    have := round32_le_neg (y * -1) (1 / 2) (-1) (by norm_num) (by norm_num) (by linarith)
    rw [abs_of_nonpos (by linarith)]
    linarith

/-- The signed quaternion of lines 375-394 from candidates in `[0, 2^51]`, one of them at
least `1/2`: a branch is taken, the components are finite of magnitude at most `2^51`, and
one of them has magnitude at least `1/2`. -/
theorem signedQuaternion_bounds (r : Mat3 (Fl (Format.binary32 : Format ℝ)))
    (y0 y1 y2 y3 : ℝ)
    (hc : quaternionCandidates (floatSqrt (Fl.sqrt Format.exact Real.sqrt)) r
      = (Fl.fin y0, Fl.fin y1, Fl.fin y2, Fl.fin y3))
    (h0 : 0 ≤ y0 ∧ y0 ≤ 2 ^ 51) (h1 : 0 ≤ y1 ∧ y1 ≤ 2 ^ 51) (h2 : 0 ≤ y2 ∧ y2 ≤ 2 ^ 51)
    (h3 : 0 ≤ y3 ∧ y3 ≤ 2 ^ 51)
    (hbig : 1 / 2 ≤ y0 ∨ 1 / 2 ≤ y1 ∨ 1 / 2 ≤ y2 ∨ 1 / 2 ≤ y3) :
    ∃ w x y z : ℝ,
      signedQuaternion (floatSqrt (Fl.sqrt Format.exact Real.sqrt)) r
        = some ⟨Fl.fin w, Fl.fin x, Fl.fin y, Fl.fin z⟩ ∧
      |w| ≤ 2 ^ 51 ∧ |x| ≤ 2 ^ 51 ∧ |y| ≤ 2 ^ 51 ∧ |z| ≤ 2 ^ 51 ∧
      (1 / 2 ≤ |w| ∨ 1 / 2 ≤ |x| ∨ 1 / 2 ≤ |y| ∨ 1 / 2 ≤ |z|) := by
  simp only [signedQuaternion, hc, Fl.ge_iff, Fl.le, decide_eq_true_eq]
  by_cases c0 : y1 ≤ y0 ∧ y2 ≤ y0 ∧ y3 ≤ y0
  · rw [if_pos c0]
    obtain ⟨w, ew, bw, lw⟩ := mul_sign_bounds y0 h0.1 h0.2 1 (Or.inl Fl.one_binary32)
    obtain ⟨x, ex, bx, _⟩ := mul_sign_bounds y1 h1.1 h1.2 _ (SIGN_binary32_cases (r.r32 - r.r23))
    obtain ⟨y, ey, by', _⟩ := mul_sign_bounds y2 h2.1 h2.2 _
      (SIGN_binary32_cases (r.r13 - r.r31))
    obtain ⟨z, ez, bz, _⟩ := mul_sign_bounds y3 h3.1 h3.2 _ (SIGN_binary32_cases (r.r21 - r.r12))
    refine ⟨w, x, y, z, by rw [ew, ex, ey, ez], bw, bx, by', bz, Or.inl (lw ?_)⟩
    rcases hbig with h | h | h | h <;> linarith [c0.1, c0.2.1, c0.2.2]
  · rw [if_neg c0]
    by_cases c1 : y0 ≤ y1 ∧ y2 ≤ y1 ∧ y3 ≤ y1
    · rw [if_pos c1]
      obtain ⟨w, ew, bw, _⟩ := mul_sign_bounds y0 h0.1 h0.2 _
        (SIGN_binary32_cases (r.r32 - r.r23))
      obtain ⟨x, ex, bx, lx⟩ := mul_sign_bounds y1 h1.1 h1.2 1 (Or.inl Fl.one_binary32)
      obtain ⟨y, ey, by', _⟩ := mul_sign_bounds y2 h2.1 h2.2 _
        (SIGN_binary32_cases (r.r21 + r.r12))
      obtain ⟨z, ez, bz, _⟩ := mul_sign_bounds y3 h3.1 h3.2 _
        (SIGN_binary32_cases (r.r13 + r.r31))
      refine ⟨w, x, y, z, by rw [ew, ex, ey, ez], bw, bx, by', bz, Or.inr (Or.inl (lx ?_))⟩
      rcases hbig with h | h | h | h <;> linarith [c1.1, c1.2.1, c1.2.2]
    · rw [if_neg c1]
      by_cases c2 : y0 ≤ y2 ∧ y1 ≤ y2 ∧ y3 ≤ y2
      · rw [if_pos c2]
        obtain ⟨w, ew, bw, _⟩ := mul_sign_bounds y0 h0.1 h0.2 _
          (SIGN_binary32_cases (r.r13 - r.r31))
        obtain ⟨x, ex, bx, _⟩ := mul_sign_bounds y1 h1.1 h1.2 _
          (SIGN_binary32_cases (r.r21 + r.r12))
        obtain ⟨y, ey, by', ly⟩ := mul_sign_bounds y2 h2.1 h2.2 1 (Or.inl Fl.one_binary32)
        obtain ⟨z, ez, bz, _⟩ := mul_sign_bounds y3 h3.1 h3.2 _
          (SIGN_binary32_cases (r.r32 + r.r23))
        refine ⟨w, x, y, z, by rw [ew, ex, ey, ez], bw, bx, by', bz,
          Or.inr (Or.inr (Or.inl (ly ?_)))⟩
        rcases hbig with h | h | h | h <;> linarith [c2.1, c2.2.1, c2.2.2]
      · rw [if_neg c2]
        by_cases c3 : y0 ≤ y3 ∧ y1 ≤ y3 ∧ y2 ≤ y3
        · rw [if_pos c3]
          obtain ⟨w, ew, bw, _⟩ := mul_sign_bounds y0 h0.1 h0.2 _
            (SIGN_binary32_cases (r.r21 - r.r12))
          obtain ⟨x, ex, bx, _⟩ := mul_sign_bounds y1 h1.1 h1.2 _
            (SIGN_binary32_cases (r.r31 + r.r13))
          obtain ⟨y, ey, by', _⟩ := mul_sign_bounds y2 h2.1 h2.2 _
            (SIGN_binary32_cases (r.r32 + r.r23))
          obtain ⟨z, ez, bz, lz⟩ := mul_sign_bounds y3 h3.1 h3.2 1 (Or.inl Fl.one_binary32)
          refine ⟨w, x, y, z, by rw [ew, ex, ey, ez], bw, bx, by', bz,
            Or.inr (Or.inr (Or.inr (lz ?_)))⟩
          rcases hbig with h | h | h | h <;> linarith [c3.1, c3.2.1, c3.2.2]
        · exfalso
          rcases one_of_four_is_largest y0 y1 y2 y3 with h | h | h | h
          · exact c0 h
          · exact c1 h
          · exact c2 h
          · exact c3 h

/-- A square of line 400: a finite number in `[0, 2^102]`, at least `1/4` when the component
has magnitude at least `1/2`. -/
theorem square_bounds (w : ℝ) (hw : |w| ≤ 2 ^ 51) :
    ∃ A : ℝ, (Fl.fin w : Fl (Format.binary32 : Format ℝ)) * Fl.fin w = Fl.fin A ∧ 0 ≤ A ∧
      A ≤ 2 ^ 102 ∧ (1 / 2 ≤ |w| → 1 / 4 ≤ A) := by
  have hsq : w * w = |w| * |w| := (abs_mul_abs_self w).symm
  have h0 : 0 ≤ w * w := mul_self_nonneg w
  have h1 : w * w ≤ 2 ^ 102 := by
    rw [hsq]
    have : (2 : ℝ) ^ 102 = 2 ^ 51 * 2 ^ 51 := by norm_num
    rw [this]
    exact mul_le_mul hw hw (abs_nonneg w) (by positivity)
  obtain ⟨e, h⟩ := round32_step (w * w) (2 ^ 102) 102 (by norm_num) (by norm_num)
    (by norm_num) (abs_le.2 ⟨by linarith, h1⟩)
  refine ⟨_, by rw [Fl.fin_mul_fin, e], round32_nonneg _ h0, (abs_le.1 h).2, ?_⟩
  intro hbig
  apply round32_ge _ (1 / 4) (-2) (by norm_num) (by norm_num)
  rw [hsq]
  have : (1 : ℝ) / 4 = 1 / 2 * (1 / 2) := by norm_num
  rw [this]
  exact mul_le_mul hbig hbig (by norm_num) (abs_nonneg w)

/-- A quotient of lines 401-404: finite when the divisor is at least `1/2`. -/
theorem quotient_finite (w r : ℝ) (hw : |w| ≤ 2 ^ 51) (hr : 1 / 2 ≤ r) :
    ∃ q : ℝ, (Fl.fin w : Fl (Format.binary32 : Format ℝ)) / Fl.fin r = Fl.fin q := by
  have hr0 : 0 < r := by linarith
  have hq : |w / r| ≤ 2 ^ 52 := by
    rw [abs_div, abs_of_pos hr0, div_le_iff₀ hr0]
    have : (2 : ℝ) ^ 52 * r ≥ 2 ^ 52 * (1 / 2) := by
      apply mul_le_mul_of_nonneg_left hr (by positivity)
    have h2 : (2 : ℝ) ^ 52 * (1 / 2) = 2 ^ 51 := by norm_num
    linarith
  obtain ⟨e, _⟩ := round32_step (w / r) (2 ^ 52) 52 (by norm_num) (by norm_num)
    (by norm_num) hq
  exact ⟨_, by rw [Fl.fin_div_fin _ _ hr0.ne', e]⟩

/-- The divisor of lines 400-404 on components of magnitude at most `2^51`, one of them of
magnitude at least `1/2`: a finite number in `[1/2, 2^53]`, and the four quotients are
finite. -/
theorem normalizeQuaternion_bounds (w x y z : ℝ) (hw : |w| ≤ 2 ^ 51) (hx : |x| ≤ 2 ^ 51)
    (hy : |y| ≤ 2 ^ 51) (hz : |z| ≤ 2 ^ 51)
    (hbig : 1 / 2 ≤ |w| ∨ 1 / 2 ≤ |x| ∨ 1 / 2 ≤ |y| ∨ 1 / 2 ≤ |z|) :
    ∃ r : ℝ,
      NORM (floatSqrt (Fl.sqrt Format.exact Real.sqrt))
        (Fl.fin w : Fl (Format.binary32 : Format ℝ)) (Fl.fin x) (Fl.fin y) (Fl.fin z)
        = Fl.fin r ∧ 1 / 2 ≤ r ∧ r ≤ 2 ^ 53 ∧
      ∃ w' x' y' z' : ℝ,
        normalizeQuaternion (floatSqrt (Fl.sqrt Format.exact Real.sqrt))
          (⟨Fl.fin w, Fl.fin x, Fl.fin y, Fl.fin z⟩ :
            Quaternion (Fl (Format.binary32 : Format ℝ)))
          = ⟨Fl.fin w', Fl.fin x', Fl.fin y', Fl.fin z'⟩ := by
  obtain ⟨A, eA, A0, A1, Ab⟩ := square_bounds w hw
  obtain ⟨B, eB, B0, B1, Bb⟩ := square_bounds x hx
  obtain ⟨C, eC, C0, C1, Cb⟩ := square_bounds y hy
  obtain ⟨D, eD, D0, D1, Db⟩ := square_bounds z hz
  have hsome : 1 / 4 ≤ A ∨ 1 / 4 ≤ B ∨ 1 / 4 ≤ C ∨ 1 / 4 ≤ D := by
    rcases hbig with h | h | h | h
    · exact Or.inl (Ab h)
    · exact Or.inr (Or.inl (Bb h))
    · exact Or.inr (Or.inr (Or.inl (Cb h)))
    · exact Or.inr (Or.inr (Or.inr (Db h)))
  obtain ⟨e1, s1⟩ := round32_step (A + B) (2 ^ 103) 103 (by norm_num) (by norm_num)
    (by norm_num) (abs_le.2 ⟨by linarith, by linarith⟩)
  have s1' := abs_le.1 s1
  have s1n := round32_nonneg (A + B) (by linarith)
  obtain ⟨e2, s2⟩ := round32_step (roundTo 24 (-126) (A + B) + C) (2 ^ 104) 104 (by norm_num)
    (by norm_num) (by norm_num) (abs_le.2 ⟨by linarith, by linarith⟩)
  have s2' := abs_le.1 s2
  have s2n := round32_nonneg (roundTo 24 (-126) (A + B) + C) (by linarith)
  obtain ⟨e3, s3⟩ := round32_step (roundTo 24 (-126) (roundTo 24 (-126) (A + B) + C) + D)
    (2 ^ 105) 105 (by norm_num) (by norm_num) (by norm_num)
    (abs_le.2 ⟨by linarith, by linarith⟩)
  have s3' := abs_le.1 s3
  have s3n := round32_nonneg (roundTo 24 (-126) (roundTo 24 (-126) (A + B) + C) + D)
    (by linarith)
  have s3big :
      1 / 4 ≤ roundTo 24 (-126) (roundTo 24 (-126) (roundTo 24 (-126) (A + B) + C) + D) := by
    apply round32_ge _ (1 / 4) (-2) (by norm_num) (by norm_num)
    rcases hsome with h | h | h | h
    · have := round32_ge (A + B) (1 / 4) (-2) (by norm_num) (by norm_num) (by linarith)
      have := round32_ge (roundTo 24 (-126) (A + B) + C) (1 / 4) (-2) (by norm_num)
        (by norm_num) (by linarith)
      linarith
    · have := round32_ge (A + B) (1 / 4) (-2) (by norm_num) (by norm_num) (by linarith)
      have := round32_ge (roundTo 24 (-126) (A + B) + C) (1 / 4) (-2) (by norm_num)
        (by norm_num) (by linarith)
      linarith
    · have := round32_ge (roundTo 24 (-126) (A + B) + C) (1 / 4) (-2) (by norm_num)
        (by norm_num) (by linarith)
      linarith
    · linarith
  have hnorm : NORM (floatSqrt (Fl.sqrt Format.exact Real.sqrt))
      (Fl.fin w : Fl (Format.binary32 : Format ℝ)) (Fl.fin x) (Fl.fin y) (Fl.fin z)
      = Fl.ofExact Format.binary32 (Real.sqrt
        (roundTo 24 (-126) (roundTo 24 (-126) (roundTo 24 (-126) (A + B) + C) + D))) := by
    simp only [NORM, eA, eB, eC, eD, Fl.fin_add_fin, e1, e2, e3]
    exact floatSqrt_fin _ s3n
  generalize roundTo 24 (-126) (roundTo 24 (-126) (roundTo 24 (-126) (A + B) + C) + D) = S
    at hnorm s3' s3n s3big
  have hsq1 : Real.sqrt S ≤ 2 ^ 53 := by
    rw [Real.sqrt_le_left (by positivity)]
    have h1 : ((2 : ℝ) ^ 53) ^ 2 = 2 ^ 106 := by norm_num
    have h2 : (2 : ℝ) ^ 105 ≤ 2 ^ 106 := by norm_num
    rw [h1]
    linarith
  have hsq2 : 1 / 2 ≤ Real.sqrt S := by
    rw [Real.le_sqrt' (by norm_num)]
    calc ((1 : ℝ) / 2) ^ 2 = 1 / 4 := by norm_num
      _ ≤ S := s3big
  obtain ⟨er, hr⟩ := round32_step (Real.sqrt S) (2 ^ 53) 53 (by norm_num) (by norm_num)
    (by norm_num) (abs_le.2 ⟨by linarith, hsq1⟩)
  have hr2 : 1 / 2 ≤ roundTo 24 (-126) (Real.sqrt S) :=
    round32_ge _ (1 / 2) (-1) (by norm_num) (by norm_num) hsq2
  rw [er] at hnorm
  obtain ⟨w', ew⟩ := quotient_finite w _ hw hr2
  obtain ⟨x', ex⟩ := quotient_finite x _ hx hr2
  obtain ⟨y', ey⟩ := quotient_finite y _ hy hr2
  obtain ⟨z', ez⟩ := quotient_finite z _ hz hr2
  refine ⟨_, hnorm, hr2, (abs_le.1 hr).2, w', x', y', z', ?_⟩
  simp only [normalizeQuaternion, hnorm, ew, ex, ey, ez]

/-! ## Lemmas on the quarter turn in machine arithmetic -/

/-- The binary32 value of an exact result in the binade `[2^e, 2^(e+1))` with `e ≤ 126`. -/
theorem Fl.ofExact_binary32_eq (x : ℝ) (e n : ℤ) (he : -126 ≤ e) (he2 : e ≤ 126)
    (h1 : (2 : ℝ) ^ e ≤ |x|) (h2 : |x| < (2 : ℝ) ^ (e + 1))
    (h3 : (n : ℝ) - 1 / 2 < x / (2 : ℝ) ^ (e - 23)) (h4 : x / (2 : ℝ) ^ (e - 23) < n + 1 / 2) :
    Fl.ofExact (Format.binary32 : Format ℝ) x = Fl.fin (n * (2 : ℝ) ^ (e - 23)) := by
  rw [Fl.ofExact_binary32_of_abs_le x (h2.le.trans
    (zpow_le_zpow_right₀ (by norm_num) (by omega))), round32_eq x e n he h1 h2 h3 h4]

/-- The binary32 value of a square root. -/
theorem Fl.ofExact_binary32_sqrt (S : ℝ) (e n : ℤ) (he : -126 ≤ e) (he2 : e ≤ 126)
    (h1 : ((2 : ℝ) ^ e) ^ 2 ≤ S) (h2 : S < ((2 : ℝ) ^ (e + 1)) ^ 2)
    (hn : 0 ≤ (n : ℝ) - 1 / 2)
    (h3 : (((n : ℝ) - 1 / 2) * (2 : ℝ) ^ (e - 23)) ^ 2 < S)
    (h4 : S < (((n : ℝ) + 1 / 2) * (2 : ℝ) ^ (e - 23)) ^ 2) :
    Fl.ofExact (Format.binary32 : Format ℝ) (Real.sqrt S)
      = Fl.fin (n * (2 : ℝ) ^ (e - 23)) := by
  have hu : (0 : ℝ) < (2 : ℝ) ^ (e - 23) := zpow_pos (by norm_num) _
  have habs : |Real.sqrt S| = Real.sqrt S := abs_of_nonneg (Real.sqrt_nonneg S)
  apply Fl.ofExact_binary32_eq _ e n he he2
  · rw [habs, Real.le_sqrt' (zpow_pos (by norm_num) e)]
    exact h1
  · rw [habs, Real.sqrt_lt' (zpow_pos (by norm_num) _)]
    exact h2
  · rw [lt_div_iff₀ hu, Real.lt_sqrt (mul_nonneg hn hu.le)]
    exact h3
  · rw [div_lt_iff₀ hu, Real.sqrt_lt' (mul_pos (by linarith) hu)]
    exact h4

theorem Fl.ofExact_binary32_half :
    Fl.ofExact (Format.binary32 : Format ℝ) (1 / 2) = Fl.fin (1 / 2) := by
  have := Fl.ofExact_binary32_two_zpow (-1) (by norm_num) (by norm_num)
  norm_num at this ⊢
  exact this

/-- The `float` nearest to `√(1/2)`. -/
theorem Fl.ofExact_binary32_sqrt_half :
    Fl.ofExact (Format.binary32 : Format ℝ) (Real.sqrt (1 / 2))
      = Fl.fin (11863283 / 16777216) := by
  rw [Fl.ofExact_binary32_sqrt (1 / 2) (-1) 11863283 (by norm_num) (by norm_num)
    (by norm_num) (by norm_num) (by norm_num) (by norm_num) (by norm_num)]
  norm_num

/-- The value `11863283 / 2^24` is a `float`. -/
theorem Fl.ofExact_binary32_h :
    Fl.ofExact (Format.binary32 : Format ℝ) (11863283 / 16777216)
      = Fl.fin (11863283 / 16777216) := by
  rw [Fl.ofExact_binary32_eq (11863283 / 16777216) (-1) 11863283 (by norm_num) (by norm_num)
    (by norm_num [abs_of_pos]) (by norm_num [abs_of_pos]) (by norm_num) (by norm_num)]
  norm_num

/-- The `float` nearest to the square of `11863283 / 2^24`. -/
theorem Fl.ofExact_binary32_h_sq :
    Fl.ofExact (Format.binary32 : Format ℝ) (11863283 / 16777216 * (11863283 / 16777216))
      = Fl.fin (16777215 / 33554432) := by
  rw [Fl.ofExact_binary32_eq _ (-2) 16777215 (by norm_num) (by norm_num)
    (by norm_num [abs_of_pos]) (by norm_num [abs_of_pos]) (by norm_num) (by norm_num)]
  norm_num

/-- The sum of the two squares is a `float`, `1 - 2⁻²⁴`. -/
theorem Fl.ofExact_binary32_sum :
    Fl.ofExact (Format.binary32 : Format ℝ) (16777215 / 33554432 + 16777215 / 33554432)
      = Fl.fin (16777215 / 16777216) := by
  rw [Fl.ofExact_binary32_eq _ (-1) 16777215 (by norm_num) (by norm_num)
    (by norm_num [abs_of_pos]) (by norm_num [abs_of_pos]) (by norm_num) (by norm_num)]
  norm_num

theorem Fl.ofExact_binary32_S :
    Fl.ofExact (Format.binary32 : Format ℝ) (16777215 / 16777216)
      = Fl.fin (16777215 / 16777216) := by
  rw [Fl.ofExact_binary32_eq _ (-1) 16777215 (by norm_num) (by norm_num)
    (by norm_num [abs_of_pos]) (by norm_num [abs_of_pos]) (by norm_num) (by norm_num)]
  norm_num

/-- The `float` nearest to `√(1 - 2⁻²⁴)`. -/
theorem Fl.ofExact_binary32_sqrt_S :
    Fl.ofExact (Format.binary32 : Format ℝ) (Real.sqrt (16777215 / 16777216))
      = Fl.fin (16777215 / 16777216) := by
  rw [Fl.ofExact_binary32_sqrt _ (-1) 16777215 (by norm_num) (by norm_num)
    (by norm_num) (by norm_num) (by norm_num) (by norm_num) (by norm_num)]
  norm_num

/-- The `float` nearest to the quotient of lines 401-402. -/
theorem Fl.ofExact_binary32_quotient :
    Fl.ofExact (Format.binary32 : Format ℝ) (11863283 / 16777216 / (16777215 / 16777216))
      = Fl.fin (11863284 / 16777216) := by
  rw [Fl.ofExact_binary32_eq _ (-1) 11863284 (by norm_num) (by norm_num)
    (by norm_num [abs_of_pos]) (by norm_num [abs_of_pos]) (by norm_num) (by norm_num)]
  norm_num

theorem narrow_quarterTurnX :
    (Mat3.quarterTurnX 1).toDouble.map Narrowing.narrow
      = (⟨Fl.fin 1, Fl.fin 0, Fl.fin 0, Fl.fin 0, Fl.fin 0, Fl.fin (-1), Fl.fin 0, Fl.fin 1,
          Fl.fin 0⟩ : Mat3 (Fl (Format.binary32 : Format ℝ))) := by
  simp only [Mat3.quarterTurnX, Mat3.toDouble, Mat3.map, Fl.narrow_fin,
    Fl.ofExact_binary32_zero, Fl.ofExact_binary32_one, Fl.ofExact_binary32_neg_one]

theorem candidates_quarterTurnX :
    quaternionCandidates (floatSqrt (Fl.sqrt Format.exact Real.sqrt))
        ((Mat3.quarterTurnX 1).toDouble.map Narrowing.narrow)
      = (Fl.fin (11863283 / 16777216), Fl.fin (11863283 / 16777216), Fl.fin 0, Fl.fin 0) := by
  rw [narrow_quarterTurnX]
  have h2 : Fl.ofExact (Format.binary32 : Format ℝ) (1 + 1) = Fl.fin 2 := by
    rw [one_add_one_eq_two]
    exact Fl.ofExact_binary32_two
  have h24 : Fl.ofExact (Format.binary32 : Format ℝ) (2 / 4) = Fl.fin (1 / 2) := by
    rw [show (2 : ℝ) / 4 = 1 / 2 by norm_num]
    exact Fl.ofExact_binary32_half
  have h04 : Fl.ofExact (Format.binary32 : Format ℝ) (0 / 4) = Fl.fin 0 := by
    rw [zero_div]
    exact Fl.ofExact_binary32_zero
  simp only [quaternionCandidates, Fl.one_binary32, Fl.four_binary32, Fl.sub_eq, Fl.neg_fin,
    Fl.fin_add_fin, neg_zero, add_zero, Fl.ofExact_binary32_one, h2, neg_add_cancel,
    Fl.ofExact_binary32_neg_one, Fl.ofExact_binary32_zero,
    Fl.fin_div_fin _ _ (by norm_num : (4 : ℝ) ≠ 0), h24, h04, Fl.clamp_fin]
  have hm1 : max (1 / 2 : ℝ) 0 = 1 / 2 := max_eq_left (by norm_num)
  have hm0 : max (0 : ℝ) 0 = 0 := max_self 0
  rw [hm1, hm0, floatSqrt_fin _ (by norm_num), floatSqrt_fin _ le_rfl, Real.sqrt_zero,
    Fl.ofExact_binary32_zero, Fl.ofExact_binary32_sqrt_half]

theorem signedQuaternion_quarterTurnX :
    signedQuaternion (floatSqrt (Fl.sqrt Format.exact Real.sqrt))
        ((Mat3.quarterTurnX 1).toDouble.map Narrowing.narrow)
      = some ⟨Fl.fin (11863283 / 16777216), Fl.fin (11863283 / 16777216), Fl.fin 0,
          Fl.fin 0⟩ := by
  simp only [signedQuaternion, candidates_quarterTurnX]
  rw [narrow_quarterTurnX]
  have h2 : Fl.ofExact (Format.binary32 : Format ℝ) (1 + 1) = Fl.fin 2 := by
    rw [one_add_one_eq_two]
    exact Fl.ofExact_binary32_two
  have hs2 : SIGN (Fl.fin 2 : Fl (Format.binary32 : Format ℝ)) = Fl.fin 1 := by
    simp [SIGN, Fl.ge_iff, Fl.le, Fl.zero_binary32, Fl.one_binary32]
  have hs0 : SIGN (Fl.fin 0 : Fl (Format.binary32 : Format ℝ)) = Fl.fin 1 := by
    simp [SIGN, Fl.ge_iff, Fl.le, Fl.zero_binary32, Fl.one_binary32]
  simp only [Fl.sub_eq, Fl.neg_fin, Fl.fin_add_fin, neg_neg, neg_zero, add_zero, h2,
    Fl.ofExact_binary32_zero, hs2, hs0, Fl.one_binary32, Fl.fin_mul_fin, mul_one,
    Fl.ofExact_binary32_h, Fl.ge_iff, Fl.le, le_refl, decide_True, true_and]
  norm_num

theorem NORM_quarterTurnX :
    NORM (floatSqrt (Fl.sqrt Format.exact Real.sqrt))
        (Fl.fin (11863283 / 16777216) : Fl (Format.binary32 : Format ℝ))
        (Fl.fin (11863283 / 16777216)) (Fl.fin 0) (Fl.fin 0)
      = Fl.fin (16777215 / 16777216) := by
  simp only [NORM, Fl.fin_mul_fin, Fl.ofExact_binary32_h_sq, mul_zero,
    Fl.ofExact_binary32_zero, Fl.fin_add_fin, Fl.ofExact_binary32_sum, add_zero,
    Fl.ofExact_binary32_S]
  rw [floatSqrt_fin _ (by norm_num), Fl.ofExact_binary32_sqrt_S]

/-- The quaternion that the code computes for the quarter turn about the x axis: the two
non-zero components are `11863284 / 2^24`, the `float` above `√(1/2)`. -/
theorem rotationToQuaternion_quarterTurnX :
    rotationToQuaternion (Fl.sqrt Format.exact Real.sqrt) (Mat3.quarterTurnX 1).toDouble
      = some ⟨Fl.fin (11863284 / 16777216), Fl.fin (11863284 / 16777216), Fl.fin 0,
          Fl.fin 0⟩ := by
  have h0 : Fl.ofExact (Format.binary32 : Format ℝ) (0 / (16777215 / 16777216)) = Fl.fin 0 := by
    rw [zero_div]
    exact Fl.ofExact_binary32_zero
  simp only [rotationToQuaternion, signedQuaternion_quarterTurnX, Option.map_some',
    normalizeQuaternion, NORM_quarterTurnX,
    Fl.fin_div_fin _ _ (by norm_num : (16777215 / 16777216 : ℝ) ≠ 0),
    Fl.ofExact_binary32_quotient, h0, Quaternion.map, Fl.widen_fin]

/-! ## Lemmas on `poseDistance` in machine arithmetic -/

theorem rotationBlock_poseToDouble (P : Matrix (Fin 4) (Fin 4) ℝ) :
    rotationBlock (poseToDouble P) = (rotationBlock P).toDouble := rfl

theorem Fl.two_exact : (2 : Fl (Format.exact : Format ℝ)) = Fl.fin 2 := by
  show Fl.ofExact Format.exact (((2 : ℕ) : ℝ)) = Fl.fin 2
  rw [Nat.cast_ofNat]
  rfl

theorem Fl.scale_exact :
    (180 : Fl (Format.exact : Format ℝ)) / 3.14159 = Fl.fin (180 / 3.14159) := by
  have h1 : (180 : Fl (Format.exact : Format ℝ)) = Fl.fin 180 := by
    show Fl.ofExact Format.exact (((180 : ℕ) : ℝ)) = Fl.fin 180
    rw [Nat.cast_ofNat]
    rfl
  have h2 : (3.14159 : Fl (Format.exact : Format ℝ)) = Fl.fin 3.14159 := rfl
  rw [h1, h2, Fl.fin_div_fin _ _ (by norm_num)]
  rfl

/-- The angle of line 333 is NaN or lies between `0` and `180 * (π / 3.14159)`, whatever the
value of the dot product. -/
theorem angle_cases (v : Fl (Format.exact : Format ℝ)) :
    2 * Fl.acos Format.exact Real.arccos (fabs v) * (180 / 3.14159) = Fl.nan ∨
      ∃ a : ℝ, 2 * Fl.acos Format.exact Real.arccos (fabs v) * (180 / 3.14159) = Fl.fin a ∧
        0 ≤ a ∧ a ≤ 180 * (Real.pi / 3.14159) := by
  rw [Fl.two_exact, Fl.scale_exact]
  cases v with
  | nan => exact Or.inl rfl
  | ninf => exact Or.inl rfl
  | pinf => exact Or.inl rfl
  | fin x =>
    have hzero : (0 : Fl (Format.exact : Format ℝ)) = Fl.fin 0 := rfl
    have hfabs : fabs (Fl.fin x : Fl (Format.exact : Format ℝ)) = Fl.fin |x| := by
      unfold fabs
      by_cases hx : x < 0
      · simp [Fl.lt_iff, Fl.lt, hzero, hx, Fl.neg_fin, abs_of_neg hx]
      · simp [Fl.lt_iff, Fl.lt, hzero, hx, abs_of_nonneg (not_lt.1 hx)]
    rw [hfabs]
    by_cases hdom : |x| < -1 ∨ 1 < |x|
    · left
      simp only [Fl.acos, hdom, if_true]
      rfl
    · right
      simp only [Fl.acos, hdom, if_false, Fl.ofExact_exact, Fl.fin_mul_fin]
      refine ⟨_, rfl, ?_, ?_⟩
      · have := Real.arccos_nonneg |x|
        positivity
      · have hacos1 : Real.arccos |x| ≤ Real.pi / 2 :=
          Real.arccos_le_pi_div_two.2 (abs_nonneg _)
        have hscale : (0 : ℝ) ≤ 180 / 3.14159 := by norm_num
        calc 2 * Real.arccos |x| * (180 / 3.14159)
            ≤ 2 * (Real.pi / 2) * (180 / 3.14159) := by
              apply mul_le_mul_of_nonneg_right _ hscale
              linarith
          _ = 180 * (Real.pi / 3.14159) := by ring

theorem abs_le_one_of_sq_sum (a b c : ℝ) (h : a * a + b * b + c * c = 1) : |a| ≤ 1 := by
  rw [abs_le]
  constructor <;> nlinarith [mul_self_nonneg b, mul_self_nonneg c]

/-- The diagonal entries of a rotation have magnitude at most 1. -/
theorem rotation_diagonal_le_one (rot : Mat3 ℝ) (h : IsRotation rot) :
    |rot.r11| ≤ 1 ∧ |rot.r22| ≤ 1 ∧ |rot.r33| ≤ 1 := by
  obtain ⟨h1, h2, h3, _⟩ := (isRotation_iff rot).1 h
  refine ⟨abs_le_one_of_sq_sum _ _ _ h1, abs_le_one_of_sq_sum rot.r22 rot.r12 rot.r32 ?_,
    abs_le_one_of_sq_sum rot.r33 rot.r13 rot.r23 ?_⟩
  · linarith
  · linarith

/-- On a matrix of finite doubles whose diagonal entries do not overflow in `float`,
`rotationToQuaternion` returns a quaternion. -/
theorem rotationToQuaternion_binary32_isSome (rot : Mat3 ℝ) (h11 : |rot.r11| ≤ 2 ^ 127)
    (h22 : |rot.r22| ≤ 2 ^ 127) (h33 : |rot.r33| ≤ 2 ^ 127) :
    ∃ q, rotationToQuaternion (Fl.sqrt Format.exact Real.sqrt) rot.toDouble = some q := by
  obtain ⟨s, hs⟩ := Option.isSome_iff_exists.1 (signedQuaternion_binary32_isSome rot h11 h22 h33)
  exact ⟨_, by rw [rotationToQuaternion, hs, Option.map_some']⟩

/-- The value of `poseDistance` in machine arithmetic from the two quaternions. -/
theorem poseDistance_of_quaternions (A B : Matrix (Fin 4) (Fin 4) (Fl (Format.exact : Format ℝ)))
    (q1 q2 : Quaternion (Fl (Format.exact : Format ℝ)))
    (h1 : rotationToQuaternion (Fl.sqrt Format.exact Real.sqrt) (rotationBlock A) = some q1)
    (h2 : rotationToQuaternion (Fl.sqrt Format.exact Real.sqrt) (rotationBlock B) = some q2) :
    poseDistance (Fl.sqrt Format.exact Real.sqrt) (Fl.acos Format.exact Real.arccos) A B
      = some (2 * Fl.acos Format.exact Real.arccos (fabs (q1.dot q2)) * (180 / 3.14159),
          Fl.sqrt Format.exact Real.sqrt
            (0 + (A 0 3 - B 0 3) * (A 0 3 - B 0 3) + (A 1 3 - B 1 3) * (A 1 3 - B 1 3)
              + (A 2 3 - B 2 3) * (A 2 3 - B 2 3))) := by
  simp only [poseDistance, h1, h2]

/-! ## Claims -/

/-- C1: started on a pool of `K ≥ 1` hypotheses, whatever the random draws, the projector, the
solver and the (contract-respecting) sort do, the `while` loop of `preemptiveRANSAC` exits,
given fuel for `⌈log₂ K⌉` rounds, with a pool of exactly one hypothesis after at most
`⌈log₂ K⌉` rounds. -/
theorem tournament_terminates_with_one {M : Type} (env : Extern M)
    (hsort : StdSortContract env.sort)
    (img_pts : List Point2d) (wld_pts : List Point3d) (camera_matrix dist_coeff : M)
    (reproj_threshold : ℚ) (N : Nat) (losses : List (HypotheseLoss M)) (g : Rand) (fuel : Nat)
    (hK : 1 ≤ losses.length) (hfuel : Nat.clog 2 losses.length ≤ fuel) :
    ∃ final rounds g', tournament env img_pts wld_pts camera_matrix dist_coeff reproj_threshold N
        fuel losses g = some (final, rounds, g') ∧ final.length = 1 ∧
        rounds ≤ Nat.clog 2 losses.length := by
  have hle : Nat.log 2 losses.length ≤ Nat.clog 2 losses.length := Nat.log_le_clog 2 _
  obtain ⟨final, g', hrun, hfin⟩ := tournament_rounds env hsort img_pts wld_pts camera_matrix
    dist_coeff reproj_threshold N losses.length losses g fuel rfl hK (le_trans hle hfuel)
  exact ⟨final, Nat.log 2 losses.length, g', hrun, hfin, hle⟩

theorem tournament_terminates_with_one_witness :
    StdSortContract (labEnv (fun _ => true)).sort ∧ 1 ≤ (seededPool 5).length ∧
      Nat.clog 2 (seededPool 5).length ≤ 3 ∧
      ∃ final rounds g', tournament (labEnv (fun _ => true)) imgPts wldPts 0 0 8 501
          3 (seededPool 5) (countFrom 0) = some (final, rounds, g') ∧ final.length = 1 ∧
          rounds ≤ Nat.clog 2 (seededPool 5).length :=
  ⟨insertionSort_contract, by simp [seededPool],
    (Nat.le_pow_iff_clog_le (by decide)).1 (by simp [seededPool]),
    tournament_terminates_with_one (labEnv (fun _ => true)) insertionSort_contract imgPts wldPts
      0 0 8 501 (seededPool 5) (countFrom 0) 3 (by simp [seededPool])
      ((Nat.le_pow_iff_clog_le (by decide)).1 (by simp [seededPool]))⟩

/-- C2, as stated, fails: with a solver that never succeeds the seeding leaves the pool empty,
and the run ends in the failed assertion of line 255; it does not return `false`. -/
theorem empty_pool_does_not_return_false :
    (∃ g', initLoop (labEnv (fun _ => false)) imgPts wldPts 0 0 imgPts.length 1 num_iteration
        (countFrom 0) [] = some ([], g')) ∧
      preemptiveRANSAC (labEnv (fun _ => false)) 1 imgPts wldPts 0 0 ⟨8⟩ (countFrom 0)
        = Outcome.assertFailed 255 ∧
      ∀ rvec tvec, preemptiveRANSAC (labEnv (fun _ => false)) 1 imgPts wldPts 0 0 ⟨8⟩
        (countFrom 0) ≠ Outcome.returned false rvec tvec := by
  have hseed : initLoop (labEnv (fun _ => false)) imgPts wldPts 0 0 imgPts.length 1
      num_iteration (countFrom 0) [] = some ([], countFrom (0 + 4 * num_iteration)) := by
    rw [imgPts_length]
    exact initLoop_all_fail imgPts wldPts 0 0 0 num_iteration 0
  have hrun := preemptiveRANSAC_of_empty_seed (labEnv (fun _ => false)) 1 imgPts wldPts 0 0
    ⟨8⟩ (countFrom 0) _ (imgPts_length.trans wldPts_length.symm)
    (by rw [imgPts_length]; decide) hseed
  refine ⟨⟨_, hseed⟩, hrun, ?_⟩
  intro rvec tvec
  rw [hrun]
  exact fun h => Outcome.noConfusion h

/-- C2, amended: when the seeding leaves the pool empty, `preemptiveRANSAC` skips the
tournament and ends in the failed `assert(losses.size() == 1)` of line 255. -/
theorem empty_pool_fails_assertion {M : Type} [Inhabited M] (env : Extern M) (fuel : Nat)
    (img_pts : List Point2d) (wld_pts : List Point3d) (camera_matrix dist_coeff : M)
    (param : PreemptiveRANSACParameter) (g g' : Rand)
    (hsize : img_pts.length = wld_pts.length) (h500 : img_pts.length > 500)
    (hseed : initLoop env img_pts wld_pts camera_matrix dist_coeff img_pts.length fuel
      num_iteration g [] = some ([], g')) :
    tournament env img_pts wld_pts camera_matrix dist_coeff param.reproj_threshold
        img_pts.length fuel [] g' = some ([], 0, g') ∧
      preemptiveRANSAC env fuel img_pts wld_pts camera_matrix dist_coeff param g
        = Outcome.assertFailed 255 := by
  refine ⟨?_, preemptiveRANSAC_of_empty_seed env fuel img_pts wld_pts camera_matrix dist_coeff
    param g g' hsize h500 hseed⟩
  cases fuel <;> simp [tournament]

theorem empty_pool_fails_assertion_witness :
    imgPts.length = wldPts.length ∧ imgPts.length > 500 ∧
      initLoop (labEnv (fun _ => false)) imgPts wldPts 0 0 imgPts.length 1 num_iteration
        (countFrom 0) [] = some ([], countFrom 8192) ∧
      tournament (labEnv (fun _ => false)) imgPts wldPts 0 0
        (PreemptiveRANSACParameter.mk 8).reproj_threshold imgPts.length 1 [] (countFrom 8192)
        = some ([], 0, countFrom 8192) ∧
      preemptiveRANSAC (labEnv (fun _ => false)) 1 imgPts wldPts 0 0 ⟨8⟩ (countFrom 0)
        = Outcome.assertFailed 255 :=
  have hseed : initLoop (labEnv (fun _ => false)) imgPts wldPts 0 0 imgPts.length 1
      num_iteration (countFrom 0) [] = some ([], countFrom 8192) := by
    rw [imgPts_length]
    exact initLoop_all_fail imgPts wldPts 0 0 0 num_iteration 0
  ⟨imgPts_length.trans wldPts_length.symm, by rw [imgPts_length]; decide, hseed,
    empty_pool_fails_assertion (labEnv (fun _ => false)) 1 imgPts wldPts 0 0 ⟨8⟩ (countFrom 0)
      (countFrom 8192) (imgPts_length.trans wldPts_length.symm)
      (by rw [imgPts_length]; decide) hseed⟩

/-- C3 at the failing input: 501 correspondences of which only the last reprojects badly, four
seeded hypotheses, the random stream 0, 1, 2, ...  After the scoring loop of the second round
two hypotheses are left, and each lists block position 0 among its inliers although, in that
round, its reprojection distance at position 0 exceeds the threshold 8: the entry was recorded
in the first round and never removed. -/
theorem second_round_keeps_first_round_inliers :
    staleScored2.length = 2 ∧
      ∀ h ∈ staleScored2, 0 ∈ h.inlier_indices_ ∧
        (labEnv (fun _ => true)).norm
          (((labEnv (fun _ => true)).projectPoints staleBlock2.2.1 h.rvec_ h.tvec_ 0 0).getD 0
            default - staleBlock2.1.getD 0 default) > 8 := by
  refine ⟨?_, ?_⟩
  · simp only [staleScored2, staleRound1, List.length_map,
      round_length (labEnv (fun _ => true)) insertionSort_contract, seededPool,
      List.length_replicate]
  · intro h hmem
    obtain ⟨h1, hh1, rfl⟩ := List.mem_map.1 hmem
    refine ⟨?_, ?_⟩
    · rw [scoreHyp_inliers]
      exact List.mem_append_left _ (staleRound1_inliers h1 hh1)
    · obtain ⟨ri, rw, hi, hw⟩ := sampleBlock_head imgPts wldPts 501 499 staleRound1.2
      rw [staleRound1_stream_head, imgPts_getD] at hi
      rw [staleRound1_stream_head, wldPts_getD_last] at hw
      have hB : B = 499 + 1 := rfl
      simp only [staleBlock2, hB, hi, hw, labEnv_projectPoints, labEnv_norm, flatProject,
        List.map_cons, List.getD_cons_zero, Point2d.sub_def, axisNorm]
      norm_num

/-- C4 at the failing input: with 501 correspondences, a solver that succeeds on every
sample and the random stream 0, 1, 2, ..., the seeding loop leaves `K + 1 = 1025` candidates,
and as many hypotheses enter the tournament. -/
theorem seeding_leaves_1025 :
    ∃ rt_candidate g', initLoop (labEnv (fun _ => true)) imgPts wldPts 0 0 501 1 num_iteration
        (countFrom 0) [] = some (rt_candidate, g') ∧
      (rt_candidate.map HypotheseLoss.ofCandidate).length = 1025 := by
  obtain ⟨out, g', hrun, hlen⟩ := initLoop_all_succeed imgPts wldPts 0 0 0 num_iteration 0 []
    (by simp)
  refine ⟨out, g', hrun, ?_⟩
  rw [List.length_map, hlen]
  decide

/-- C5: the elimination step (`std::sort` by `operator<`, then `resize(size()/2)`) on a pool of
`n` hypotheses keeps exactly `n / 2` of them; the survivors are a sub-multiset of the pool; and
the survivors together with the discarded hypotheses make up the pool, every survivor's loss
being at most every discarded hypothesis's loss. -/
theorem eliminate_keeps_better_half {M : Type} (env : Extern M)
    (hsort : StdSortContract env.sort) (losses : List (HypotheseLoss M)) :
    (eliminate env losses).length = losses.length / 2 ∧
      (eliminate env losses).Subperm losses ∧
      ∃ discarded, (eliminate env losses ++ discarded).Perm losses ∧
        ∀ s ∈ eliminate env losses, ∀ d ∈ discarded, s.loss_ ≤ d.loss_ := by
  obtain ⟨hperm, hsorted⟩ := hsort losses
  refine ⟨eliminate_length env hsort losses, ?_, ?_⟩
  · exact eliminate_subperm env hsort losses
  · refine ⟨(env.sort losses).drop ((env.sort losses).length / 2), ?_, ?_⟩
    · simp only [eliminate, List.take_append_drop]
      exact hperm
    · intro s hs d hd
      have hsplit := List.take_append_drop ((env.sort losses).length / 2) (env.sort losses)
      rw [← hsplit, List.pairwise_append] at hsorted
      have hrel := hsorted.2.2 s hs d hd
      simpa [HypotheseLoss.lt] using hrel

theorem eliminate_keeps_better_half_witness :
    StdSortContract (labEnv (fun _ => true)).sort ∧
      (eliminate (labEnv (fun _ => true)) [⟨3, 1, 1, []⟩, ⟨1, 2, 2, []⟩, ⟨2, 3, 3, []⟩]).length
        = [(⟨3, 1, 1, []⟩ : HypotheseLoss Nat), ⟨1, 2, 2, []⟩, ⟨2, 3, 3, []⟩].length / 2 ∧
      (eliminate (labEnv (fun _ => true)) [⟨3, 1, 1, []⟩, ⟨1, 2, 2, []⟩, ⟨2, 3, 3, []⟩]).Subperm
        [⟨3, 1, 1, []⟩, ⟨1, 2, 2, []⟩, ⟨2, 3, 3, []⟩] ∧
      ∃ discarded,
        (eliminate (labEnv (fun _ => true)) [⟨3, 1, 1, []⟩, ⟨1, 2, 2, []⟩, ⟨2, 3, 3, []⟩]
          ++ discarded).Perm [⟨3, 1, 1, []⟩, ⟨1, 2, 2, []⟩, ⟨2, 3, 3, []⟩] ∧
        ∀ s ∈ eliminate (labEnv (fun _ => true)) [⟨3, 1, 1, []⟩, ⟨1, 2, 2, []⟩, ⟨2, 3, 3, []⟩],
          ∀ d ∈ discarded, s.loss_ ≤ d.loss_ :=
  ⟨insertionSort_contract,
    eliminate_keeps_better_half (labEnv (fun _ => true)) insertionSort_contract
      [⟨3, 1, 1, []⟩, ⟨1, 2, 2, []⟩, ⟨2, 3, 3, []⟩]⟩

/-- C6: every hypothesis `h'` that survives a round comes from a hypothesis `h` of the pool
before the round by scoring and refinement only; scoring adds to the loss exactly the number of
projected block points whose reprojection distance exceeds the threshold, a number between 0 and
`B`; sorting, truncation and refinement leave the loss as scoring made it; so the loss after the
round is at least the loss before it. -/
theorem round_loss_nondecreasing {M : Type} (env : Extern M)
    (hsort : StdSortContract env.sort) (hproj : ProjectorContract env)
    (img_pts : List Point2d) (wld_pts : List Point3d) (camera_matrix dist_coeff : M)
    (reproj_threshold : ℚ) (N : Nat) (losses : List (HypotheseLoss M)) (g : Rand) :
    ∀ h' ∈ (round env img_pts wld_pts camera_matrix dist_coeff reproj_threshold N losses g).1,
      ∃ h ∈ losses,
        h' = refineHyp env camera_matrix dist_coeff
            (sampleBlock img_pts wld_pts N B g [] []).1
            (sampleBlock img_pts wld_pts N B g [] []).2.1
            (scoreHyp env camera_matrix dist_coeff reproj_threshold
              (sampleBlock img_pts wld_pts N B g [] []).1
              (sampleBlock img_pts wld_pts N B g [] []).2.1 h) ∧
        (scoreHyp env camera_matrix dist_coeff reproj_threshold
            (sampleBlock img_pts wld_pts N B g [] []).1
            (sampleBlock img_pts wld_pts N B g [] []).2.1 h).loss_ =
          h.loss_ + outlierCount env camera_matrix dist_coeff reproj_threshold
            (sampleBlock img_pts wld_pts N B g [] []).1
            (sampleBlock img_pts wld_pts N B g [] []).2.1 h ∧
        h'.loss_ =
          h.loss_ + outlierCount env camera_matrix dist_coeff reproj_threshold
            (sampleBlock img_pts wld_pts N B g [] []).1
            (sampleBlock img_pts wld_pts N B g [] []).2.1 h ∧
        outlierCount env camera_matrix dist_coeff reproj_threshold
            (sampleBlock img_pts wld_pts N B g [] []).1
            (sampleBlock img_pts wld_pts N B g [] []).2.1 h ≤ B ∧
        h.loss_ ≤ h'.loss_ := by
  intro h' hmem
  simp only [round, List.mem_map] at hmem
  obtain ⟨s, hs, rfl⟩ := hmem
  have hsub := (eliminate_subperm env hsort
    (losses.map (scoreHyp env camera_matrix dist_coeff reproj_threshold
      (sampleBlock img_pts wld_pts N B g [] []).1
      (sampleBlock img_pts wld_pts N B g [] []).2.1)))
  obtain ⟨h, hh, rfl⟩ := List.mem_map.1 (hsub.subset hs)
  have hscore := scoreHyp_loss env camera_matrix dist_coeff reproj_threshold
      (sampleBlock img_pts wld_pts N B g [] []).1
      (sampleBlock img_pts wld_pts N B g [] []).2.1 h
  have hbound : outlierCount env camera_matrix dist_coeff reproj_threshold
      (sampleBlock img_pts wld_pts N B g [] []).1
      (sampleBlock img_pts wld_pts N B g [] []).2.1 h ≤ B := by
    refine le_trans (List.length_filter_le _ _) ?_
    rw [List.enum_length, hproj, (sampleBlock_length img_pts wld_pts N B g).2]
  refine ⟨h, hh, rfl, hscore, ?_, hbound, ?_⟩
  · rw [refineHyp_loss, hscore]
  · rw [refineHyp_loss, hscore]
    exact Nat.le_add_right _ _

theorem round_loss_nondecreasing_witness :
    StdSortContract (labEnv (fun _ => true)).sort ∧ ProjectorContract (labEnv (fun _ => true)) ∧
    ∀ h' ∈ (round (labEnv (fun _ => true)) imgPts wldPts 0 0 8 501 (seededPool 4)
        (countFrom 0)).1,
      ∃ h ∈ seededPool 4,
        h' = refineHyp (labEnv (fun _ => true)) 0 0
            (sampleBlock imgPts wldPts 501 B (countFrom 0) [] []).1
            (sampleBlock imgPts wldPts 501 B (countFrom 0) [] []).2.1
            (scoreHyp (labEnv (fun _ => true)) 0 0 8
              (sampleBlock imgPts wldPts 501 B (countFrom 0) [] []).1
              (sampleBlock imgPts wldPts 501 B (countFrom 0) [] []).2.1 h) ∧
        (scoreHyp (labEnv (fun _ => true)) 0 0 8
            (sampleBlock imgPts wldPts 501 B (countFrom 0) [] []).1
            (sampleBlock imgPts wldPts 501 B (countFrom 0) [] []).2.1 h).loss_ =
          h.loss_ + outlierCount (labEnv (fun _ => true)) 0 0 8
            (sampleBlock imgPts wldPts 501 B (countFrom 0) [] []).1
            (sampleBlock imgPts wldPts 501 B (countFrom 0) [] []).2.1 h ∧
        h'.loss_ =
          h.loss_ + outlierCount (labEnv (fun _ => true)) 0 0 8
            (sampleBlock imgPts wldPts 501 B (countFrom 0) [] []).1
            (sampleBlock imgPts wldPts 501 B (countFrom 0) [] []).2.1 h ∧
        outlierCount (labEnv (fun _ => true)) 0 0 8
            (sampleBlock imgPts wldPts 501 B (countFrom 0) [] []).1
            (sampleBlock imgPts wldPts 501 B (countFrom 0) [] []).2.1 h ≤ B ∧
        h.loss_ ≤ h'.loss_ :=
  ⟨insertionSort_contract, labEnv_projector _,
    round_loss_nondecreasing (labEnv (fun _ => true)) insertionSort_contract
      (labEnv_projector _) imgPts wldPts 0 0 8 501 (seededPool 4) (countFrom 0)⟩

/-- C8: for every orthonormal rotation matrix (`Rᵀ R = I`, `det R = 1`), over the reals,
`rotationToQuaternion` returns a quaternion, and the standard rotation matrix of that
quaternion is the input. -/
theorem rotationToQuaternion_round_trip (rot : Mat3 ℝ) (h : IsRotation rot) :
    ∃ q, rotationToQuaternion Real.sqrt rot = some q ∧ quaternionToRotation q = rot := by
  obtain ⟨q, hq, hrot, _⟩ := rotationToQuaternion_spec rot h
  exact ⟨q, hq, hrot⟩

theorem rotationToQuaternion_round_trip_witness :
    IsRotation Mat3.identity ∧
      ∃ q, rotationToQuaternion Real.sqrt Mat3.identity = some q ∧
        quaternionToRotation q = Mat3.identity :=
  ⟨identity_isRotation, rotationToQuaternion_round_trip Mat3.identity identity_isRotation⟩

/-- C9: for every orthonormal rotation matrix, over the reals, `rotationToQuaternion`
returns a quaternion of unit norm: `w² + x² + y² + z² = 1`. -/
theorem rotationToQuaternion_unit_norm (rot : Mat3 ℝ) (h : IsRotation rot) :
    ∃ q, rotationToQuaternion Real.sqrt rot = some q ∧
      q.w ^ 2 + q.x ^ 2 + q.y ^ 2 + q.z ^ 2 = 1 := by
  obtain ⟨q, hq, _, hunit⟩ := rotationToQuaternion_spec rot h
  exact ⟨q, hq, by rw [← hunit]; ring⟩

theorem rotationToQuaternion_unit_norm_witness :
    IsRotation Mat3.identity ∧
      ∃ q, rotationToQuaternion Real.sqrt Mat3.identity = some q ∧
        q.w ^ 2 + q.x ^ 2 + q.y ^ 2 + q.z ^ 2 = 1 :=
  ⟨identity_isRotation, rotationToQuaternion_unit_norm Mat3.identity identity_isRotation⟩

/-- C10, as stated, fails in the arithmetic of the code: every entry of the matrix
`diag(10^39, -10^39, 1)` is a finite `double`, but lines 353-361 narrow the first two diagonal
entries to `+∞` and `-∞`.  The four candidates are then `(NaN, +∞, 0, NaN)`, each of the four
pivot conditions compares with a NaN and is false, and the final `else` branch, which ends in
`assert(0)`, is taken. -/
theorem rotationToQuaternion_overflow_reaches_assert :
    Mat3.hugeDiagonal.map Narrowing.narrow
        = (⟨Fl.pinf, Fl.fin 0, Fl.fin 0, Fl.fin 0, Fl.ninf, Fl.fin 0, Fl.fin 0, Fl.fin 0,
            Fl.fin 1⟩ : Mat3 (Fl (Format.binary32 : Format ℝ))) ∧
      quaternionCandidates (floatSqrt (Fl.sqrt Format.exact Real.sqrt))
          (Mat3.hugeDiagonal.map Narrowing.narrow) = (Fl.nan, Fl.pinf, Fl.fin 0, Fl.nan) ∧
      rotationToQuaternion (Fl.sqrt Format.exact Real.sqrt) Mat3.hugeDiagonal = none :=
  ⟨narrow_hugeDiagonal, candidates_hugeDiagonal, rotationToQuaternion_hugeDiagonal⟩

/-- C10, amended: for every 3x3 matrix of finite doubles whose three diagonal entries have
magnitude at most `2^127`, so that they stay finite in `float`, one of the four pivot
conditions of lines 375, 380, 385 and 390 holds in the arithmetic of the code, the final
`else` branch is not taken and `rotationToQuaternion` returns a quaternion. -/
theorem rotationToQuaternion_pivot_total_of_finite (rot : Mat3 ℝ) (h11 : |rot.r11| ≤ 2 ^ 127)
    (h22 : |rot.r22| ≤ 2 ^ 127) (h33 : |rot.r33| ≤ 2 ^ 127) :
    (((quaternionCandidates (floatSqrt (Fl.sqrt Format.exact Real.sqrt))
            (rot.toDouble.map Narrowing.narrow)).1
          ≥ (quaternionCandidates (floatSqrt (Fl.sqrt Format.exact Real.sqrt))
            (rot.toDouble.map Narrowing.narrow)).2.1 ∧
        (quaternionCandidates (floatSqrt (Fl.sqrt Format.exact Real.sqrt))
            (rot.toDouble.map Narrowing.narrow)).1
          ≥ (quaternionCandidates (floatSqrt (Fl.sqrt Format.exact Real.sqrt))
            (rot.toDouble.map Narrowing.narrow)).2.2.1 ∧
        (quaternionCandidates (floatSqrt (Fl.sqrt Format.exact Real.sqrt))
            (rot.toDouble.map Narrowing.narrow)).1
          ≥ (quaternionCandidates (floatSqrt (Fl.sqrt Format.exact Real.sqrt))
            (rot.toDouble.map Narrowing.narrow)).2.2.2) ∨
      ((quaternionCandidates (floatSqrt (Fl.sqrt Format.exact Real.sqrt))
            (rot.toDouble.map Narrowing.narrow)).2.1
          ≥ (quaternionCandidates (floatSqrt (Fl.sqrt Format.exact Real.sqrt))
            (rot.toDouble.map Narrowing.narrow)).1 ∧
        (quaternionCandidates (floatSqrt (Fl.sqrt Format.exact Real.sqrt))
            (rot.toDouble.map Narrowing.narrow)).2.1
          ≥ (quaternionCandidates (floatSqrt (Fl.sqrt Format.exact Real.sqrt))
            (rot.toDouble.map Narrowing.narrow)).2.2.1 ∧
        (quaternionCandidates (floatSqrt (Fl.sqrt Format.exact Real.sqrt))
            (rot.toDouble.map Narrowing.narrow)).2.1
          ≥ (quaternionCandidates (floatSqrt (Fl.sqrt Format.exact Real.sqrt))
            (rot.toDouble.map Narrowing.narrow)).2.2.2) ∨
      ((quaternionCandidates (floatSqrt (Fl.sqrt Format.exact Real.sqrt))
            (rot.toDouble.map Narrowing.narrow)).2.2.1
          ≥ (quaternionCandidates (floatSqrt (Fl.sqrt Format.exact Real.sqrt))
            (rot.toDouble.map Narrowing.narrow)).1 ∧
        (quaternionCandidates (floatSqrt (Fl.sqrt Format.exact Real.sqrt))
            (rot.toDouble.map Narrowing.narrow)).2.2.1
          ≥ (quaternionCandidates (floatSqrt (Fl.sqrt Format.exact Real.sqrt))
            (rot.toDouble.map Narrowing.narrow)).2.1 ∧
        (quaternionCandidates (floatSqrt (Fl.sqrt Format.exact Real.sqrt))
            (rot.toDouble.map Narrowing.narrow)).2.2.1
          ≥ (quaternionCandidates (floatSqrt (Fl.sqrt Format.exact Real.sqrt))
            (rot.toDouble.map Narrowing.narrow)).2.2.2) ∨
      ((quaternionCandidates (floatSqrt (Fl.sqrt Format.exact Real.sqrt))
            (rot.toDouble.map Narrowing.narrow)).2.2.2
          ≥ (quaternionCandidates (floatSqrt (Fl.sqrt Format.exact Real.sqrt))
            (rot.toDouble.map Narrowing.narrow)).1 ∧
        (quaternionCandidates (floatSqrt (Fl.sqrt Format.exact Real.sqrt))
            (rot.toDouble.map Narrowing.narrow)).2.2.2
          ≥ (quaternionCandidates (floatSqrt (Fl.sqrt Format.exact Real.sqrt))
            (rot.toDouble.map Narrowing.narrow)).2.1 ∧
        (quaternionCandidates (floatSqrt (Fl.sqrt Format.exact Real.sqrt))
            (rot.toDouble.map Narrowing.narrow)).2.2.2
          ≥ (quaternionCandidates (floatSqrt (Fl.sqrt Format.exact Real.sqrt))
            (rot.toDouble.map Narrowing.narrow)).2.2.1)) ∧
      ∃ q, rotationToQuaternion (Fl.sqrt Format.exact Real.sqrt) rot.toDouble = some q := by
  obtain ⟨c0, c1, c2, c3⟩ := quaternionCandidates_cases rot h11 h22 h33
  exact ⟨Fl.pivot_total _ _ _ _ c0 c1 c2 c3,
    rotationToQuaternion_binary32_isSome rot h11 h22 h33⟩

theorem rotationToQuaternion_pivot_total_of_finite_witness :
    |Mat3.identity.r11| ≤ 2 ^ 127 ∧ |Mat3.identity.r22| ≤ 2 ^ 127 ∧
      |Mat3.identity.r33| ≤ 2 ^ 127 ∧
      ∃ q, rotationToQuaternion (Fl.sqrt Format.exact Real.sqrt) Mat3.identity.toDouble
        = some q :=
  ⟨by norm_num [Mat3.identity], by norm_num [Mat3.identity], by norm_num [Mat3.identity],
    (rotationToQuaternion_pivot_total_of_finite Mat3.identity (by norm_num [Mat3.identity])
      (by norm_num [Mat3.identity]) (by norm_num [Mat3.identity])).2⟩

/-- C11 at the failing input: the pose whose rotation block is the quarter turn about the x
axis, an orthonormal rotation with entries 0, 1 and -1.  In the `float` arithmetic of lines
353-404 `rotationToQuaternion` returns `(g, g, 0, 0)` with `g = 11863284 / 2^24`, the `float`
above `√(1/2)`; the dot product of this quaternion with itself is `2 g²`, which exceeds 1, so
the `acos` of line 333 is applied outside its domain and the angle distance of the pose to
itself is NaN, not 0. -/
theorem poseDistance_self_quarter_turn_is_nan :
    IsRotation (rotationBlock quarterTurnPose) ∧
      rotationToQuaternion (Fl.sqrt Format.exact Real.sqrt)
          (rotationBlock (poseToDouble quarterTurnPose))
        = some ⟨Fl.fin (11863284 / 16777216), Fl.fin (11863284 / 16777216), Fl.fin 0,
            Fl.fin 0⟩ ∧
      (1 : ℝ) < 11863284 / 16777216 * (11863284 / 16777216)
        + 11863284 / 16777216 * (11863284 / 16777216) + 0 * 0 + 0 * 0 ∧
      poseDistance (Fl.sqrt Format.exact Real.sqrt) (Fl.acos Format.exact Real.arccos)
          (poseToDouble quarterTurnPose) (poseToDouble quarterTurnPose)
        = some (Fl.nan, Fl.fin 0) := by
  have hq : rotationToQuaternion (Fl.sqrt Format.exact Real.sqrt)
      (rotationBlock (poseToDouble quarterTurnPose))
      = some ⟨Fl.fin (11863284 / 16777216), Fl.fin (11863284 / 16777216), Fl.fin 0,
          Fl.fin 0⟩ := rotationToQuaternion_quarterTurnX
  have hbig : (1 : ℝ) < 11863284 / 16777216 * (11863284 / 16777216)
      + 11863284 / 16777216 * (11863284 / 16777216) + 0 * 0 + 0 * 0 := by norm_num
  refine ⟨quarterTurn_isRotation 1 (Or.inl rfl) |>.1, hq, hbig, ?_⟩
  rw [poseDistance_of_quaternions _ _ _ _ hq hq]
  have hzero : (0 : Fl (Format.exact : Format ℝ)) = Fl.fin 0 := rfl
  have hdot : (⟨Fl.fin (11863284 / 16777216), Fl.fin (11863284 / 16777216), Fl.fin 0,
      Fl.fin 0⟩ : Quaternion (Fl (Format.exact : Format ℝ))).dot
        ⟨Fl.fin (11863284 / 16777216), Fl.fin (11863284 / 16777216), Fl.fin 0, Fl.fin 0⟩
      = Fl.fin (11863284 / 16777216 * (11863284 / 16777216)
        + 11863284 / 16777216 * (11863284 / 16777216) + 0 * 0 + 0 * 0) := rfl
  have hnotneg : ¬ ((11863284 : ℝ) / 16777216 * (11863284 / 16777216)
      + 11863284 / 16777216 * (11863284 / 16777216) + 0 * 0 + 0 * 0 < 0) := by norm_num
  have hfabs : fabs (Fl.fin (11863284 / 16777216 * (11863284 / 16777216)
        + 11863284 / 16777216 * (11863284 / 16777216) + 0 * 0 + 0 * 0) :
        Fl (Format.exact : Format ℝ))
      = Fl.fin (11863284 / 16777216 * (11863284 / 16777216)
        + 11863284 / 16777216 * (11863284 / 16777216) + 0 * 0 + 0 * 0) := by
    unfold fabs
    rw [if_neg]
    rw [Fl.lt_iff, hzero]
    simp only [Fl.lt, decide_eq_true_eq]
    exact hnotneg
  have hacos : Fl.acos Format.exact Real.arccos
      (Fl.fin (11863284 / 16777216 * (11863284 / 16777216)
        + 11863284 / 16777216 * (11863284 / 16777216) + 0 * 0 + 0 * 0) :
        Fl (Format.exact : Format ℝ)) = Fl.nan := by
    simp only [Fl.acos, Or.inr hbig, if_true]
  rw [hdot, hfabs, hacos]
  have hangle : (2 : Fl (Format.exact : Format ℝ)) * Fl.nan * (180 / 3.14159) = Fl.nan := by
    rw [Fl.two_exact]
    rfl
  have hd : Fl.sqrt Format.exact Real.sqrt
      (0 + (poseToDouble quarterTurnPose 0 3 - poseToDouble quarterTurnPose 0 3)
          * (poseToDouble quarterTurnPose 0 3 - poseToDouble quarterTurnPose 0 3)
        + (poseToDouble quarterTurnPose 1 3 - poseToDouble quarterTurnPose 1 3)
          * (poseToDouble quarterTurnPose 1 3 - poseToDouble quarterTurnPose 1 3)
        + (poseToDouble quarterTurnPose 2 3 - poseToDouble quarterTurnPose 2 3)
          * (poseToDouble quarterTurnPose 2 3 - poseToDouble quarterTurnPose 2 3))
      = Fl.fin 0 := by
    have e0 : poseToDouble quarterTurnPose 0 3 = Fl.fin 0 := rfl
    have e1 : poseToDouble quarterTurnPose 1 3 = Fl.fin 0 := rfl
    have e2 : poseToDouble quarterTurnPose 2 3 = Fl.fin 0 := rfl
    rw [e0, e1, e2, hzero]
    simp only [Fl.sub_eq, Fl.neg_fin, Fl.fin_add_fin, Fl.fin_mul_fin, Fl.ofExact_exact,
      neg_zero, add_zero, mul_zero, Fl.sqrt, lt_irrefl, if_false, Real.sqrt_zero]
  rw [hangle, hd]

/-- C12: for every pair of poses, `poseDistance(A, B)` and `poseDistance(B, A)` yield the
same angle distance and the same Euclidean distance. -/
theorem poseDistance_symm (A B : Matrix (Fin 4) (Fin 4) ℝ) :
    poseDistance Real.sqrt Real.arccos A B = poseDistance Real.sqrt Real.arccos B A := by
  simp only [poseDistance]
  cases hA : rotationToQuaternion Real.sqrt (rotationBlock A) <;>
    cases hB : rotationToQuaternion Real.sqrt (rotationBlock B)
  · rfl
  · rfl
  · rfl
  · simp only [Option.some.injEq, Prod.mk.injEq]
    refine ⟨by rw [Quaternion.dot_comm], ?_⟩
    congr 1
    ring

/-- C14, as stated, fails: on the rotation by 90 degrees about the x axis the x component
that `rotationToEularAngle` returns is `-(π / 2) * (180 / 3.14159)`, whose magnitude exceeds
90. -/
theorem rotationToEularAngle_quarterTurnX_not_90 :
    IsRotation (Mat3.quarterTurnX 1) ∧
      90 < |(rotationToEularAngle Real.sqrt (fun y x => Complex.arg ⟨x, y⟩) Real.sin Real.cos
        (Mat3.quarterTurnX 1)).1| := by
  refine ⟨(quarterTurn_isRotation 1 (Or.inl rfl)).1, ?_⟩
  rw [(rotationToEularAngle_quarterTurn 1 (Or.inl rfl)).1]
  have hpi := Real.pi_gt_d6
  have hscale : (0 : ℝ) < 180 / 3.14159 := by norm_num
  have hone : (3.14159 : ℝ) * (180 / 3.14159) = 180 := by norm_num
  have hneg : -1 * (Real.pi / 2) * (180 / 3.14159) < 0 := by nlinarith
  simp only
  rw [abs_of_neg hneg]
  nlinarith

/-- C14, amended: on a rotation by 90 degrees about a principal axis, in either direction,
`rotationToEularAngle` returns a vector whose component for that axis has magnitude
`90 * (π / 3.14159)` and whose other two components are 0. -/
theorem rotationToEularAngle_quarter_turn_angles (s : ℝ) (hs : s = 1 ∨ s = -1) :
    ∃ theta : ℝ, |theta| = 90 * (Real.pi / 3.14159) ∧
      rotationToEularAngle Real.sqrt (fun y x => Complex.arg ⟨x, y⟩) Real.sin Real.cos
        (Mat3.quarterTurnX s) = (theta, 0, 0) ∧
      rotationToEularAngle Real.sqrt (fun y x => Complex.arg ⟨x, y⟩) Real.sin Real.cos
        (Mat3.quarterTurnY s) = (0, theta, 0) ∧
      rotationToEularAngle Real.sqrt (fun y x => Complex.arg ⟨x, y⟩) Real.sin Real.cos
        (Mat3.quarterTurnZ s) = (0, 0, theta) := by
  obtain ⟨hx, hy, hz⟩ := rotationToEularAngle_quarterTurn s hs
  refine ⟨-s * (Real.pi / 2) * (180 / 3.14159), ?_, hx, hy, hz⟩
  have hpos : 0 ≤ Real.pi / 2 * (180 / 3.14159) := by positivity
  rcases hs with rfl | rfl
  · rw [show -1 * (Real.pi / 2) * (180 / 3.14159) = -(Real.pi / 2 * (180 / 3.14159)) by ring,
      abs_neg, abs_of_nonneg hpos]
    ring
  · rw [show - -1 * (Real.pi / 2) * (180 / 3.14159) = Real.pi / 2 * (180 / 3.14159) by ring,
      abs_of_nonneg hpos]
    ring

theorem rotationToEularAngle_quarter_turn_angles_witness :
    ((1 : ℝ) = 1 ∨ (1 : ℝ) = -1) ∧
    ∃ theta : ℝ, |theta| = 90 * (Real.pi / 3.14159) ∧
      rotationToEularAngle Real.sqrt (fun y x => Complex.arg ⟨x, y⟩) Real.sin Real.cos
        (Mat3.quarterTurnX 1) = (theta, 0, 0) ∧
      rotationToEularAngle Real.sqrt (fun y x => Complex.arg ⟨x, y⟩) Real.sin Real.cos
        (Mat3.quarterTurnY 1) = (0, theta, 0) ∧
      rotationToEularAngle Real.sqrt (fun y x => Complex.arg ⟨x, y⟩) Real.sin Real.cos
        (Mat3.quarterTurnZ 1) = (0, 0, theta) :=
  ⟨Or.inl rfl, rotationToEularAngle_quarter_turn_angles 1 (Or.inl rfl)⟩

/-- C15: for the 3x3 identity rotation `rotationToEularAngle` returns `(0, 0, 0)`. -/
theorem rotationToEularAngle_identity :
    rotationToEularAngle Real.sqrt (fun y x => Complex.arg ⟨x, y⟩) Real.sin Real.cos
      Mat3.identity = (0, 0, 0) := by
  simp [rotationToEularAngle, Mat3.identity, arg_mk_one_zero]

/-- C16: for every orthonormal rotation `R` and translation `t`, the pose that
`preemptiveRANSAC` and `estimateCameraPose` hand back, the matrix inverse of the 4x4 matrix
assembled from `R` and `t`, is `[Rᵀ | -Rᵀ t]` with bottom row `(0, 0, 0, 1)`. -/
theorem cameraPose_eq_rigidInverse (rot : Mat3 ℝ) (tvec : Vec3 ℝ) (h : IsRotation rot) :
    cameraPose (fun A => A⁻¹) rot tvec = rigidInverse rot tvec ∧
      rotationBlock (cameraPose (fun A => A⁻¹) rot tvec) =
        ⟨rot.r11, rot.r21, rot.r31, rot.r12, rot.r22, rot.r32, rot.r13, rot.r23, rot.r33⟩ ∧
      cameraPose (fun A => A⁻¹) rot tvec 3 0 = 0 ∧ cameraPose (fun A => A⁻¹) rot tvec 3 1 = 0 ∧
      cameraPose (fun A => A⁻¹) rot tvec 3 2 = 0 ∧ cameraPose (fun A => A⁻¹) rot tvec 3 3 = 1 := by
  have hinv : cameraPose (fun A => A⁻¹) rot tvec = rigidInverse rot tvec := by
    simp only [cameraPose]
    exact Matrix.inv_eq_left_inv (rigidInverse_mul_assemblePose rot tvec h)
  rw [hinv]
  exact ⟨rfl, rfl, rfl, rfl, rfl, rfl⟩

theorem cameraPose_eq_rigidInverse_witness :
    IsRotation Mat3.identity ∧
      cameraPose (fun A => A⁻¹) Mat3.identity ⟨1, 2, 3⟩ = rigidInverse Mat3.identity ⟨1, 2, 3⟩ ∧
      rotationBlock (cameraPose (fun A => A⁻¹) Mat3.identity ⟨1, 2, 3⟩) =
        ⟨Mat3.identity.r11, Mat3.identity.r21, Mat3.identity.r31, Mat3.identity.r12,
          Mat3.identity.r22, Mat3.identity.r32, Mat3.identity.r13, Mat3.identity.r23,
          Mat3.identity.r33⟩ ∧
      cameraPose (fun A => A⁻¹) Mat3.identity ⟨1, 2, 3⟩ 3 0 = 0 ∧
      cameraPose (fun A => A⁻¹) Mat3.identity ⟨1, 2, 3⟩ 3 1 = 0 ∧
      cameraPose (fun A => A⁻¹) Mat3.identity ⟨1, 2, 3⟩ 3 2 = 0 ∧
      cameraPose (fun A => A⁻¹) Mat3.identity ⟨1, 2, 3⟩ 3 3 = 1 :=
  ⟨identity_isRotation, cameraPose_eq_rigidInverse Mat3.identity ⟨1, 2, 3⟩ identity_isRotation⟩

/-- C17: for every `N > 500` and every random stream on which the `do ... while` of lines
152-158 exits each time, every sample `(k1, k2, k3)` whose points the seeding loop hands to the
solver has pairwise distinct indices, each below `N`. -/
theorem seeding_samples_distinct {M : Type} [Inhabited M] (env : Extern M)
    (img_pts : List Point2d) (wld_pts : List Point3d) (camera_matrix dist_coeff : M)
    (N fuel : Nat) (g : Rand) (samples : List (Nat × Nat × Nat)) (hN : 500 < N)
    (hexit : initSamples env img_pts wld_pts camera_matrix dist_coeff N fuel num_iteration g []
      = some samples) :
    ∀ s ∈ samples, s.1 ≠ s.2.1 ∧ s.1 ≠ s.2.2 ∧ s.2.1 ≠ s.2.2 ∧
      s.1 < N ∧ s.2.1 < N ∧ s.2.2 < N :=
  initSamples_distinct env img_pts wld_pts camera_matrix dist_coeff N fuel (by omega)
    num_iteration g [] samples hexit

theorem seeding_samples_distinct_witness :
    500 < 501 ∧ ∃ samples, initSamples (labEnv (fun _ => false)) imgPts wldPts 0 0 501 1
        num_iteration (countFrom 0) [] = some samples ∧
      ∀ s ∈ samples, s.1 ≠ s.2.1 ∧ s.1 ≠ s.2.2 ∧ s.2.1 ≠ s.2.2 ∧
        s.1 < 501 ∧ s.2.1 < 501 ∧ s.2.2 < 501 := by
  have hsome : (initSamples (labEnv (fun _ => false)) imgPts wldPts 0 0 501 1
      num_iteration (countFrom 0) []).isSome = true := by
    rw [initSamples_isSome, initLoop_all_fail imgPts wldPts 0 0 0 num_iteration 0]
    rfl
  obtain ⟨samples, hsamples⟩ := Option.isSome_iff_exists.1 hsome
  exact ⟨by decide, samples, hsamples,
    seeding_samples_distinct (labEnv (fun _ => false)) imgPts wldPts 0 0 501 1 (countFrom 0)
      samples (by decide) hsamples⟩

/-- C18: starting from the hypotheses as the seeding leaves them, after `r` rounds every
hypothesis of the pool has `loss_ + inlier_indices_.size() = r * B`; so has, with `r + 1`,
every hypothesis scored in the next round, eliminated or not; and so has, with the number of
rounds run, every hypothesis of the pool with which the `while` loop exits. -/
theorem loss_plus_inliers_after_rounds {M : Type} (env : Extern M)
    (hsort : StdSortContract env.sort) (hproj : ProjectorContract env)
    (img_pts : List Point2d) (wld_pts : List Point3d) (camera_matrix dist_coeff : M)
    (reproj_threshold : ℚ) (N : Nat) (rt_candidate : List (M × M)) (g : Rand) (r : Nat) :
    (∀ h ∈ (iterRounds env img_pts wld_pts camera_matrix dist_coeff reproj_threshold N r
        (rt_candidate.map HypotheseLoss.ofCandidate) g).1,
      h.loss_ + h.inlier_indices_.length = r * B) ∧
    (∀ h ∈ (iterRounds env img_pts wld_pts camera_matrix dist_coeff reproj_threshold N r
        (rt_candidate.map HypotheseLoss.ofCandidate) g).1,
      ∀ (sampled_img_pts : List Point2d) (sampled_wld_pts : List Point3d),
        (scoreHyp env camera_matrix dist_coeff reproj_threshold sampled_img_pts
            sampled_wld_pts h).loss_
          + (scoreHyp env camera_matrix dist_coeff reproj_threshold sampled_img_pts
            sampled_wld_pts h).inlier_indices_.length = r * B + sampled_wld_pts.length) ∧
    (∀ (fuel : Nat) (final : List (HypotheseLoss M)) (rounds : Nat) (g' : Rand),
      tournament env img_pts wld_pts camera_matrix dist_coeff reproj_threshold N fuel
        (rt_candidate.map HypotheseLoss.ofCandidate) g = some (final, rounds, g') →
      ∀ h ∈ final, h.loss_ + h.inlier_indices_.length = rounds * B) := by
  have hseed : ∀ h ∈ rt_candidate.map HypotheseLoss.ofCandidate,
      h.loss_ + h.inlier_indices_.length = 0 * B := by
    intro h hmem
    obtain ⟨hl, hi⟩ := seededPool_of_candidates rt_candidate h hmem
    simp [hl, hi]
  have hiter : ∀ r, ∀ h ∈ (iterRounds env img_pts wld_pts camera_matrix dist_coeff
      reproj_threshold N r (rt_candidate.map HypotheseLoss.ofCandidate) g).1,
      h.loss_ + h.inlier_indices_.length = r * B := by
    intro r h hmem
    have := iterRounds_loss_add_inliers env hsort hproj img_pts wld_pts camera_matrix dist_coeff
      reproj_threshold N r 0 _ g hseed h hmem
    rw [this, Nat.zero_add]
  refine ⟨hiter r, ?_, ?_⟩
  · intro h hmem simg swld
    rw [scoreHyp_loss_add_inliers, hproj, hiter r h hmem]
  · intro fuel final rounds g' hrun h hmem
    have hstate := tournament_eq_iterRounds env img_pts wld_pts camera_matrix dist_coeff
      reproj_threshold N fuel _ g final rounds g' hrun
    have := hiter rounds h (by rw [hstate]; exact hmem)
    exact this

theorem loss_plus_inliers_after_rounds_witness :
    StdSortContract (labEnv (fun _ => true)).sort ∧ ProjectorContract (labEnv (fun _ => true)) ∧
    ((∀ h ∈ (iterRounds (labEnv (fun _ => true)) imgPts wldPts 0 0 8 501 2
        ([(1, 1), (1, 1), (1, 1), (1, 1)].map HypotheseLoss.ofCandidate) (countFrom 0)).1,
      h.loss_ + h.inlier_indices_.length = 2 * B) ∧
    (∀ h ∈ (iterRounds (labEnv (fun _ => true)) imgPts wldPts 0 0 8 501 2
        ([(1, 1), (1, 1), (1, 1), (1, 1)].map HypotheseLoss.ofCandidate) (countFrom 0)).1,
      ∀ (sampled_img_pts : List Point2d) (sampled_wld_pts : List Point3d),
        (scoreHyp (labEnv (fun _ => true)) 0 0 8 sampled_img_pts sampled_wld_pts h).loss_
          + (scoreHyp (labEnv (fun _ => true)) 0 0 8 sampled_img_pts
            sampled_wld_pts h).inlier_indices_.length = 2 * B + sampled_wld_pts.length) ∧
    (∀ (fuel : Nat) (final : List (HypotheseLoss Nat)) (rounds : Nat) (g' : Rand),
      tournament (labEnv (fun _ => true)) imgPts wldPts 0 0 8 501 fuel
        ([(1, 1), (1, 1), (1, 1), (1, 1)].map HypotheseLoss.ofCandidate) (countFrom 0)
        = some (final, rounds, g') →
      ∀ h ∈ final, h.loss_ + h.inlier_indices_.length = rounds * B)) :=
  ⟨insertionSort_contract, labEnv_projector _,
    loss_plus_inliers_after_rounds (labEnv (fun _ => true)) insertionSort_contract
      (labEnv_projector _) imgPts wldPts 0 0 8 501 [(1, 1), (1, 1), (1, 1), (1, 1)]
      (countFrom 0) 2⟩

/-- C19: with more than 500 correspondences and a projector that returns one point per block
point, in every round every index stored in a hypothesis's `inlier_indices_` is below `B`;
every index drawn for the block is below the sizes of `img_pts` and `wld_pts`; the block holds
`B` points; and every index that the refinement step looks up in the block is below the size
of the block. -/
theorem tournament_lookups_in_bounds {M : Type} (env : Extern M)
    (hsort : StdSortContract env.sort) (hproj : ProjectorContract env)
    (img_pts : List Point2d) (wld_pts : List Point3d)
    (hsize : img_pts.length = wld_pts.length) (h500 : img_pts.length > 500)
    (camera_matrix dist_coeff : M) (reproj_threshold : ℚ) (rt_candidate : List (M × M))
    (g : Rand) (r : Nat) :
    (∀ h ∈ (iterRounds env img_pts wld_pts camera_matrix dist_coeff reproj_threshold
        img_pts.length r (rt_candidate.map HypotheseLoss.ofCandidate) g).1,
      ∀ index ∈ h.inlier_indices_, index < B) ∧
    (∀ (losses : List (HypotheseLoss M)) (gr : Rand),
      (∀ h ∈ losses, ∀ index ∈ h.inlier_indices_, index < B) →
      (∀ index ∈ blockIndices img_pts.length B gr,
        index < img_pts.length ∧ index < wld_pts.length) ∧
      (sampleBlock img_pts wld_pts img_pts.length B gr [] []).1
        = (blockIndices img_pts.length B gr).map (fun index => img_pts.getD index default) ∧
      (sampleBlock img_pts wld_pts img_pts.length B gr [] []).2.1
        = (blockIndices img_pts.length B gr).map (fun index => wld_pts.getD index default) ∧
      (sampleBlock img_pts wld_pts img_pts.length B gr [] []).1.length = B ∧
      (sampleBlock img_pts wld_pts img_pts.length B gr [] []).2.1.length = B ∧
      ∀ h ∈ eliminate env (losses.map (scoreHyp env camera_matrix dist_coeff reproj_threshold
          (sampleBlock img_pts wld_pts img_pts.length B gr [] []).1
          (sampleBlock img_pts wld_pts img_pts.length B gr [] []).2.1)),
        ∀ index ∈ h.inlier_indices_,
          index < (sampleBlock img_pts wld_pts img_pts.length B gr [] []).1.length ∧
          index < (sampleBlock img_pts wld_pts img_pts.length B gr [] []).2.1.length) := by
  have hseed : ∀ h ∈ rt_candidate.map HypotheseLoss.ofCandidate,
      ∀ index ∈ h.inlier_indices_, index < B := by
    intro h hmem index hidx
    rw [(seededPool_of_candidates rt_candidate h hmem).2] at hidx
    simp at hidx
  refine ⟨iterRounds_inliers_lt env hsort hproj img_pts wld_pts camera_matrix dist_coeff
    reproj_threshold img_pts.length r _ g hseed, ?_⟩
  intro losses gr hinv
  obtain ⟨hl1, hl2⟩ := sampleBlock_length img_pts wld_pts img_pts.length B gr
  obtain ⟨hb1, hb2⟩ := sampleBlock_eq_blockIndices img_pts wld_pts img_pts.length B gr
  refine ⟨?_, hb1, hb2, hl1, hl2, ?_⟩
  · intro index hmem
    have hlt := blockIndices_lt img_pts.length B gr (by omega) index hmem
    exact ⟨hlt, by omega⟩
  · intro h hmem index hidx
    obtain ⟨h0, hh0, rfl⟩ := List.mem_map.1 ((eliminate_subperm env hsort _).subset hmem)
    rw [hl1, hl2]
    rw [scoreHyp_inliers] at hidx
    rcases List.mem_append.1 hidx with hold | hnew
    · exact ⟨hinv h0 hh0 index hold, hinv h0 hh0 index hold⟩
    · have hlt := inliersOfRound_lt env camera_matrix dist_coeff reproj_threshold _ _ h0
        index hnew
      rw [hproj, hl2] at hlt
      exact ⟨hlt, hlt⟩

theorem tournament_lookups_in_bounds_witness :
    StdSortContract (labEnv (fun _ => true)).sort ∧ ProjectorContract (labEnv (fun _ => true)) ∧
    imgPts.length = wldPts.length ∧ imgPts.length > 500 ∧
    ((∀ h ∈ (iterRounds (labEnv (fun _ => true)) imgPts wldPts 0 0 8
        imgPts.length 2 ([(1, 1), (1, 1), (1, 1), (1, 1)].map HypotheseLoss.ofCandidate)
        (countFrom 0)).1,
      ∀ index ∈ h.inlier_indices_, index < B) ∧
    (∀ (losses : List (HypotheseLoss Nat)) (gr : Rand),
      (∀ h ∈ losses, ∀ index ∈ h.inlier_indices_, index < B) →
      (∀ index ∈ blockIndices imgPts.length B gr,
        index < imgPts.length ∧ index < wldPts.length) ∧
      (sampleBlock imgPts wldPts imgPts.length B gr [] []).1
        = (blockIndices imgPts.length B gr).map (fun index => imgPts.getD index default) ∧
      (sampleBlock imgPts wldPts imgPts.length B gr [] []).2.1
        = (blockIndices imgPts.length B gr).map (fun index => wldPts.getD index default) ∧
      (sampleBlock imgPts wldPts imgPts.length B gr [] []).1.length = B ∧
      (sampleBlock imgPts wldPts imgPts.length B gr [] []).2.1.length = B ∧
      ∀ h ∈ eliminate (labEnv (fun _ => true)) (losses.map (scoreHyp (labEnv (fun _ => true))
          0 0 8 (sampleBlock imgPts wldPts imgPts.length B gr [] []).1
          (sampleBlock imgPts wldPts imgPts.length B gr [] []).2.1)),
        ∀ index ∈ h.inlier_indices_,
          index < (sampleBlock imgPts wldPts imgPts.length B gr [] []).1.length ∧
          index < (sampleBlock imgPts wldPts imgPts.length B gr [] []).2.1.length)) :=
  ⟨insertionSort_contract, labEnv_projector _, imgPts_length.trans wldPts_length.symm,
    by rw [imgPts_length]; decide,
    tournament_lookups_in_bounds (labEnv (fun _ => true)) insertionSort_contract
      (labEnv_projector _) imgPts wldPts (imgPts_length.trans wldPts_length.symm)
      (by rw [imgPts_length]; decide) 0 0 8 [(1, 1), (1, 1), (1, 1), (1, 1)] (countFrom 0) 2⟩

end CvxPoseEstimation
